import Mathlib

/-!
A shallow embedding of the `jsonschema` Go package (`reflect.go`): reflection
of Go type descriptions into JSON-Schema documents.

Modelling conventions:
* `reflect.Type` is embedded as the closed inductive `GoType`.  Go type
  identity is structural equality of `GoType` values; a declared name is part
  of the value, so two distinct Go types that share a `Name()` are two
  different `GoType` values with equal `name` components.  Method sets are
  abstracted to lists of method names; `Implements` is method-name-set
  inclusion (the empty interface is implemented by every type).
* Go `interface{}` values (enum values, tag-derived defaults and examples)
  are embedded as `IfaceVal`.
* The mutable `definitions` map and the in-place mutation of schema nodes are
  embedded by explicit state passing; `Definitions` is an association list
  with insert-or-replace semantics standing in for the Go map.
* Go's unbounded recursion over the (possibly cyclic) type graph is embedded
  with a fuel parameter: every recursive call consumes one unit, `Res.fuelOut`
  reports exhaustion.  `panic` is embedded as `Res.fatal` (the message text is
  approximated; only the fact of fatal failure matters).
* Fields of the Go `Type` struct that no code path of `reflect.go` ever
  assigns (`AdditionalItems`, `MaxProperties`, `MinProperties`,
  `PatternProperties`, `Dependencies`, `AnyOf`, `Not`, the nested
  `Definitions`) are omitted from the node model, since they are constant.
-/

/-- Go `reflect.Kind` values for the integer kinds. -/
inductive IntKind where
  | i | i8 | i16 | i32 | i64 | u | u8 | u16 | u32 | u64
deriving DecidableEq

/-- Go `reflect.Kind` values for the floating-point kinds. -/
inductive FloatKind where
  | f32 | f64
deriving DecidableEq

mutual
/-- A Go type description (`reflect.Type`).  `otherT` stands for every kind
outside the set handled by `reflectTypeToSchema` (chan, func, complex,
uintptr, unsafe pointer), carrying the kind's name for the failure message. -/
inductive GoType where
  | structT (name : String) (methods : List String) (fields : GoFields)
  | mapT (name : String) (methods : List String) (key elem : GoType)
  | sliceT (name : String) (methods : List String) (elem : GoType)
  | arrayT (name : String) (methods : List String) (length : Nat) (elem : GoType)
  | interfaceT (name : String) (methods : List String)
  | intT (name : String) (methods : List String) (k : IntKind)
  | floatT (name : String) (methods : List String) (k : FloatKind)
  | boolT (name : String) (methods : List String)
  | stringT (name : String) (methods : List String)
  | ptrT (name : String) (methods : List String) (elem : GoType)
  | otherT (name : String) (methods : List String) (kindName : String)
deriving DecidableEq

/-- The declared fields of a struct type, in declaration order. -/
inductive GoFields where
  | nil
  | cons (f : GoField) (rest : GoFields)
deriving DecidableEq

/-- A `reflect.StructField`: name, package path (empty iff exported),
embedded flag, and the four struct tags read by the code.  `tagJson` is
`Option` because the code distinguishes presence (`Tag.Lookup`) of the
`json` tag; the other tags are read with `Tag.Get` (absent = `""`). -/
inductive GoField where
  | mk (name pkgPath : String) (anonymous : Bool) (tagJson : Option String)
       (tagYaml tagJsonschema tagJsonschemaDesc : String) (typ : GoType)
deriving DecidableEq
end

namespace GoField

def name : GoField → String
  | .mk n _ _ _ _ _ _ _ => n

def pkgPath : GoField → String
  | .mk _ p _ _ _ _ _ _ => p

def anonymous : GoField → Bool
  | .mk _ _ a _ _ _ _ _ => a

def tagJson : GoField → Option String
  | .mk _ _ _ j _ _ _ _ => j

def tagYaml : GoField → String
  | .mk _ _ _ _ y _ _ _ => y

def tagJsonschema : GoField → String
  | .mk _ _ _ _ _ js _ _ => js

def tagJsonschemaDesc : GoField → String
  | .mk _ _ _ _ _ _ d _ => d

def typ : GoField → GoType
  | .mk _ _ _ _ _ _ _ t => t

end GoField

/-- `reflect.Type.Name()`. -/
def goName : GoType → String
  | .structT n _ _ => n
  | .mapT n _ _ _ => n
  | .sliceT n _ _ => n
  | .arrayT n _ _ _ => n
  | .interfaceT n _ => n
  | .intT n _ _ => n
  | .floatT n _ _ => n
  | .boolT n _ => n
  | .stringT n _ => n
  | .ptrT n _ _ => n
  | .otherT n _ _ => n

/-- The (abstracted) method set of a type. -/
def goMethods : GoType → List String
  | .structT _ m _ => m
  | .mapT _ m _ _ => m
  | .sliceT _ m _ => m
  | .arrayT _ m _ _ => m
  | .interfaceT _ m => m
  | .intT _ m _ => m
  | .floatT _ m _ => m
  | .boolT _ m => m
  | .stringT _ m => m
  | .ptrT _ m _ => m
  | .otherT _ m _ => m

/-- `t.Implements(i)`: every method of the interface `i` is in `t`'s method
set.  Go panics when `i` is not an interface; the code only calls this with
interface arguments, so non-interfaces map to `false` here. -/
def goImplements (t i : GoType) : Bool :=
  match i with
  | .interfaceT _ ims => ims.all (fun m => (goMethods t).contains m)
  | _ => false

/-- A Go `interface{}` value: strings and ints (from tag parsing), lists
(array-keyword defaults), and opaque values tagged with their runtime type
(enum registration). -/
inductive IfaceVal where
  | str (s : String)
  | int (n : Int)
  | list (vs : List IfaceVal)
  | gv (typ : GoType) (payload : String)

/-- The predeclared Go `string` type. -/
def goStringType : GoType := .stringT "string" []

/-- The predeclared Go `int` type. -/
def goIntType : GoType := .intT "int" [] .i

/-- The predeclared Go `uint8` (= `byte`) type. -/
def goUint8Type : GoType := .intT "uint8" [] .u8

/-- `reflect.TypeOf` on an `interface{}` value (its dynamic type). -/
def ifaceTypeOf : IfaceVal → GoType
  | .str _ => goStringType
  | .int _ => goIntType
  | .list _ => .sliceT "" [] (.interfaceT "" [])
  | .gv t _ => t

/-- `Version` — the JSON Schema version string. -/
def Version : String := "http://json-schema.org/draft-04/schema#"

/-- `timeType = reflect.TypeOf(time.Time{})`.  Internal fields and methods
are irrelevant to the code (it only compares identity before any traversal),
so they are left empty. -/
def timeType : GoType := .structT "Time" [] .nil

/-- `ipType = reflect.TypeOf(net.IP{})` — a named slice of bytes. -/
def ipType : GoType := .sliceT "IP" [] goUint8Type

/-- `uriType = reflect.TypeOf(url.URL{})`. -/
def uriType : GoType := .structT "URL" [] .nil

/-- `byteSliceType = reflect.TypeOf([]byte(nil))` — the unnamed slice of
`uint8`. -/
def byteSliceType : GoType := .sliceT "" [] goUint8Type

/-- `protoEnumType`: the `protoEnum` interface, with its single method. -/
def protoEnumType : GoType := .interfaceT "protoEnum" ["EnumDescriptor"]

/-- The `additionalProperties` keyword: unset, a boolean, or a nested
schema (`interface{}` in Go). -/
inductive AddlProps (α : Type) where
  | unset
  | boolv (b : Bool)
  | schemav (t : α)

/-- The keyword bag of one JSON-Schema node (`Type` in Go), parameterized by
the node type itself to tie the recursive knot in `STy`.  Field names follow
the Go struct (with `Type` lowercased to `type`).  Zero values of the Go
struct are the defaults. -/
structure TypeNode (α : Type) where
  version : String := ""
  ref : String := ""
  multipleOf : Int := 0
  maximum : Int := 0
  exclusiveMaximum : Bool := false
  minimum : Int := 0
  exclusiveMinimum : Bool := false
  maxLength : Int := 0
  minLength : Int := 0
  pattern : String := ""
  items : Option α := none
  maxItems : Int := 0
  minItems : Int := 0
  uniqueItems : Bool := false
  required : List String := []
  properties : List (String × α) := []
  additionalProperties : AddlProps α := .unset
  enum : List IfaceVal := []
  type : String := ""
  allOf : List α := []
  oneOf : List α := []
  title : String := ""
  description : String := ""
  default : Option IfaceVal := none
  format : String := ""
  examples : List IfaceVal := []
  media : Option α := none
  binaryEncoding : String := ""

/-- A JSON-Schema node (`*Type` in Go). -/
inductive STy where
  | mk (node : TypeNode STy)

/-- Projection to the keyword bag. -/
def STy.node : STy → TypeNode STy
  | .mk n => n

@[simp] theorem STy.node_mk (n : TypeNode STy) : (STy.mk n).node = n := rfl

theorem STy.mk_node (t : STy) : STy.mk t.node = t := by cases t; rfl

/-- `Definitions` — the named-definition registry (a Go map embedded as an
association list with insert-or-replace update). -/
abbrev Defs := List (String × STy)

/-- Lookup in the definitions map (`definitions[name]`). -/
def defsGet (d : Defs) (k : String) : Option STy :=
  match d with
  | [] => none
  | (k', v) :: rest => if k' = k then some v else defsGet rest k

/-- Update in the definitions map (`definitions[name] = typ`). -/
def defsInsert (d : Defs) (k : String) (v : STy) : Defs :=
  match d with
  | [] => [(k, v)]
  | (k', v') :: rest =>
      if k' = k then (k, v) :: rest else (k', v') :: defsInsert rest k v

/-- Deletion from the definitions map (`delete(definitions, name)`). -/
def defsErase (d : Defs) (k : String) : Defs :=
  match d with
  | [] => []
  | (k', v') :: rest =>
      if k' = k then defsErase rest k else (k', v') :: defsErase rest k

/-- The keys of the definitions map. -/
def defsKeys (d : Defs) : List String := (d : List (String × STy)).map Prod.fst

/-- Lookup in a `properties` map (`st.Properties[name]`). -/
def propsGet (ps : List (String × STy)) (k : String) : Option STy :=
  match ps with
  | [] => none
  | (k', v) :: rest => if k' = k then some v else propsGet rest k

/-- Update in a `properties` map (`st.Properties[name] = property`). -/
def propsInsert (ps : List (String × STy)) (k : String) (v : STy) : List (String × STy) :=
  match ps with
  | [] => [(k, v)]
  | (k', v') :: rest =>
      if k' = k then (k, v) :: rest else (k', v') :: propsInsert rest k v

/-- Result of a traversal step: success, a Go `panic`, or fuel exhaustion
(an artifact of the embedding of unbounded recursion). -/
inductive Res (α : Type) where
  | ok (a : α)
  | fatal (msg : String)
  | fuelOut

def Res.bind : Res α → (α → Res β) → Res β
  | .ok a, f => f a
  | .fatal m, _ => .fatal m
  | .fuelOut, _ => .fuelOut

instance : Monad Res where
  pure := .ok
  bind := Res.bind

@[simp] theorem Res.bind_ok (a : α) (f : α → Res β) : (Res.ok a).bind f = f a := rfl

@[simp] theorem Res.bind_fatal (m : String) (f : α → Res β) :
    (Res.fatal m).bind f = Res.fatal m := rfl

@[simp] theorem Res.bind_fuelOut (f : α → Res β) :
    (Res.fuelOut : Res α).bind f = Res.fuelOut := rfl

/-- `DiscriminatorType`: one discriminated-union registration.  The Go map
`Ancestors` is embedded as an association list (iteration order is the list
order; a Go map never holds duplicate keys). -/
structure DiscriminatorType where
  BaseType : GoType
  DiscriminatorField : String
  Ancestors : List (String × GoType)

/-- `EnumType`: one enum registration (`Type` lowercased to `type`). -/
structure EnumType where
  type : GoType
  Values : List IfaceVal

/-- The `Reflector` configuration. -/
structure Reflector where
  AllowAdditionalProperties : Bool := false
  RequiredFromJSONSchemaTags : Bool := false
  ExpandedStruct : Bool := false
  IgnoredTypes : List GoType := []
  TypeMapper : Option (GoType → Option STy) := none
  DiscriminatedTypes : List DiscriminatorType := []
  EnumTypes : List EnumType := []

/-- `Reflector.getDiscriminator`: first registration whose base type is `t`. -/
def Reflector.getDiscriminator (r : Reflector) (t : GoType) : Option DiscriminatorType :=
  r.DiscriminatedTypes.find? (fun d => d.BaseType == t)

/-- `Reflector.getEnum`: first registration whose type is `t`. -/
def Reflector.getEnum (r : Reflector) (t : GoType) : Option EnumType :=
  r.EnumTypes.find? (fun d => d.type == t)

/-- `Reflector.isIgnored`: membership of `t` in the ignore list.  (In Go the
list holds example values and `reflect.TypeOf` is applied to each; the
embedding stores the types themselves.) -/
def Reflector.isIgnored (r : Reflector) (t : GoType) : Bool :=
  r.IgnoredTypes.any (fun ignored => ignored == t)

/-- `RegisterEnumType`: fails iff some value's runtime type differs from the
declared type; on success appends one registration. -/
def RegisterEnumType (r : Reflector) (enumType : GoType) (values : List IfaceVal) :
    Option String × Reflector :=
  match values.find? (fun v => !(ifaceTypeOf v == enumType)) with
  | some _ => (some ("value is not " ++ goName enumType ++ " type"), r)
  | none => (none, { r with EnumTypes := r.EnumTypes ++ [{ type := enumType, Values := values }] })

/-- Whether a type is of interface kind (`t.Kind() == reflect.Interface`). -/
def isInterfaceKind : GoType → Bool
  | .interfaceT _ _ => true
  | _ => false

/-- `RegisterDiscriminatorType`: fails iff the base type is not an interface
or some mapped concrete type does not implement it; on success appends one
registration. -/
def RegisterDiscriminatorType (r : Reflector) (baseType : GoType)
    (discriminatorField : String) (ancestors : List (String × GoType)) :
    Option String × Reflector :=
  if !isInterfaceKind baseType then
    (some ("base type " ++ goName baseType ++ " should be an interface"), r)
  else
    match ancestors.find? (fun p => !goImplements p.2 baseType) with
    | some p => (some ("type " ++ goName p.2 ++ " should implement " ++ goName baseType), r)
    | none =>
        (none, { r with DiscriminatedTypes := r.DiscriminatedTypes ++
          [{ BaseType := baseType, DiscriminatorField := discriminatorField,
             Ancestors := ancestors }] })

/-- `emptyObjectSchema`. -/
def emptyObjectSchema (additionalProperties : Bool) : STy :=
  .mk { type := "object", properties := [], additionalProperties := .boolv additionalProperties }

/-- `getTypeRef`. -/
def getTypeRef (name : String) : STy :=
  .mk { version := Version, ref := "#/definitions/" ++ name }

/-- `getConstStringType`. -/
def getConstStringType (value : String) : STy :=
  .mk { type := "string", default := some (IfaceVal.str value), enum := [IfaceVal.str value] }

/-- `addToDefinitions`: store the node and hand back a reference to it. -/
def addToDefinitions (definitions : Defs) (name : String) (typ : STy) : STy × Defs :=
  (getTypeRef name, defsInsert definitions name typ)

/-- `strings.Split` on a single-character separator (never returns an empty
list); implemented over the character list so that it computes by kernel
reduction. -/
def splitChAux (sep : Char) : List Char → List Char → List String
  | [], acc => [String.mk acc.reverse]
  | c :: cs, acc =>
      if c = sep then String.mk acc.reverse :: splitChAux sep cs []
      else splitChAux sep cs (c :: acc)

/-- `strings.Split(s, string(sep))` for a one-character separator. -/
def splitCh (sep : Char) (s : String) : List String := splitChAux sep s.data []

/-- `strings.Split(s, ",")`. -/
def splitComma (s : String) : List String := splitCh ',' s

/-- Byte-wise lexicographic `≤` on strings (Go's `<=` on `string`), over the
character lists; ref strings here are ASCII, where code-point order and
byte order agree. -/
def charsLe : List Char → List Char → Bool
  | [], _ => true
  | _ :: _, [] => false
  | a :: as, b :: bs =>
      if a.toNat < b.toNat then true
      else if b.toNat < a.toNat then false
      else charsLe as bs

/-- Go string `<=`. -/
def goStrLe (a b : String) : Bool := charsLe a.data b.data

/-- `stringsSliceContains`. -/
def stringsSliceContains (strs : List String) (item : String) : Bool :=
  strs.any (fun s => s == item)

/-- `ignoredByJSONTags`: the tag's first component is the sentinel `-`. -/
def ignoredByJSONTags (tags : List String) : Bool :=
  tags.headD "" == "-"

/-- `ignoredByJSONSchemaTags`. -/
def ignoredByJSONSchemaTags (tags : List String) : Bool :=
  tags.headD "" == "-"

/-- `requiredFromJSONTags`: required unless the options (after the name)
contain `omitempty`. -/
def requiredFromJSONTags (tags : List String) : Bool :=
  if ignoredByJSONTags tags then false
  else !stringsSliceContains (tags.drop 1) "omitempty"

/-- `requiredFromJSONSchemaTags`: required iff the tag contains `required`. -/
def requiredFromJSONSchemaTags (tags : List String) : Bool :=
  if ignoredByJSONSchemaTags tags then false
  else stringsSliceContains tags "required"

/-- The resolved per-field annotation (`fieldAnnotation` in Go; renamed for
the embedding). -/
structure FieldAnnot where
  Name : String
  IsRequired : Bool
  Inline : Bool
deriving DecidableEq

/-- The serialization-tag string of a field: the `json` tag when present,
otherwise the `yaml` tag. -/
def jsonTagsOf (f : GoField) : String :=
  match f.tagJson with
  | some s => s
  | none => f.tagYaml

/-- `reflectFieldName`: resolve a field's annotation from its tags.  The
second component is `exist` — whether the `json` tag is present. -/
def reflectFieldName (r : Reflector) (f : GoField) : FieldAnnot × Bool :=
  let exist := f.tagJson.isSome
  let jsonTagsList := splitComma (jsonTagsOf f)
  if ignoredByJSONTags jsonTagsList then (⟨"", false, false⟩, exist)
  else
    let jsonSchemaTags := splitComma f.tagJsonschema
    if ignoredByJSONSchemaTags jsonSchemaTags then (⟨"", false, false⟩, exist)
    else
      let name := f.name
      let required := requiredFromJSONTags jsonTagsList
      let inlined := stringsSliceContains jsonTagsList "inline"
      let required := if r.RequiredFromJSONSchemaTags then
          requiredFromJSONSchemaTags jsonSchemaTags
        else required
      let name := if jsonTagsList.headD "" ≠ "" then jsonTagsList.headD "" else name
      -- field not anonymous and not exported has no export name
      let name := if !f.anonymous && f.pkgPath ≠ "" then "" else name
      -- field anonymous but without json tag should be inherited by current type
      let name := if f.anonymous && !exist then "" else name
      (⟨name, required, inlined⟩, exist)

/-- `strconv.Atoi` (success case): optional sign followed by one or more
digits.  Range errors of the 64-bit Go `int` are not modelled. -/
def atoiOpt (s : String) : Option Int :=
  let digitsVal : List Char → Int :=
    fun cs => cs.foldl (fun a c => a * 10 + (c.toNat - 48 : Nat)) 0
  match s.data with
  | [] => none
  | '+' :: rest =>
      if rest ≠ [] ∧ rest.all Char.isDigit then some (digitsVal rest) else none
  | '-' :: rest =>
      if rest ≠ [] ∧ rest.all Char.isDigit then some (-(digitsVal rest)) else none
  | cs => if cs.all Char.isDigit then some (digitsVal cs) else none

/-- `i, _ := strconv.Atoi(val)` — the zero value stands in for a parse error. -/
def atoi (s : String) : Int := (atoiOpt s).getD 0

/-- `b, _ := strconv.ParseBool(val)` — `false` on a parse error. -/
def parseBool (s : String) : Bool :=
  s == "1" || s == "t" || s == "T" || s == "TRUE" || s == "true" || s == "True"

/-- `strings.Split(tag, "=")` filtered to the `len == 2` case used by every
keyword reader. -/
def splitEq (tag : String) : Option (String × String) :=
  match splitCh '=' tag with
  | [a, b] => some (a, b)
  | _ => none

/-- `(*Type).genericKeywords`. -/
def STy.genericKeywords (t : STy) : List String → STy
  | [] => t
  | tag :: rest =>
      let t := match splitEq tag with
        | some ("title", val) => STy.mk { t.node with title := val }
        | some ("description", val) => STy.mk { t.node with description := val }
        | _ => t
      t.genericKeywords rest

/-- The format allow-list of `(*Type).stringKeywords`. -/
def formatAllowed (val : String) : Bool :=
  val == "date-time" || val == "email" || val == "hostname" ||
  val == "ipv4" || val == "ipv6" || val == "uri"

/-- `(*Type).stringKeywords`. -/
def STy.stringKeywords (t : STy) : List String → STy
  | [] => t
  | tag :: rest =>
      let t := match splitEq tag with
        | some ("minLength", val) => STy.mk { t.node with minLength := atoi val }
        | some ("maxLength", val) => STy.mk { t.node with maxLength := atoi val }
        | some ("pattern", val) => STy.mk { t.node with pattern := val }
        | some ("format", val) =>
            if formatAllowed val then STy.mk { t.node with format := val } else t
        | some ("default", val) => STy.mk { t.node with default := some (IfaceVal.str val) }
        | some ("example", val) =>
            STy.mk { t.node with examples := t.node.examples ++ [IfaceVal.str val] }
        | _ => t
      t.stringKeywords rest

/-- `(*Type).numbericKeywords` (the Go name, typo included). -/
def STy.numbericKeywords (t : STy) : List String → STy
  | [] => t
  | tag :: rest =>
      let t := match splitEq tag with
        | some ("multipleOf", val) => STy.mk { t.node with multipleOf := atoi val }
        | some ("minimum", val) => STy.mk { t.node with minimum := atoi val }
        | some ("maximum", val) => STy.mk { t.node with maximum := atoi val }
        | some ("exclusiveMaximum", val) =>
            STy.mk { t.node with exclusiveMaximum := parseBool val }
        | some ("exclusiveMinimum", val) =>
            STy.mk { t.node with exclusiveMinimum := parseBool val }
        | some ("default", val) => STy.mk { t.node with default := some (IfaceVal.int (atoi val)) }
        | some ("example", val) =>
            match atoiOpt val with
            | some i => STy.mk { t.node with examples := t.node.examples ++ [IfaceVal.int i] }
            | none => t
        | _ => t
      t.numbericKeywords rest

/-- `(*Type).arrayKeywords` — the loop, threading the accumulated default
values. -/
def STy.arrayKeywordsAux (t : STy) (defaultValues : List IfaceVal) :
    List String → STy × List IfaceVal
  | [] => (t, defaultValues)
  | tag :: rest =>
      let (t, defaultValues) := match splitEq tag with
        | some ("minItems", val) => (STy.mk { t.node with minItems := atoi val }, defaultValues)
        | some ("maxItems", val) => (STy.mk { t.node with maxItems := atoi val }, defaultValues)
        | some ("uniqueItems", _) => (STy.mk { t.node with uniqueItems := true }, defaultValues)
        | some ("default", val) => (t, defaultValues ++ [IfaceVal.str val])
        | _ => (t, defaultValues)
      t.arrayKeywordsAux defaultValues rest

/-- `(*Type).arrayKeywords`. -/
def STy.arrayKeywords (t : STy) (tags : List String) : STy :=
  match t.arrayKeywordsAux [] tags with
  | (t, defaultValues) =>
      if defaultValues.length > 0 then
        STy.mk { t.node with default := some (IfaceVal.list defaultValues) }
      else t

/-- `(*Type).structKeywordsFromTags`: overlay tag-derived constraints onto a
freshly traversed field node. -/
def STy.structKeywordsFromTags (t : STy) (f : GoField) : STy :=
  let t := STy.mk { t.node with description := f.tagJsonschemaDesc }
  let tags := splitComma f.tagJsonschema
  let t := t.genericKeywords tags
  match t.node.type with
  | "string" => t.stringKeywords tags
  | "number" => t.numbericKeywords tags
  | "integer" => t.numbericKeywords tags
  | "array" => t.arrayKeywords tags
  | _ => t

/-- The single pointer unwrap at the head of `reflectStructFields`. -/
def unwrapPtrOnce : GoType → GoType
  | .ptrT _ _ elem => elem
  | t => t

/-- The custom type mapper consulted during dispatch (`nil` maps to `none`). -/
def mapperAt (r : Reflector) (t : GoType) : Option STy :=
  match r.TypeMapper with
  | some mapper => mapper t
  | none => none

/-- Comparison of branches by reference string (`sort.Slice` on `Ref`). -/
def refLe (a b : STy) : Prop := goStrLe a.node.ref b.node.ref = true

instance : DecidableRel refLe := fun a b => by
  unfold refLe; infer_instance

theorem charsLe_total : ∀ as bs, charsLe as bs = true ∨ charsLe bs as = true
  | [], _ => Or.inl rfl
  | _ :: _, [] => Or.inr rfl
  | a :: as, b :: bs => by
      rcases Nat.lt_trichotomy a.toNat b.toNat with h | h | h
      · left; simp [charsLe, h]
      · rcases charsLe_total as bs with ih | ih
        · left; simp [charsLe, h, ih]
        · right; simp [charsLe, h.symm, ih]
      · right; simp [charsLe, h]

theorem charsLe_trans : ∀ as bs cs, charsLe as bs = true → charsLe bs cs = true →
    charsLe as cs = true
  | [], _, _, _, _ => rfl
  | _ :: _, [], _, h, _ => by simp [charsLe] at h
  | _ :: _, _ :: _, [], _, h => by simp [charsLe] at h
  | a :: as, b :: bs, c :: cs, h1, h2 => by
      simp only [charsLe] at h1 h2 ⊢
      rcases Nat.lt_trichotomy a.toNat c.toNat with h | h | h
      · simp [h]
      · rcases Nat.lt_trichotomy a.toNat b.toNat with hab | hab | hab
        · rcases Nat.lt_trichotomy b.toNat c.toNat with hbc | hbc | hbc
          · omega
          · omega
          · simp [Nat.lt_asymm hbc, hbc] at h2
        · rcases Nat.lt_trichotomy b.toNat c.toNat with hbc | hbc | hbc
          · omega
          · have : ¬ a.toNat < c.toNat := by omega
            have : ¬ c.toNat < a.toNat := by omega
            simp_all [charsLe_trans as bs cs]
          · simp [Nat.lt_asymm hbc, hbc] at h2
        · simp [Nat.lt_asymm hab, hab] at h1
      · rcases Nat.lt_trichotomy a.toNat b.toNat with hab | hab | hab
        · rcases Nat.lt_trichotomy b.toNat c.toNat with hbc | hbc | hbc
          · omega
          · omega
          · simp [Nat.lt_asymm hbc, hbc] at h2
        · rcases Nat.lt_trichotomy b.toNat c.toNat with hbc | hbc | hbc
          · omega
          · omega
          · simp [Nat.lt_asymm hbc, hbc] at h2
        · simp [Nat.lt_asymm hab, hab] at h1

instance : IsTotal STy refLe :=
  ⟨fun a b => charsLe_total a.node.ref.data b.node.ref.data⟩

instance : IsTrans STy refLe :=
  ⟨fun a b c => charsLe_trans a.node.ref.data b.node.ref.data c.node.ref.data⟩

mutual
/-- `(*Reflector).reflectTypeToSchema` — the dispatcher. -/
def reflectTypeToSchema (r : Reflector) : Nat → Defs → GoType → Res (STy × Defs)
  | 0, _, _ => Res.fuelOut
  | fuel+1, definitions, t =>
    -- Already added to definitions?
    if (defsGet definitions (goName t)).isSome then
      Res.ok (STy.mk { ref := "#/definitions/" ++ goName t }, definitions)
    else
      -- proto enums marshal as strings or integers
      if goImplements t protoEnumType then
        Res.ok (STy.mk { oneOf := [STy.mk { type := "string" }, .mk { type := "integer" }] }, definitions)
      else
        -- registered enum / custom type mapper, both short-circuit
        let shortcut : Option STy :=
          match r.getEnum t with
          | some enumType => some (STy.mk { default := enumType.Values.head?, enum := enumType.Values })
          | none => mapperAt r t
        match shortcut with
        | some s => Res.ok (s, definitions)
        | none =>
          -- defined format types (ipv4)
          if t = ipType then Res.ok (STy.mk { type := "string", format := "ipv4" }, definitions)
          else
            match t with
            | .structT _ _ _ =>
                if t = timeType then Res.ok (STy.mk { type := "string", format := "date-time" }, definitions)
                else if t = uriType then Res.ok (STy.mk { type := "string", format := "uri" }, definitions)
                else reflectStruct r fuel definitions t
            | .mapT _ _ _ elem =>
                (reflectTypeToSchema r fuel definitions elem).bind fun (valueSchema, definitions) =>
                  Res.ok (STy.mk { type := "object", additionalProperties := .schemav valueSchema }, definitions)
            | .sliceT _ _ elem =>
                if t = byteSliceType then
                  Res.ok (STy.mk { type := "string", media := some (STy.mk { binaryEncoding := "base64" }) }, definitions)
                else
                  (reflectTypeToSchema r fuel definitions elem).bind fun (items, definitions) =>
                    Res.ok (STy.mk { type := "array", items := some items }, definitions)
            | .arrayT _ _ length elem =>
                -- an array type is never identical to the (slice) byteSliceType;
                -- the Go code still performs the comparison
                if t = byteSliceType then
                  let returnType : STy := STy.mk
                    { minItems := (length : Int), maxItems := (length : Int),
                      type := "string", media := some (STy.mk { binaryEncoding := "base64" }) }
                  Res.ok (returnType, definitions)
                else
                  (reflectTypeToSchema r fuel definitions elem).bind fun (items, definitions) =>
                    let returnType : STy := STy.mk
                      { minItems := (length : Int), maxItems := (length : Int),
                        type := "array", items := some items }
                    Res.ok (returnType, definitions)
            | .interfaceT name _ =>
                match r.getDiscriminator t with
                | some d =>
                    (discrimLoop r fuel definitions d.Ancestors d.DiscriminatorField).bind
                      fun (ancestorTypes, definitions) =>
                        let ancestorTypes := ancestorTypes.insertionSort refLe
                        let schema : STy := .mk { oneOf := ancestorTypes,
                                                  additionalProperties := .boolv false }
                        if name ≠ "" then Res.ok (addToDefinitions definitions name schema)
                        else Res.ok (schema, definitions)
                | none =>
                    let schema : STy := .mk { type := "object", additionalProperties := .boolv true }
                    if name ≠ "" then Res.ok (addToDefinitions definitions name schema)
                    else Res.ok (schema, definitions)
            | .intT _ _ _ => Res.ok (STy.mk { type := "integer" }, definitions)
            | .floatT _ _ _ => Res.ok (STy.mk { type := "number" }, definitions)
            | .boolT _ _ => Res.ok (STy.mk { type := "boolean" }, definitions)
            | .stringT _ _ => Res.ok (STy.mk { type := "string" }, definitions)
            | .ptrT _ _ elem => reflectTypeToSchema r fuel definitions elem
            | .otherT n _ kindName => Res.fatal ("unsupported type " ++ n ++ " " ++ kindName)

/-- The `range d.Ancestors` loop of the interface branch: build one
discriminated branch per `(literal, concrete type)` pair, setting the
branch's title to the literal. -/
def discrimLoop (r : Reflector) :
    Nat → Defs → List (String × GoType) → String → Res (List STy × Defs)
  | 0, _, _, _ => Res.fuelOut
  | _+1, definitions, [], _ => Res.ok ([], definitions)
  | fuel+1, definitions, (dKey, anc) :: rest, dField =>
      (reflectDiscriminatedStruct r fuel definitions anc dField dKey).bind
        fun (ancRef, definitions) =>
          let ancRef := STy.mk { ancRef.node with title := dKey }
          (discrimLoop r fuel definitions rest dField).bind fun (restRefs, definitions) =>
            Res.ok (ancRef :: restRefs, definitions)

/-- `(*Reflector).reflectStruct`. -/
def reflectStruct (r : Reflector) : Nat → Defs → GoType → Res (STy × Defs)
  | 0, _, _ => Res.fuelOut
  | fuel+1, definitions, t =>
      let isIgnored := r.isIgnored t
      let st := emptyObjectSchema (r.AllowAdditionalProperties || isIgnored)
      (if !isIgnored then reflectStructFields r fuel st definitions t
       else Res.ok (st, definitions)).bind fun (st, definitions) =>
        Res.ok (addToDefinitions definitions (goName t) st)

/-- `(*Reflector).reflectDiscriminatedStruct`. -/
def reflectDiscriminatedStruct (r : Reflector) :
    Nat → Defs → GoType → String → String → Res (STy × Defs)
  | 0, _, _, _, _ => Res.fuelOut
  | fuel+1, definitions, t, dField, dKey =>
      let defName := goName t ++ "@" ++ dField ++ ":" ++ dKey
      let isIgnored := r.isIgnored t
      let st := emptyObjectSchema (r.AllowAdditionalProperties || isIgnored)
      let st := STy.mk { st.node with
        properties := propsInsert st.node.properties dField (getConstStringType dKey),
        required := st.node.required ++ [dField] }
      (if !isIgnored then reflectStructFields r fuel st definitions t
       else Res.ok (st, definitions)).bind fun (st, definitions) =>
        Res.ok (addToDefinitions definitions defName st)

/-- `(*Reflector).reflectStructFields`: unwrap one pointer level, bail out on
non-structs, run the field loop, then promote a lone `allOf` entry to
`oneOf`. -/
def reflectStructFields (r : Reflector) : Nat → STy → Defs → GoType → Res (STy × Defs)
  | 0, _, _, _ => Res.fuelOut
  | fuel+1, st, definitions, t =>
      match unwrapPtrOnce t with
      | .structT _ _ fields =>
          (fieldsLoop r fuel st definitions fields).bind fun (st, definitions) =>
            let st := if st.node.allOf.length = 1 ∧ st.node.oneOf.length = 0 then
                STy.mk { st.node with oneOf := st.node.allOf, allOf := [] }
              else st
            Res.ok (st, definitions)
      | _ => Res.ok (st, definitions)

/-- The field loop of `reflectStructFields`, one step per declared field. -/
def fieldsLoop (r : Reflector) : Nat → STy → Defs → GoFields → Res (STy × Defs)
  | 0, _, _, _ => Res.fuelOut
  | _+1, st, definitions, .nil => Res.ok (st, definitions)
  | fuel+1, st, definitions, .cons f rest =>
      let (annot, exist) := reflectFieldName r f
      if annot.Inline then
        (reflectTypeToSchema r fuel definitions f.typ).bind fun (prop, definitions) =>
          fieldsLoop r fuel (STy.mk { st.node with allOf := st.node.allOf ++ [prop] })
            definitions rest
      else if annot.Name = "" then
        -- anonymous exported fields are spliced into the current node
        if f.anonymous && !exist then
          (reflectStructFields r fuel st definitions f.typ).bind fun (st, definitions) =>
            fieldsLoop r fuel st definitions rest
        else fieldsLoop r fuel st definitions rest
      else
        (reflectTypeToSchema r fuel definitions f.typ).bind fun (property, definitions) =>
          let property := property.structKeywordsFromTags f
          let st := STy.mk { st.node with
            properties := propsInsert st.node.properties annot.Name property }
          let st := if annot.IsRequired then
              STy.mk { st.node with required := st.node.required ++ [annot.Name] }
            else st
          fieldsLoop r fuel st definitions rest
end

/-- The document root (`Schema` in Go: an embedded root node plus the
definitions map). -/
structure Schema where
  typ : STy
  Definitions : Defs

/-- `(*Reflector).ReflectFromType` — top-level assembly in both modes. -/
def ReflectFromType (r : Reflector) (fuel : Nat) (t : GoType) : Res Schema :=
  let definitions : Defs := []
  if r.ExpandedStruct then
    let st : STy := .mk { version := Version, type := "object", properties := [],
                          additionalProperties := .boolv r.AllowAdditionalProperties }
    (reflectStructFields r fuel st definitions t).bind fun (st, definitions) =>
      (reflectStruct r fuel definitions t).bind fun (_, definitions) =>
        .ok { typ := st, Definitions := defsErase definitions (goName t) }
  else
    (reflectTypeToSchema r fuel definitions t).bind fun (s, definitions) =>
      .ok { typ := s, Definitions := definitions }

/-!
## Common lemmas about the definitions map
-/

theorem defsGet_insert_self (d : Defs) (k : String) (v : STy) :
    defsGet (defsInsert d k v) k = some v := by
  induction d with
  | nil => simp [defsInsert, defsGet]
  | cons p rest ih =>
      by_cases h : p.1 = k
      · simp [defsInsert, h, defsGet]
      · simp [defsInsert, h, defsGet, ih]

theorem defsGet_insert_ne (d : Defs) (k k' : String) (v : STy) (h : k ≠ k') :
    defsGet (defsInsert d k v) k' = defsGet d k' := by
  induction d with
  | nil => simp [defsInsert, defsGet, h]
  | cons p rest ih =>
      by_cases hp : p.1 = k
      · simp [defsInsert, hp, defsGet, h]
      · simp [defsInsert, hp, defsGet, ih]

theorem defsGet_insert_isSome (d : Defs) (k k' : String) (v : STy)
    (h : (defsGet d k').isSome) : (defsGet (defsInsert d k v) k').isSome := by
  by_cases hk : k = k'
  · subst hk; simp [defsGet_insert_self]
  · rwa [defsGet_insert_ne d k k' v hk]

/-!
## C8 — registration raises-iff and atomicity
-/

/-- C8: `RegisterEnumType` returns an error iff some value's runtime type
differs from the declared type; `RegisterDiscriminatorType` returns an error
iff the base type is not an interface or some mapped concrete type does not
implement it; in every error case the corresponding registry (indeed the
whole reflector) is unchanged, and in every success case exactly one entry is
appended. -/
theorem registration_raises_iff_and_atomic (r : Reflector) (t baseT : GoType)
    (vs : List IfaceVal) (dField : String) (ancs : List (String × GoType)) :
    ((RegisterEnumType r t vs).1.isSome ↔ ∃ v ∈ vs, ifaceTypeOf v ≠ t) ∧
    ((RegisterEnumType r t vs).1.isSome → (RegisterEnumType r t vs).2 = r) ∧
    ((RegisterEnumType r t vs).1 = none →
      (RegisterEnumType r t vs).2 =
        { r with EnumTypes := r.EnumTypes ++ [{ type := t, Values := vs }] }) ∧
    ((RegisterDiscriminatorType r baseT dField ancs).1.isSome ↔
      (isInterfaceKind baseT = false ∨ ∃ p ∈ ancs, goImplements p.2 baseT = false)) ∧
    ((RegisterDiscriminatorType r baseT dField ancs).1.isSome →
      (RegisterDiscriminatorType r baseT dField ancs).2 = r) ∧
    ((RegisterDiscriminatorType r baseT dField ancs).1 = none →
      (RegisterDiscriminatorType r baseT dField ancs).2 =
        { r with DiscriminatedTypes := r.DiscriminatedTypes ++
            [{ BaseType := baseT, DiscriminatorField := dField, Ancestors := ancs }] }) := by
  refine ⟨?_, ?_, ?_, ?_, ?_, ?_⟩
  · constructor
    · intro hc
      rcases h : vs.find? (fun v => !(ifaceTypeOf v == t)) with _ | v
      · simp [RegisterEnumType, h] at hc
      · have hmem := List.mem_of_find?_eq_some h
        have hpred := List.find?_some h
        refine ⟨v, hmem, fun heq => ?_⟩
        rw [heq] at hpred
        simp at hpred
    · rintro ⟨v, hv, hne⟩
      rcases h : vs.find? (fun v => !(ifaceTypeOf v == t)) with _ | w
      · have hall := List.find?_eq_none.mp h v hv
        exact absurd (by simpa using hall) hne
      · simp [RegisterEnumType, h]
  · intro hs
    rcases h : vs.find? (fun v => !(ifaceTypeOf v == t)) with _ | v
    · simp [RegisterEnumType, h] at hs
    · simp [RegisterEnumType, h]
  · intro hn
    rcases h : vs.find? (fun v => !(ifaceTypeOf v == t)) with _ | v
    · simp [RegisterEnumType, h]
    · simp [RegisterEnumType, h] at hn
  · by_cases hk : isInterfaceKind baseT
    · constructor
      · intro hc
        rcases h : ancs.find? (fun p => !goImplements p.2 baseT) with _ | p
        · simp [RegisterDiscriminatorType, hk, h] at hc
        · have hmem := List.mem_of_find?_eq_some h
          have hpred := List.find?_some h
          exact Or.inr ⟨p, hmem, by simpa using hpred⟩
      · rintro (hbad | ⟨p, hp, hfalse⟩)
        · rw [hk] at hbad; simp at hbad
        · rcases h : ancs.find? (fun p => !goImplements p.2 baseT) with _ | w
          · have hall := List.find?_eq_none.mp h p hp
            simp only [Bool.not_eq_true] at hall
            rw [hfalse] at hall
            simp at hall
          · simp [RegisterDiscriminatorType, hk, h]
    · simp only [Bool.not_eq_true] at hk
      simp only [RegisterDiscriminatorType, hk, Bool.not_false, if_true,
        Option.isSome_some, true_iff]
      exact Or.inl trivial
  · intro hs
    by_cases hk : isInterfaceKind baseT
    · rcases h : ancs.find? (fun p => !goImplements p.2 baseT) with _ | p
      · simp [RegisterDiscriminatorType, hk, h] at hs
      · simp [RegisterDiscriminatorType, hk, h]
    · simp only [Bool.not_eq_true] at hk
      simp [RegisterDiscriminatorType, hk]
  · intro hn
    by_cases hk : isInterfaceKind baseT
    · rcases h : ancs.find? (fun p => !goImplements p.2 baseT) with _ | p
      · simp [RegisterDiscriminatorType, hk, h]
      · simp [RegisterDiscriminatorType, hk, h] at hn
    · simp only [Bool.not_eq_true] at hk
      simp [RegisterDiscriminatorType, hk] at hn

/-!
## C10 — promotion of a lone `allOf` entry to `oneOf`
-/

/-- C10: after all fields of a record type are processed, if the accumulated
`allOf` has exactly one entry and `oneOf` is empty, the final node carries
that entry as its sole `oneOf` and an empty `allOf`; in every other case both
sequences are left exactly as accumulated by the field loop. -/
theorem allOf_promotion (r : Reflector) (fuel : Nat) (st st' : STy)
    (defs defs' : Defs) (t : GoType) (name : String) (meths : List String)
    (fields : GoFields)
    (hstruct : unwrapPtrOnce t = .structT name meths fields)
    (h : reflectStructFields r (fuel+1) st defs t = .ok (st', defs')) :
    ∃ mid, fieldsLoop r fuel st defs fields = .ok (mid, defs') ∧
      ((mid.node.allOf.length = 1 ∧ mid.node.oneOf.length = 0) →
        st' = STy.mk { mid.node with oneOf := mid.node.allOf, allOf := [] }) ∧
      (¬(mid.node.allOf.length = 1 ∧ mid.node.oneOf.length = 0) → st' = mid) := by
  rw [reflectStructFields, hstruct] at h
  dsimp only at h
  rcases hl : fieldsLoop r fuel st defs fields with ⟨mid, d2⟩ | m | _
  · rw [hl] at h
    simp only [Res.bind_ok] at h
    refine ⟨mid, ?_, ?_, ?_⟩
    · by_cases hc : mid.node.allOf.length = 1 ∧ mid.node.oneOf.length = 0
      · simp only [hc, and_self, if_true, Res.ok.injEq, Prod.mk.injEq] at h
        rw [h.2]
      · simp only [if_neg hc, Res.ok.injEq, Prod.mk.injEq] at h
        rw [h.2]
    · intro hc
      simp only [if_pos hc, Res.ok.injEq, Prod.mk.injEq] at h
      exact h.1.symm
    · intro hc
      simp only [if_neg hc, Res.ok.injEq, Prod.mk.injEq] at h
      exact h.1.symm
  · rw [hl] at h; simp at h
  · rw [hl] at h; simp at h

/-- The inner struct of the inlined-field example (`InlinedStruct`). -/
def c10Inner : GoType :=
  .structT "InlinedStruct" [] (.cons (.mk "A" "" false (some "a") "" "" "" goStringType) .nil)

/-- One embedded field tagged `json:",inline"`. -/
def c10Flds : GoFields :=
  .cons (.mk "InlinedStruct" "" true (some ",inline") "" "" "" c10Inner) .nil

/-- A struct whose only field is inlined (`StructWithInline`). -/
def c10T : GoType := .structT "StructWithInline" [] c10Flds

/-- The concrete output of `reflectStructFields` on `c10T`. -/
def c10Out : STy × Defs :=
  match reflectStructFields ({} : Reflector) 11 (emptyObjectSchema false) [] c10T with
  | .ok p => p
  | _ => (emptyObjectSchema false, [])

theorem allOf_promotion_witness :
    ∃ mid, fieldsLoop ({} : Reflector) 10 (emptyObjectSchema false) [] c10Flds =
        .ok (mid, c10Out.2) ∧
      ((mid.node.allOf.length = 1 ∧ mid.node.oneOf.length = 0) →
        c10Out.1 = STy.mk { mid.node with oneOf := mid.node.allOf, allOf := [] }) ∧
      (¬(mid.node.allOf.length = 1 ∧ mid.node.oneOf.length = 0) → c10Out.1 = mid) :=
  allOf_promotion {} 10 (emptyObjectSchema false) c10Out.1 [] c10Out.2 c10T
    "StructWithInline" [] c10Flds rfl rfl

/-!
## C5 — ignore-list override

The first theorem is the amended claim: for a *struct* type in the ignore
list whose dispatch reaches struct handling, the definition stored is exactly
the opaque permissive shell (fields are not traversed, and
`additionalProperties` is `true` even when `AllowAdditionalProperties` is
`false`), and the use site receives a reference.  The counterexample shows
the claim as stated is false: a non-struct type in the ignore list is not
affected at all by the list.
-/

/-- C5 (amended): an ignored struct type is rendered as the opaque shell
`{type: object, properties: {}, additionalProperties: true}`: the traversal
returns a reference to the type's name, and the definitions map receives
exactly that shell under the name — fields are not traversed, for any value
of `AllowAdditionalProperties`. -/
theorem ignored_struct_opaque_shell (r : Reflector) (fuel : Nat) (defs : Defs)
    (name : String) (meths : List String) (fields : GoFields)
    (hIg : r.isIgnored (.structT name meths fields) = true)
    (hDefs : defsGet defs name = none)
    (hProto : goImplements (.structT name meths fields) protoEnumType = false)
    (hEnum : r.getEnum (.structT name meths fields) = none)
    (hMap : mapperAt r (.structT name meths fields) = none)
    (hTime : GoType.structT name meths fields ≠ timeType)
    (hUri : GoType.structT name meths fields ≠ uriType) :
    reflectTypeToSchema r (fuel+2) defs (.structT name meths fields) =
      .ok (getTypeRef name, defsInsert defs name (emptyObjectSchema true)) := by
  rw [reflectTypeToSchema]
  have hname : goName (GoType.structT name meths fields) = name := rfl
  rw [hname, hDefs]
  simp only [Option.isSome_none, Bool.false_eq_true, if_false, hProto, hEnum, hMap]
  have hip : GoType.structT name meths fields ≠ ipType := by
    intro hc; cases hc
  rw [if_neg hip]
  rw [if_neg hTime, if_neg hUri, reflectStruct, hIg]
  simp only [Bool.or_true, Bool.not_true, Bool.false_eq_true, if_false,
    Res.bind_ok, addToDefinitions, hname]

/-- The ignored example type: a struct with one (never traversed) field. -/
def c5G : GoType :=
  .structT "GrandfatherType" []
    (.cons (.mk "FamilyName" "" false (some "family_name") "" "required" "" goStringType) .nil)

/-- A reflector ignoring `c5G`, with `AllowAdditionalProperties = false`. -/
def c5R : Reflector := { IgnoredTypes := [c5G] }

theorem ignored_struct_opaque_shell_witness :
    reflectTypeToSchema c5R 7 [] c5G =
      .ok (getTypeRef "GrandfatherType",
           defsInsert [] "GrandfatherType" (emptyObjectSchema true)) :=
  ignored_struct_opaque_shell c5R 5 [] "GrandfatherType" []
    (.cons (.mk "FamilyName" "" false (some "family_name") "" "required" "" goStringType) .nil)
    rfl rfl rfl rfl rfl (by decide) (by decide)

/-- A reflector whose ignore list contains the non-struct type `int`. -/
def c5Rint : Reflector := { IgnoredTypes := [goIntType] }

/-- C5 counterexample: `int` is present in `IgnoredTypes`, yet its traversal
yields `{type: "integer"}` — not the opaque object shell the claim promises
for every ignored type (the ignore list is only consulted for struct
dispatch). -/
theorem ignored_type_claim_cex :
    c5Rint.isIgnored goIntType = true ∧
    reflectTypeToSchema c5Rint 5 [] goIntType = .ok (.mk { type := "integer" }, []) ∧
    ("integer" : String) ≠ "object" := ⟨rfl, rfl, by decide⟩

/-!
## C9 — byte-sequence encoding
-/

/-- C9 (amended): traversal of the unnamed `[]byte` type yields exactly
`{type: "string", media: {binaryEncoding: "base64"}}` and leaves the
definitions map untouched; it never produces the array form.  (A *named*
byte-slice type is not identical to `byteSliceType` and falls through to the
generic array form — see the counterexample.) -/
theorem byte_slice_base64 (r : Reflector) (fuel : Nat) (defs : Defs)
    (hDefs : defsGet defs "" = none)
    (hEnum : r.getEnum byteSliceType = none)
    (hMap : mapperAt r byteSliceType = none) :
    reflectTypeToSchema r (fuel+1) defs byteSliceType =
      .ok (.mk { type := "string", media := some (.mk { binaryEncoding := "base64" }) }, defs) := by
  have hEnum2 : r.getEnum (GoType.sliceT "" [] goUint8Type) = none := hEnum
  have hMap2 : mapperAt r (GoType.sliceT "" [] goUint8Type) = none := hMap
  show reflectTypeToSchema r (fuel+1) defs (GoType.sliceT "" [] goUint8Type) = _
  rw [reflectTypeToSchema]
  simp only [goName, hDefs, Option.isSome_none, Bool.false_eq_true, if_false,
    show goImplements (GoType.sliceT "" [] goUint8Type) protoEnumType = false from rfl,
    hEnum2, hMap2]
  rw [if_neg (show GoType.sliceT "" [] goUint8Type ≠ ipType from by decide)]
  rw [if_pos (show GoType.sliceT "" [] goUint8Type = byteSliceType from rfl)]

theorem byte_slice_base64_witness :
    reflectTypeToSchema ({} : Reflector) 3 [] byteSliceType =
      .ok (.mk { type := "string", media := some (.mk { binaryEncoding := "base64" }) }, []) :=
  byte_slice_base64 {} 2 [] rfl rfl rfl

/-- A named byte-slice type (`type MyBytes []byte`). -/
def c9MyBytes : GoType := .sliceT "MyBytes" [] goUint8Type

/-- C9 counterexample: `MyBytes` is a byte sequence (a slice whose element
type is `uint8`), yet its traversal yields the generic array form
`{type: "array", items: {type: "integer"}}` — the base64 string form is
reserved for the unnamed `[]byte` type. -/
theorem byte_sequence_claim_cex :
    reflectTypeToSchema ({} : Reflector) 5 [] c9MyBytes =
      .ok (.mk { type := "array", items := some (.mk { type := "integer" }) }, []) ∧
    ("array" : String) ≠ "string" := ⟨rfl, by decide⟩

/-!
## C3 — registration of record types and reference use sites
-/

/-- Re-encountering any type whose name is already a definitions key returns
a bare reference node and leaves the definitions untouched. -/
theorem rtts_already_defined (r : Reflector) (fuel : Nat) (defs : Defs) (t : GoType)
    (h : (defsGet defs (goName t)).isSome) :
    reflectTypeToSchema r (fuel+1) defs t =
      .ok (.mk { ref := "#/definitions/" ++ goName t }, defs) := by
  cases t <;> simp_all [reflectTypeToSchema, goName]

/-- Dispatch of a plain struct type (none of the earlier tiers fire) reaches
`reflectStruct`. -/
theorem rtts_to_reflectStruct (r : Reflector) (fuel : Nat) (defs : Defs)
    (name : String) (meths : List String) (fields : GoFields)
    (hDefs : defsGet defs name = none)
    (hProto : goImplements (.structT name meths fields) protoEnumType = false)
    (hEnum : r.getEnum (.structT name meths fields) = none)
    (hMap : mapperAt r (.structT name meths fields) = none)
    (hTime : GoType.structT name meths fields ≠ timeType)
    (hUri : GoType.structT name meths fields ≠ uriType) :
    reflectTypeToSchema r (fuel+1) defs (.structT name meths fields) =
      reflectStruct r fuel defs (.structT name meths fields) := by
  rw [reflectTypeToSchema]
  simp only [goName, hDefs, Option.isSome_none, Bool.false_eq_true, if_false,
    hProto, hEnum, hMap]
  rw [if_neg (show GoType.structT name meths fields ≠ ipType from fun hc => by cases hc)]
  rw [if_neg hTime, if_neg hUri]

/-- A successful `reflectStruct` returns a reference to the type's name and a
definitions map produced by storing some node under that name. -/
theorem reflectStruct_ok_shape (r : Reflector) (fuel : Nat) (defs : Defs) (t : GoType)
    (s : STy) (defs' : Defs)
    (h : reflectStruct r (fuel+1) defs t = .ok (s, defs')) :
    s = getTypeRef (goName t) ∧ ∃ st d2, defs' = defsInsert d2 (goName t) st := by
  rw [reflectStruct] at h
  by_cases hIg : r.isIgnored t
  · simp only [hIg, Bool.not_true, Bool.false_eq_true, if_false, Res.bind_ok,
      addToDefinitions, Res.ok.injEq, Prod.mk.injEq] at h
    exact ⟨h.1.symm, _, _, h.2.symm⟩
  · simp only [Bool.not_eq_true] at hIg
    simp only [hIg, Bool.not_false, if_true] at h
    rcases hsf : reflectStructFields r fuel
        (emptyObjectSchema (r.AllowAdditionalProperties || false)) defs t with ⟨st, d2⟩ | m | _
    · rw [hsf] at h
      simp only [Res.bind_ok, addToDefinitions, Res.ok.injEq, Prod.mk.injEq] at h
      exact ⟨h.1.symm, _, _, h.2.symm⟩
    · rw [hsf] at h; simp at h
    · rw [hsf] at h; simp at h

/-- C3 (amended): a struct type reaching struct dispatch is registered in the
definitions map under its declared name — whether or not that name is empty —
and the use site receives a reference node; any later use site, finding the
name among the definitions keys, receives a bare reference and leaves the map
unchanged (so the type is registered exactly once).  Anonymous structs are
therefore *not* inlined: they are registered under the empty name. -/
theorem struct_registered_and_referenced (r : Reflector) (fuel : Nat) (defs : Defs)
    (name : String) (meths : List String) (fields : GoFields)
    (hDefs : defsGet defs name = none)
    (hProto : goImplements (.structT name meths fields) protoEnumType = false)
    (hEnum : r.getEnum (.structT name meths fields) = none)
    (hMap : mapperAt r (.structT name meths fields) = none)
    (hTime : GoType.structT name meths fields ≠ timeType)
    (hUri : GoType.structT name meths fields ≠ uriType) :
    (∀ s defs', reflectTypeToSchema r (fuel+2) defs (.structT name meths fields) =
        .ok (s, defs') → s = getTypeRef name ∧ (defsGet defs' name).isSome) ∧
    (∀ defs0 : Defs, (defsGet defs0 name).isSome →
      reflectTypeToSchema r (fuel+2) defs0 (.structT name meths fields) =
        .ok (.mk { ref := "#/definitions/" ++ name }, defs0)) := by
  constructor
  · intro s defs' h
    rw [rtts_to_reflectStruct r (fuel+1) defs name meths fields hDefs hProto hEnum hMap
      hTime hUri] at h
    obtain ⟨hs, st, d2, hd⟩ := reflectStruct_ok_shape r fuel defs _ s defs' h
    refine ⟨hs, ?_⟩
    rw [hd]
    have : defsGet (defsInsert d2 name st) name = some st := defsGet_insert_self d2 name st
    simp only [goName] at hd ⊢
    rw [this]
    rfl
  · intro defs0 h0
    exact rtts_already_defined r (fuel+1) defs0 (.structT name meths fields) h0

/-- A simple named struct for the C3 witness. -/
def c3Inner : GoType := .structT "Grand" [] .nil

/-- Concrete output of a traversal of `c3Inner`. -/
def c3Out : STy × Defs :=
  match reflectTypeToSchema ({} : Reflector) 6 [] c3Inner with
  | .ok p => p
  | _ => (emptyObjectSchema false, [])

theorem struct_registered_witness :
    (c3Out.1 = getTypeRef "Grand" ∧ (defsGet c3Out.2 "Grand").isSome) ∧
    reflectTypeToSchema ({} : Reflector) 6 c3Out.2 c3Inner =
      .ok (.mk { ref := "#/definitions/Grand" }, c3Out.2) := by
  have h := struct_registered_and_referenced ({} : Reflector) 4 [] "Grand" [] .nil
    rfl rfl rfl rfl (by decide) (by decide)
  exact ⟨h.1 c3Out.1 c3Out.2 rfl, h.2 c3Out.2 (h.1 c3Out.1 c3Out.2 rfl).2⟩

/-- An anonymous (unnamed) struct type. -/
def c3Anon : GoType := .structT "" [] .nil

/-- A named struct with one field of the anonymous struct type. -/
def c3Host : GoType := .structT "Host" [] (.cons (.mk "A" "" false (some "a") "" "" "" c3Anon) .nil)

/-- Concrete output of a traversal of `c3Host`. -/
def c3CexOut : STy × Defs :=
  match reflectTypeToSchema ({} : Reflector) 10 [] c3Host with
  | .ok p => p
  | _ => (emptyObjectSchema false, [])

/-- C3 counterexample: traversing a struct with a field of anonymous struct
type *does* create a definitions entry (under the empty name) and emits a
reference node `#/definitions/` at the use site — not an inline node and not
"no Definitions entry" as the claim states. -/
theorem anonymous_struct_claim_cex :
    (defsGet c3CexOut.2 "").isSome = true ∧
    ((defsGet c3CexOut.2 "Host").bind
        (fun s => propsGet s.node.properties "a")).map (fun p => p.node.ref) =
      some "#/definitions/" := ⟨rfl, rfl⟩

/-!
## C4 — field exclusion
-/

/-- The skip path of the field loop: the field contributes nothing at all
(no property, no required entry, no `allOf` entry, no flattening). -/
def fieldSkipped (r : Reflector) (f : GoField) : Bool :=
  let p := reflectFieldName r f
  !p.1.Inline && p.1.Name == "" && !(f.anonymous && !p.2)

/-- A skipped field leaves the node, the definitions and the rest of the
loop exactly as if the field were absent. -/
theorem fieldsLoop_skip_step (r : Reflector) (f : GoField)
    (hsk : fieldSkipped r f = true) (fuel : Nat) (st : STy) (defs : Defs)
    (rest : GoFields) :
    fieldsLoop r (fuel+1) st defs (.cons f rest) = fieldsLoop r fuel st defs rest := by
  rcases hrf : reflectFieldName r f with ⟨⟨nm, req, inl⟩, ex⟩
  unfold fieldSkipped at hsk
  rw [hrf] at hsk
  simp only [Bool.and_eq_true, Bool.not_eq_true', beq_iff_eq] at hsk
  obtain ⟨⟨hinl, hnm⟩, hae⟩ := hsk
  rw [fieldsLoop, hrf]
  dsimp only
  rw [if_neg (by simp [hinl]), if_pos (by simp [hnm]), if_neg (by simp [hae])]

/-- C4 (amended): a struct field is excluded entirely (the skip path:
no property, no required entry, no `allOf` entry, no flattening) iff either
(a) one of its tags is the ignore sentinel `-` *and* the field is not an
embedded field lacking a `json` tag (such a field is flattened instead), or
(b) neither tag is the sentinel, the serialization tag does not contain the
`inline` marker, and the field is unexported and not embedded.  In
particular an unexported field whose tag contains `inline` is NOT excluded,
and an embedded field with `yaml:"-"` or `jsonschema:"-"` but no `json` tag
is flattened, not excluded. -/
theorem field_exclusion_characterized (r : Reflector) (f : GoField)
    (hname : f.name ≠ "") :
    (fieldSkipped r f = true ↔
      ((ignoredByJSONTags (splitComma (jsonTagsOf f)) = true ∨
        ignoredByJSONSchemaTags (splitComma f.tagJsonschema) = true) ∧
        ¬(f.anonymous = true ∧ f.tagJson = none)) ∨
      (ignoredByJSONTags (splitComma (jsonTagsOf f)) = false ∧
       ignoredByJSONSchemaTags (splitComma f.tagJsonschema) = false ∧
       stringsSliceContains (splitComma (jsonTagsOf f)) "inline" = false ∧
       f.anonymous = false ∧ f.pkgPath ≠ "")) ∧
    (fieldSkipped r f = true → ∀ fuel st defs rest,
      fieldsLoop r (fuel+1) st defs (.cons f rest) = fieldsLoop r fuel st defs rest) := by
  refine ⟨?_, fun h fuel st defs rest => fieldsLoop_skip_step r f h fuel st defs rest⟩
  unfold fieldSkipped reflectFieldName
  by_cases h1 : ignoredByJSONTags (splitComma (jsonTagsOf f)) <;>
  by_cases h2 : ignoredByJSONSchemaTags (splitComma f.tagJsonschema) <;>
  by_cases hin : stringsSliceContains (splitComma (jsonTagsOf f)) "inline" <;>
  cases hfa : f.anonymous <;>
  rcases hfj : f.tagJson with _ | tj <;>
  by_cases hpk : f.pkgPath = "" <;>
  by_cases hl0 : (splitComma (jsonTagsOf f)).headD "" = "" <;>
    simp_all

/-- An unexported, non-embedded, untagged field (excluded). -/
def c4F : GoField := .mk "x" "mypkg" false none "" "" "" goStringType

theorem field_exclusion_witness :
    fieldSkipped ({} : Reflector) c4F = true ∧
    fieldsLoop ({} : Reflector) 3 (emptyObjectSchema false) [] (.cons c4F .nil) =
      fieldsLoop ({} : Reflector) 2 (emptyObjectSchema false) [] .nil := by
  have h := field_exclusion_characterized ({} : Reflector) c4F (by decide)
  have hsk : fieldSkipped ({} : Reflector) c4F = true :=
    h.1.mpr (Or.inr ⟨rfl, rfl, rfl, rfl, by decide⟩)
  exact ⟨hsk, h.2 hsk 2 (emptyObjectSchema false) [] .nil⟩

/-- An unexported, non-embedded field whose `json` tag carries the `inline`
marker. -/
def c4Cex : GoField := .mk "x" "mypkg" false (some ",inline") "" "" "" goStringType

/-- Concrete output of traversing a struct whose only field is `c4Cex`. -/
def c4CexOut : STy × Defs :=
  match reflectStructFields ({} : Reflector) 10 (emptyObjectSchema false) []
      (.structT "E" [] (.cons c4Cex .nil)) with
  | .ok p => p
  | _ => (emptyObjectSchema false, [])

/-- C4 counterexample: `c4Cex` is unexported and not embedded, and neither of
its tags is the ignore sentinel, so the claim says it is excluded entirely;
but the code takes the inline path: the field is not skipped and the
enclosing object receives a (promoted) `oneOf` entry from it. -/
theorem field_exclusion_claim_cex :
    (c4Cex.pkgPath ≠ "" ∧ c4Cex.anonymous = false ∧
      (splitComma (jsonTagsOf c4Cex)).headD "" ≠ "-" ∧
      (splitComma c4Cex.tagJsonschema).headD "" ≠ "-") ∧
    fieldSkipped ({} : Reflector) c4Cex = false ∧
    c4CexOut.1.node.oneOf.length = 1 :=
  ⟨⟨by decide, rfl, by decide, by decide⟩, rfl, rfl⟩

/-!
## C6 — required-flag policy
-/

mutual
/-- Whether one field's processing appends `n` to the enclosing node's
`required` list (through a direct property or through flattening). -/
def addsReqField (r : Reflector) (n : String) : GoField → Bool
  | .mk fn fp fa fj fy fjs fjd ty =>
      let p := reflectFieldName r (.mk fn fp fa fj fy fjs fjd ty)
      if p.1.Inline then false
      else if p.1.Name = "" then
        if fa && !p.2 then addsReqType r n ty else false
      else p.1.IsRequired && n == p.1.Name

/-- Whether some field of the list appends `n` to `required`. -/
def addsReqFields (r : Reflector) (n : String) : GoFields → Bool
  | .nil => false
  | .cons f rest => addsReqField r n f || addsReqFields r n rest

/-- Whether the field traversal of a type appends `n` to `required`
(after the one-pointer unwrap, only structs contribute). -/
def addsReqType (r : Reflector) (n : String) : GoType → Bool
  | .structT _ _ fields => addsReqFields r n fields
  | .ptrT _ _ (.structT _ _ fields) => addsReqFields r n fields
  | _ => false
end

theorem addsReqField_eq (r : Reflector) (n : String) (f : GoField) :
    addsReqField r n f =
      (let p := reflectFieldName r f
       if p.1.Inline then false
       else if p.1.Name = "" then
         if f.anonymous && !p.2 then addsReqType r n f.typ else false
       else p.1.IsRequired && n == p.1.Name) := by
  cases f; rfl

theorem addsReqType_eq (r : Reflector) (n : String) (t : GoType) :
    addsReqType r n t =
      (match unwrapPtrOnce t with
       | .structT _ _ fields => addsReqFields r n fields
       | _ => false) := by
  cases t with
  | ptrT nm ms e => cases e <;> rfl
  | _ => rfl

/-- Concatenation of field lists. -/
def gofAppend : GoFields → GoFields → GoFields
  | .nil, ys => ys
  | .cons f xs, ys => .cons f (gofAppend xs ys)

theorem addsReqFields_append (r : Reflector) (n : String) :
    ∀ xs ys : GoFields, addsReqFields r n (gofAppend xs ys) =
      (addsReqFields r n xs || addsReqFields r n ys)
  | .nil, ys => by simp [gofAppend, addsReqFields]
  | .cons f rest, ys => by
      simp [gofAppend, addsReqFields, addsReqFields_append r n rest ys, Bool.or_assoc]


/-- Membership in the accumulated `required` list: the field loop (and the
struct-fields traversal) append exactly the names characterized by
`addsReqFields` (resp. `addsReqType`). -/
theorem required_mem (r : Reflector) : ∀ fuel : Nat,
    (∀ st defs fs st' defs', fieldsLoop r fuel st defs fs = .ok (st', defs') →
      ∀ n, n ∈ st'.node.required ↔
        (n ∈ st.node.required ∨ addsReqFields r n fs = true)) ∧
    (∀ st defs t st' defs', reflectStructFields r fuel st defs t = .ok (st', defs') →
      ∀ n, n ∈ st'.node.required ↔
        (n ∈ st.node.required ∨ addsReqType r n t = true)) := by
  intro fuel
  induction fuel with
  | zero =>
      constructor
      · intro st defs fs st' defs' h
        rw [show fieldsLoop r 0 st defs fs = .fuelOut from rfl] at h
        cases h
      · intro st defs t st' defs' h
        rw [show reflectStructFields r 0 st defs t = .fuelOut from rfl] at h
        cases h
  | succ fuel ih =>
      obtain ⟨ihL, ihS⟩ := ih
      constructor
      · intro st defs fs st' defs' h n
        cases fs with
        | nil =>
            rw [fieldsLoop] at h
            simp only [Res.ok.injEq, Prod.mk.injEq] at h
            obtain ⟨h1, h2⟩ := h
            subst h1
            simp [addsReqFields]
        | cons f rest =>
            rw [fieldsLoop] at h
            rcases hrf : reflectFieldName r f with ⟨⟨nm, req, inl⟩, ex⟩
            rw [hrf] at h
            dsimp only at h
            by_cases hinl : inl = true
            · rw [if_pos (by simp [hinl])] at h
              rcases hp : reflectTypeToSchema r fuel defs f.typ with a | m | _
              · obtain ⟨prop, d1⟩ := a
                rw [hp] at h
                simp only [Res.bind_ok] at h
                have h2 := ihL _ _ _ _ _ h n
                simp only [STy.node_mk] at h2
                rw [h2]
                simp [addsReqFields, addsReqField_eq, hrf, hinl]
              · rw [hp] at h; simp at h
              · rw [hp] at h; simp at h
            · rw [if_neg (by simp [hinl])] at h
              by_cases hnm : nm = ""
              · rw [if_pos (by simp [hnm])] at h
                by_cases hae : (f.anonymous && !ex) = true
                · rw [if_pos hae] at h
                  rcases hp : reflectStructFields r fuel st defs f.typ with a | m | _
                  · obtain ⟨st1, d1⟩ := a
                    rw [hp] at h
                    simp only [Res.bind_ok] at h
                    have h1 := ihS _ _ _ _ _ hp n
                    have h2 := ihL _ _ _ _ _ h n
                    rw [h2, h1]
                    simp [addsReqFields, addsReqField_eq, hrf, hinl, hnm, hae, or_assoc]
                  · rw [hp] at h; simp at h
                  · rw [hp] at h; simp at h
                · rw [if_neg hae] at h
                  have h2 := ihL _ _ _ _ _ h n
                  rw [h2]
                  simp [addsReqFields, addsReqField_eq, hrf, hinl, hnm, hae]
              · rw [if_neg (by simp [hnm])] at h
                rcases hp : reflectTypeToSchema r fuel defs f.typ with a | m | _
                · obtain ⟨prop, d1⟩ := a
                  rw [hp] at h
                  simp only [Res.bind_ok] at h
                  by_cases hreq : req = true
                  · rw [if_pos (by simp [hreq])] at h
                    have h2 := ihL _ _ _ _ _ h n
                    simp only [STy.node_mk] at h2
                    rw [h2]
                    simp [addsReqFields, addsReqField_eq, hrf, hinl, hnm, hreq,
                      or_assoc]
                  · rw [if_neg (by simp [hreq])] at h
                    have h2 := ihL _ _ _ _ _ h n
                    simp only [STy.node_mk] at h2
                    rw [h2]
                    simp [addsReqFields, addsReqField_eq, hrf, hinl, hnm, hreq]
                · rw [hp] at h; simp at h
                · rw [hp] at h; simp at h
      · intro st defs t st' defs' h n
        rw [reflectStructFields] at h
        cases hu : unwrapPtrOnce t
        case structT tn tm tf =>
          rw [hu] at h
          dsimp only at h
          rcases hp : fieldsLoop r fuel st defs tf with a | m | _
          · obtain ⟨mid, d1⟩ := a
            rw [hp] at h
            simp only [Res.bind_ok] at h
            have h1 := ihL _ _ _ _ _ hp n
            rw [addsReqType_eq, hu]
            by_cases hc : mid.node.allOf.length = 1 ∧ mid.node.oneOf.length = 0
            · simp only [if_pos hc, Res.ok.injEq, Prod.mk.injEq] at h
              obtain ⟨h2, _⟩ := h
              rw [← h2]
              simpa using h1
            · simp only [if_neg hc, Res.ok.injEq, Prod.mk.injEq] at h
              rw [← h.1]
              exact h1
          · rw [hp] at h; simp at h
          · rw [hp] at h; simp at h
        all_goals
          rw [hu] at h
          dsimp only at h
          simp only [Res.ok.injEq, Prod.mk.injEq] at h
          obtain ⟨h1, h2⟩ := h
          subst h1
          rw [addsReqType_eq, hu]
          simp

/-- The resolved required flag of a field whose resolved name is non-empty:
by default "no `omitempty` among the serialization-tag options", flipped by
`RequiredFromJSONSchemaTags` to "`required` among the jsonschema tags". -/
theorem reflectFieldName_required (r : Reflector) (f : GoField) (nm : String)
    (req inl : Bool) (ex : Bool)
    (hrf : reflectFieldName r f = (⟨nm, req, inl⟩, ex)) (hnm : nm ≠ "") :
    req = (if r.RequiredFromJSONSchemaTags then
             stringsSliceContains (splitComma f.tagJsonschema) "required"
           else !stringsSliceContains ((splitComma (jsonTagsOf f)).drop 1) "omitempty") := by
  unfold reflectFieldName at hrf
  by_cases h1 : ignoredByJSONTags (splitComma (jsonTagsOf f)) = true
  · simp only [h1, if_true] at hrf
    simp only [Prod.mk.injEq, FieldAnnot.mk.injEq] at hrf
    exact absurd hrf.1.1.symm hnm
  · simp only [Bool.not_eq_true] at h1
    simp only [h1, Bool.false_eq_true, if_false] at hrf
    by_cases h2 : ignoredByJSONSchemaTags (splitComma f.tagJsonschema) = true
    · simp only [h2, if_true] at hrf
      simp only [Prod.mk.injEq, FieldAnnot.mk.injEq] at hrf
      exact absurd hrf.1.1.symm hnm
    · simp only [Bool.not_eq_true] at h2
      simp only [h2, Bool.false_eq_true, if_false] at hrf
      simp only [Prod.mk.injEq, FieldAnnot.mk.injEq] at hrf
      have hreq := hrf.1.2.1
      rw [← hreq]
      unfold requiredFromJSONSchemaTags requiredFromJSONTags
      rw [h1, h2]
      simp

/-- C6 (amended): for a non-excluded, non-inlined field with resolved name
`nm` in a traversed (non-ignored) struct — assuming no other field of the
struct contributes a `required` entry for the same name — `nm` appears in the
stored object node's `required` list iff, under the default configuration,
the serialization-tag options do not contain `omitempty`, and, when
`RequiredFromJSONSchemaTags` is set, iff the jsonschema tag contains
`required`. -/
theorem required_policy (r : Reflector) (fuel : Nat) (defs : Defs)
    (tname : String) (meths : List String) (pre post : GoFields) (f : GoField)
    (nm : String) (req : Bool) (ex : Bool)
    (hrf : reflectFieldName r f = (⟨nm, req, false⟩, ex))
    (hnm : nm ≠ "")
    (hpre : addsReqFields r nm pre = false)
    (hpost : addsReqFields r nm post = false)
    (hIg : r.isIgnored (.structT tname meths (gofAppend pre (.cons f post))) = false)
    (s : STy) (defs' : Defs)
    (h : reflectStruct r (fuel+1) defs
        (.structT tname meths (gofAppend pre (.cons f post))) = .ok (s, defs')) :
    ∃ st, defsGet defs' tname = some st ∧
      (nm ∈ st.node.required ↔
        (if r.RequiredFromJSONSchemaTags then
           stringsSliceContains (splitComma f.tagJsonschema) "required" = true
         else stringsSliceContains ((splitComma (jsonTagsOf f)).drop 1) "omitempty" = false)) := by
  rw [reflectStruct] at h
  simp only [hIg, Bool.not_false, if_true] at h
  rcases hsf : reflectStructFields r fuel
      (emptyObjectSchema (r.AllowAdditionalProperties || false)) defs
      (.structT tname meths (gofAppend pre (.cons f post))) with a | m | _
  · obtain ⟨st, d2⟩ := a
    rw [hsf] at h
    simp only [Res.bind_ok, addToDefinitions, Res.ok.injEq, Prod.mk.injEq] at h
    refine ⟨st, ?_, ?_⟩
    · rw [← h.2]
      simpa [goName] using defsGet_insert_self d2 tname st
    · have hmem := (required_mem r fuel).2 _ _ _ _ _ hsf nm
      rw [hmem]
      have hzero : nm ∈ (emptyObjectSchema (r.AllowAdditionalProperties || false)).node.required ↔ False := by
        simp [emptyObjectSchema]
      rw [addsReqType_eq]
      simp only [unwrapPtrOnce]
      rw [addsReqFields_append]
      simp only [addsReqFields, addsReqField_eq, hrf]
      have hcontrib : ((⟨nm, req, false⟩ : FieldAnnot).IsRequired &&
          nm == (⟨nm, req, false⟩ : FieldAnnot).Name) = req := by
        simp
      have hreqf := reflectFieldName_required r f nm req false ex hrf hnm
      by_cases hR : r.RequiredFromJSONSchemaTags
      · rw [if_pos hR]
        simp only [hR, if_true] at hreqf
        simp [emptyObjectSchema, hpre, hpost, hreqf, hnm]
      · rw [if_neg hR]
        simp only [Bool.not_eq_true] at hR
        simp only [hR, Bool.false_eq_true, if_false] at hreqf
        simp [emptyObjectSchema, hpre, hpost, hreqf, hnm]
  · rw [hsf] at h; simp at h
  · rw [hsf] at h; simp at h

/-- A plain required field (`json:"id" jsonschema:"required"`). -/
def c6F : GoField := .mk "ID" "" false (some "id") "" "required" "" goIntType

/-- The enclosing struct of the C6 witness. -/
def c6T : GoType := .structT "S6" [] (gofAppend .nil (.cons c6F .nil))

/-- Concrete output of `reflectStruct` on `c6T`. -/
def c6Out : STy × Defs :=
  match reflectStruct ({} : Reflector) 6 [] c6T with
  | .ok p => p
  | _ => (emptyObjectSchema false, [])

theorem required_policy_witness :
    ∃ st, defsGet c6Out.2 "S6" = some st ∧
      (("id" : String) ∈ st.node.required ↔
        (if ({} : Reflector).RequiredFromJSONSchemaTags then
           stringsSliceContains (splitComma c6F.tagJsonschema) "required" = true
         else stringsSliceContains ((splitComma (jsonTagsOf c6F)).drop 1) "omitempty" = false)) :=
  required_policy {} 5 [] "S6" [] .nil .nil c6F "id" true true rfl (by decide)
    rfl rfl rfl c6Out.1 c6Out.2 rfl

/-- A field carrying the `inline` marker with an explicit name
(`json:"foo,inline"`). -/
def c6CexF : GoField := .mk "F" "" false (some "foo,inline") "" "" "" goStringType

/-- The enclosing struct of the C6 counterexample. -/
def c6CexT : GoType := .structT "W6" [] (.cons c6CexF .nil)

/-- Concrete output of `reflectStruct` on `c6CexT`. -/
def c6CexOut : STy × Defs :=
  match reflectStruct ({} : Reflector) 10 [] c6CexT with
  | .ok p => p
  | _ => (emptyObjectSchema false, [])

/-- C6 counterexample: the field resolves to the non-empty name `foo`, is not
excluded, and its serialization-tag options contain no `omitempty`, so under
the default configuration the claim requires `foo` in the object's required
list; but the field is inlined and the stored node's required list is empty. -/
theorem required_policy_claim_cex :
    (reflectFieldName ({} : Reflector) c6CexF).1.Name = "foo" ∧
    fieldSkipped ({} : Reflector) c6CexF = false ∧
    stringsSliceContains ((splitComma (jsonTagsOf c6CexF)).drop 1) "omitempty" = false ∧
    ((defsGet c6CexOut.2 "W6").map (fun s => s.node.required)) = some [] :=
  ⟨rfl, rfl, rfl, rfl⟩

/-!
## C7 — unsupported kinds abort the whole operation
-/

mutual
/-- A type is built only from supported kinds (everything except `otherT`,
which stands for chan/func/complex/uintptr/unsafe-pointer kinds). -/
def supportedDeep : GoType → Bool
  | .structT _ _ fields => supportedDeepFields fields
  | .mapT _ _ k e => supportedDeep k && supportedDeep e
  | .sliceT _ _ e => supportedDeep e
  | .arrayT _ _ _ e => supportedDeep e
  | .interfaceT _ _ => true
  | .intT _ _ _ => true
  | .floatT _ _ _ => true
  | .boolT _ _ => true
  | .stringT _ _ => true
  | .ptrT _ _ e => supportedDeep e
  | .otherT _ _ _ => false

def supportedDeepFields : GoFields → Bool
  | .nil => true
  | .cons f rest => supportedDeepField f && supportedDeepFields rest

def supportedDeepField : GoField → Bool
  | .mk _ _ _ _ _ _ _ ty => supportedDeep ty
end

/-- Every concrete type registered for a discriminated union is built only
from supported kinds. -/
def registrySupported (r : Reflector) : Bool :=
  r.DiscriminatedTypes.all (fun d => d.Ancestors.all (fun p => supportedDeep p.2))

theorem Res.bind_fatal_inv {α β : Type} {x : Res α} {f : α → Res β} {msg : String}
    (h : x.bind f = .fatal msg) :
    x = .fatal msg ∨ ∃ a, x = .ok a ∧ f a = .fatal msg := by
  cases x with
  | ok a => exact Or.inr ⟨a, rfl, h⟩
  | fatal m => simp [Res.bind] at h; simp [h]
  | fuelOut => simp [Res.bind] at h

theorem Res.bind_pure_fatal {α β : Type} {x : Res α} {g : α → β} {msg : String}
    (h : x.bind (fun a => Res.ok (g a)) = .fatal msg) : x = .fatal msg := by
  rcases Res.bind_fatal_inv h with h1 | ⟨a, _, hfa⟩
  · exact h1
  · cases hfa

/-- Traversal of types built only from supported kinds — under a reflector
whose registered discriminator ancestors are also built from supported
kinds — never takes the fatal (unsupported-kind) branch. -/
theorem no_fatal (r : Reflector) (hreg : registrySupported r = true) : ∀ fuel : Nat,
    (∀ defs t, supportedDeep t = true →
      ∀ msg, reflectTypeToSchema r fuel defs t ≠ .fatal msg) ∧
    (∀ defs pairs dField, pairs.all (fun p : String × GoType => supportedDeep p.2) = true →
      ∀ msg, discrimLoop r fuel defs pairs dField ≠ .fatal msg) ∧
    (∀ defs t dField dKey, supportedDeep t = true →
      ∀ msg, reflectDiscriminatedStruct r fuel defs t dField dKey ≠ .fatal msg) ∧
    (∀ defs t, supportedDeep t = true →
      ∀ msg, reflectStruct r fuel defs t ≠ .fatal msg) ∧
    (∀ st defs t, supportedDeep t = true →
      ∀ msg, reflectStructFields r fuel st defs t ≠ .fatal msg) ∧
    (∀ st defs fs, supportedDeepFields fs = true →
      ∀ msg, fieldsLoop r fuel st defs fs ≠ .fatal msg) := by
  intro fuel
  induction fuel with
  | zero =>
      refine ⟨?_, ?_, ?_, ?_, ?_, ?_⟩ <;> (intros; intro h; cases h)
  | succ fuel ih =>
      obtain ⟨ihT, ihD, ihR, ihS, ihF, ihL⟩ := ih
      have hreg2 : ∀ d ∈ r.DiscriminatedTypes,
          d.Ancestors.all (fun p => supportedDeep p.2) = true := by
        intro d hd
        exact List.all_eq_true.mp hreg d hd
      refine ⟨?_, ?_, ?_, ?_, ?_, ?_⟩
      · -- reflectTypeToSchema
        intro defs t hsup msg h
        cases t with
        | structT n ms fs =>
            rw [reflectTypeToSchema] at h
            by_cases h1 : (defsGet defs (goName (GoType.structT n ms fs))).isSome = true
            · rw [if_pos h1] at h; cases h
            · rw [if_neg h1] at h
              by_cases h2 : goImplements (GoType.structT n ms fs) protoEnumType = true
              · rw [if_pos h2] at h; cases h
              · rw [if_neg h2] at h
                rcases he : r.getEnum (GoType.structT n ms fs) with _ | en
                · rw [he] at h
                  dsimp only at h
                  rcases hm : mapperAt r (GoType.structT n ms fs) with _ | s
                  · rw [hm] at h
                    dsimp only at h
                    by_cases hip : (GoType.structT n ms fs) = ipType
                    · rw [if_pos hip] at h; cases h
                    · rw [if_neg hip] at h
                      by_cases h3 : (GoType.structT n ms fs) = timeType
                      · rw [if_pos h3] at h; cases h
                      · rw [if_neg h3] at h
                        by_cases h4 : (GoType.structT n ms fs) = uriType
                        · rw [if_pos h4] at h; cases h
                        · rw [if_neg h4] at h
                          exact ihS _ _ hsup msg h
                  · rw [hm] at h; dsimp only at h; cases h
                · rw [he] at h; dsimp only at h; cases h
        | mapT n ms k e =>
            rw [reflectTypeToSchema] at h
            by_cases h1 : (defsGet defs (goName (GoType.mapT n ms k e))).isSome = true
            · rw [if_pos h1] at h; cases h
            · rw [if_neg h1] at h
              by_cases h2 : goImplements (GoType.mapT n ms k e) protoEnumType = true
              · rw [if_pos h2] at h; cases h
              · rw [if_neg h2] at h
                rcases he : r.getEnum (GoType.mapT n ms k e) with _ | en
                · rw [he] at h
                  dsimp only at h
                  rcases hm : mapperAt r (GoType.mapT n ms k e) with _ | s
                  · rw [hm] at h
                    dsimp only at h
                    by_cases hip : (GoType.mapT n ms k e) = ipType
                    · rw [if_pos hip] at h; cases h
                    · rw [if_neg hip] at h
                      have he2 : supportedDeep e = true := by
                        simp only [supportedDeep, Bool.and_eq_true] at hsup
                        exact hsup.2
                      exact ihT _ _ he2 msg (Res.bind_pure_fatal h)
                  · rw [hm] at h; dsimp only at h; cases h
                · rw [he] at h; dsimp only at h; cases h
        | sliceT n ms e =>
            rw [reflectTypeToSchema] at h
            by_cases h1 : (defsGet defs (goName (GoType.sliceT n ms e))).isSome = true
            · rw [if_pos h1] at h; cases h
            · rw [if_neg h1] at h
              by_cases h2 : goImplements (GoType.sliceT n ms e) protoEnumType = true
              · rw [if_pos h2] at h; cases h
              · rw [if_neg h2] at h
                rcases he : r.getEnum (GoType.sliceT n ms e) with _ | en
                · rw [he] at h
                  dsimp only at h
                  rcases hm : mapperAt r (GoType.sliceT n ms e) with _ | s
                  · rw [hm] at h
                    dsimp only at h
                    by_cases hip : (GoType.sliceT n ms e) = ipType
                    · rw [if_pos hip] at h; cases h
                    · rw [if_neg hip] at h
                      by_cases hbs : (GoType.sliceT n ms e) = byteSliceType
                      · rw [if_pos hbs] at h; cases h
                      · rw [if_neg hbs] at h
                        have he2 : supportedDeep e = true := by
                          simpa [supportedDeep] using hsup
                        exact ihT _ _ he2 msg (Res.bind_pure_fatal h)
                  · rw [hm] at h; dsimp only at h; cases h
                · rw [he] at h; dsimp only at h; cases h
        | arrayT n ms len e =>
            rw [reflectTypeToSchema] at h
            by_cases h1 : (defsGet defs (goName (GoType.arrayT n ms len e))).isSome = true
            · rw [if_pos h1] at h; cases h
            · rw [if_neg h1] at h
              by_cases h2 : goImplements (GoType.arrayT n ms len e) protoEnumType = true
              · rw [if_pos h2] at h; cases h
              · rw [if_neg h2] at h
                rcases he : r.getEnum (GoType.arrayT n ms len e) with _ | en
                · rw [he] at h
                  dsimp only at h
                  rcases hm : mapperAt r (GoType.arrayT n ms len e) with _ | s
                  · rw [hm] at h
                    dsimp only at h
                    by_cases hip : (GoType.arrayT n ms len e) = ipType
                    · rw [if_pos hip] at h; cases h
                    · rw [if_neg hip] at h
                      by_cases hbs : (GoType.arrayT n ms len e) = byteSliceType
                      · rw [if_pos hbs] at h; cases h
                      · rw [if_neg hbs] at h
                        have he2 : supportedDeep e = true := by
                          simpa [supportedDeep] using hsup
                        exact ihT _ _ he2 msg (Res.bind_pure_fatal h)
                  · rw [hm] at h; dsimp only at h; cases h
                · rw [he] at h; dsimp only at h; cases h
        | interfaceT n ms =>
            rw [reflectTypeToSchema] at h
            by_cases h1 : (defsGet defs (goName (GoType.interfaceT n ms))).isSome = true
            · rw [if_pos h1] at h; cases h
            · rw [if_neg h1] at h
              by_cases h2 : goImplements (GoType.interfaceT n ms) protoEnumType = true
              · rw [if_pos h2] at h; cases h
              · rw [if_neg h2] at h
                rcases he : r.getEnum (GoType.interfaceT n ms) with _ | en
                · rw [he] at h
                  dsimp only at h
                  rcases hm : mapperAt r (GoType.interfaceT n ms) with _ | s
                  · rw [hm] at h
                    dsimp only at h
                    by_cases hip : (GoType.interfaceT n ms) = ipType
                    · rw [if_pos hip] at h; cases h
                    · rw [if_neg hip] at h
                      rcases hd : r.getDiscriminator (GoType.interfaceT n ms) with _ | d
                      · rw [hd] at h
                        dsimp only at h
                        by_cases hn : n ≠ ""
                        · rw [if_pos hn] at h; cases h
                        · rw [if_neg hn] at h; cases h
                      · rw [hd] at h
                        dsimp only at h
                        have hdm : d ∈ r.DiscriminatedTypes := by
                          unfold Reflector.getDiscriminator at hd
                          exact List.mem_of_find?_eq_some hd
                        have hpairs := hreg2 d hdm
                        rcases Res.bind_fatal_inv h with h5 | ⟨a, _, hfa⟩
                        · exact ihD _ _ _ hpairs msg h5
                        · obtain ⟨branches, d2⟩ := a
                          dsimp only at hfa
                          by_cases hn : n ≠ ""
                          · rw [if_pos hn] at hfa; cases hfa
                          · rw [if_neg hn] at hfa; cases hfa
                  · rw [hm] at h; dsimp only at h; cases h
                · rw [he] at h; dsimp only at h; cases h
        | intT n ms k =>
            rw [reflectTypeToSchema] at h
            by_cases h1 : (defsGet defs (goName (GoType.intT n ms k))).isSome = true
            · rw [if_pos h1] at h; cases h
            · rw [if_neg h1] at h
              by_cases h2 : goImplements (GoType.intT n ms k) protoEnumType = true
              · rw [if_pos h2] at h; cases h
              · rw [if_neg h2] at h
                rcases he : r.getEnum (GoType.intT n ms k) with _ | en
                · rw [he] at h
                  dsimp only at h
                  rcases hm : mapperAt r (GoType.intT n ms k) with _ | s
                  · rw [hm] at h
                    dsimp only at h
                    by_cases hip : (GoType.intT n ms k) = ipType
                    · rw [if_pos hip] at h; cases h
                    · rw [if_neg hip] at h
                      cases h
                  · rw [hm] at h; dsimp only at h; cases h
                · rw [he] at h; dsimp only at h; cases h
        | floatT n ms k =>
            rw [reflectTypeToSchema] at h
            by_cases h1 : (defsGet defs (goName (GoType.floatT n ms k))).isSome = true
            · rw [if_pos h1] at h; cases h
            · rw [if_neg h1] at h
              by_cases h2 : goImplements (GoType.floatT n ms k) protoEnumType = true
              · rw [if_pos h2] at h; cases h
              · rw [if_neg h2] at h
                rcases he : r.getEnum (GoType.floatT n ms k) with _ | en
                · rw [he] at h
                  dsimp only at h
                  rcases hm : mapperAt r (GoType.floatT n ms k) with _ | s
                  · rw [hm] at h
                    dsimp only at h
                    by_cases hip : (GoType.floatT n ms k) = ipType
                    · rw [if_pos hip] at h; cases h
                    · rw [if_neg hip] at h
                      cases h
                  · rw [hm] at h; dsimp only at h; cases h
                · rw [he] at h; dsimp only at h; cases h
        | boolT n ms =>
            rw [reflectTypeToSchema] at h
            by_cases h1 : (defsGet defs (goName (GoType.boolT n ms))).isSome = true
            · rw [if_pos h1] at h; cases h
            · rw [if_neg h1] at h
              by_cases h2 : goImplements (GoType.boolT n ms) protoEnumType = true
              · rw [if_pos h2] at h; cases h
              · rw [if_neg h2] at h
                rcases he : r.getEnum (GoType.boolT n ms) with _ | en
                · rw [he] at h
                  dsimp only at h
                  rcases hm : mapperAt r (GoType.boolT n ms) with _ | s
                  · rw [hm] at h
                    dsimp only at h
                    by_cases hip : (GoType.boolT n ms) = ipType
                    · rw [if_pos hip] at h; cases h
                    · rw [if_neg hip] at h
                      cases h
                  · rw [hm] at h; dsimp only at h; cases h
                · rw [he] at h; dsimp only at h; cases h
        | stringT n ms =>
            rw [reflectTypeToSchema] at h
            by_cases h1 : (defsGet defs (goName (GoType.stringT n ms))).isSome = true
            · rw [if_pos h1] at h; cases h
            · rw [if_neg h1] at h
              by_cases h2 : goImplements (GoType.stringT n ms) protoEnumType = true
              · rw [if_pos h2] at h; cases h
              · rw [if_neg h2] at h
                rcases he : r.getEnum (GoType.stringT n ms) with _ | en
                · rw [he] at h
                  dsimp only at h
                  rcases hm : mapperAt r (GoType.stringT n ms) with _ | s
                  · rw [hm] at h
                    dsimp only at h
                    by_cases hip : (GoType.stringT n ms) = ipType
                    · rw [if_pos hip] at h; cases h
                    · rw [if_neg hip] at h
                      cases h
                  · rw [hm] at h; dsimp only at h; cases h
                · rw [he] at h; dsimp only at h; cases h
        | ptrT n ms e =>
            rw [reflectTypeToSchema] at h
            by_cases h1 : (defsGet defs (goName (GoType.ptrT n ms e))).isSome = true
            · rw [if_pos h1] at h; cases h
            · rw [if_neg h1] at h
              by_cases h2 : goImplements (GoType.ptrT n ms e) protoEnumType = true
              · rw [if_pos h2] at h; cases h
              · rw [if_neg h2] at h
                rcases he : r.getEnum (GoType.ptrT n ms e) with _ | en
                · rw [he] at h
                  dsimp only at h
                  rcases hm : mapperAt r (GoType.ptrT n ms e) with _ | s
                  · rw [hm] at h
                    dsimp only at h
                    by_cases hip : (GoType.ptrT n ms e) = ipType
                    · rw [if_pos hip] at h; cases h
                    · rw [if_neg hip] at h
                      have he2 : supportedDeep e = true := by
                        simpa [supportedDeep] using hsup
                      exact ihT _ _ he2 msg h
                  · rw [hm] at h; dsimp only at h; cases h
                · rw [he] at h; dsimp only at h; cases h
        | otherT n ms k => simp [supportedDeep] at hsup
      · -- discrimLoop
        intro defs pairs dField hsup msg h
        cases pairs with
        | nil => rw [discrimLoop] at h; cases h
        | cons p rest =>
            obtain ⟨dKey, anc⟩ := p
            rw [discrimLoop] at h
            simp only [List.all_cons, Bool.and_eq_true] at hsup
            rcases Res.bind_fatal_inv h with h1 | ⟨a, _, hfa⟩
            · exact ihR _ _ _ _ hsup.1 msg h1
            · obtain ⟨ancRef, d1⟩ := a
              dsimp only at hfa
              rcases Res.bind_fatal_inv hfa with h2 | ⟨b, _, hfb⟩
              · exact ihD _ _ _ hsup.2 msg h2
              · cases hfb
      · -- reflectDiscriminatedStruct
        intro defs t dField dKey hsup msg h
        rw [reflectDiscriminatedStruct] at h
        by_cases hIg : r.isIgnored t = true
        · simp only [hIg, Bool.not_true, Bool.false_eq_true, if_false] at h
          rcases Res.bind_fatal_inv h with h1 | ⟨a, _, hfa⟩
          · cases h1
          · cases hfa
        · simp only [Bool.not_eq_true] at hIg
          simp only [hIg, Bool.not_false, if_true] at h
          rcases Res.bind_fatal_inv h with h1 | ⟨a, _, hfa⟩
          · exact ihF _ _ _ hsup msg h1
          · cases hfa
      · -- reflectStruct
        intro defs t hsup msg h
        rw [reflectStruct] at h
        by_cases hIg : r.isIgnored t = true
        · simp only [hIg, Bool.not_true, Bool.false_eq_true, if_false] at h
          rcases Res.bind_fatal_inv h with h1 | ⟨a, _, hfa⟩
          · cases h1
          · cases hfa
        · simp only [Bool.not_eq_true] at hIg
          simp only [hIg, Bool.not_false, if_true] at h
          rcases Res.bind_fatal_inv h with h1 | ⟨a, _, hfa⟩
          · exact ihF _ _ _ hsup msg h1
          · cases hfa
      · -- reflectStructFields
        intro st defs t hsup msg h
        rw [reflectStructFields] at h
        have hsup2 : ∀ tn tm tf, unwrapPtrOnce t = .structT tn tm tf →
            supportedDeepFields tf = true := by
          intro tn tm tf hu
          cases t with
          | structT a b c =>
              simp only [unwrapPtrOnce] at hu
              cases hu
              simpa [supportedDeep] using hsup
          | ptrT a b e =>
              simp only [unwrapPtrOnce] at hu
              subst hu
              simpa [supportedDeep] using hsup
          | _ => simp [unwrapPtrOnce] at hu
        cases hu : unwrapPtrOnce t
        case structT tn tm tf =>
          rw [hu] at h
          dsimp only at h
          rcases Res.bind_fatal_inv h with h1 | ⟨a, _, hfa⟩
          · exact ihL _ _ _ (hsup2 tn tm tf hu) msg h1
          · obtain ⟨mid, d1⟩ := a
            dsimp only at hfa
            cases hfa
        all_goals (rw [hu] at h; dsimp only at h; cases h)
      · -- fieldsLoop
        intro st defs fs hsup msg h
        cases fs with
        | nil => rw [fieldsLoop] at h; cases h
        | cons f rest =>
            rw [fieldsLoop] at h
            simp only [supportedDeepFields, Bool.and_eq_true] at hsup
            have hft : supportedDeep f.typ = true := by
              have h1 := hsup.1
              cases f
              simpa [supportedDeepField, GoField.typ] using h1
            rcases hrf : reflectFieldName r f with ⟨⟨nm, req, inl⟩, ex⟩
            rw [hrf] at h
            dsimp only at h
            by_cases hinl : inl = true
            · rw [if_pos (by simp [hinl])] at h
              rcases Res.bind_fatal_inv h with h1 | ⟨a, _, hfa⟩
              · exact ihT _ _ hft msg h1
              · obtain ⟨prop, d1⟩ := a
                exact ihL _ _ _ hsup.2 msg hfa
            · rw [if_neg (by simp [hinl])] at h
              by_cases hnm : nm = ""
              · rw [if_pos (by simp [hnm])] at h
                by_cases hae : (f.anonymous && !ex) = true
                · rw [if_pos hae] at h
                  rcases Res.bind_fatal_inv h with h1 | ⟨a, _, hfa⟩
                  · exact ihF _ _ _ hft msg h1
                  · obtain ⟨st1, d1⟩ := a
                    exact ihL _ _ _ hsup.2 msg hfa
                · rw [if_neg hae] at h
                  exact ihL _ _ _ hsup.2 msg h
              · rw [if_neg (by simp [hnm])] at h
                rcases Res.bind_fatal_inv h with h1 | ⟨a, _, hfa⟩
                · exact ihT _ _ hft msg h1
                · obtain ⟨prop, d1⟩ := a
                  dsimp only at hfa
                  exact ihL _ _ _ hsup.2 msg hfa

/-- C7 (amended): a type of unsupported kind reaching kind dispatch aborts
the whole reflect operation with a fatal failure (no partial schema); and a
type built only from supported kinds never takes the fatal branch — provided
the registered discriminator ancestor types are also built only from
supported kinds (a discriminator registration can otherwise smuggle an
unsupported kind into the traversal of a perfectly supported type; see the
counterexample). -/
theorem unsupported_kind_policy (r : Reflector) (fuel : Nat) (n kindName : String)
    (ms : List String)
    (hProto : goImplements (.otherT n ms kindName) protoEnumType = false)
    (hEnum : r.getEnum (.otherT n ms kindName) = none)
    (hMap : mapperAt r (.otherT n ms kindName) = none)
    (hExp : r.ExpandedStruct = false) :
    ReflectFromType r (fuel+1) (.otherT n ms kindName) =
      .fatal ("unsupported type " ++ n ++ " " ++ kindName) ∧
    (∀ (rq : Reflector) (fq : Nat) (t : GoType), registrySupported rq = true →
      supportedDeep t = true → ∀ msg, ReflectFromType rq fq t ≠ .fatal msg) := by
  constructor
  · unfold ReflectFromType
    simp only [hExp, Bool.false_eq_true, if_false]
    rw [reflectTypeToSchema]
    rw [if_neg (show ¬((defsGet ([] : Defs)
      (goName (GoType.otherT n ms kindName))).isSome = true) from by simp [defsGet])]
    rw [if_neg (show ¬(goImplements (.otherT n ms kindName) protoEnumType = true) from
      by simp [hProto])]
    rw [hEnum]
    dsimp only
    rw [hMap]
    dsimp only
    rw [if_neg (show GoType.otherT n ms kindName ≠ ipType from fun hc => by cases hc)]
    rfl
  · intro rq fq t hreg ht msg h
    obtain ⟨pT, pD, pR, pS, pF, pL⟩ := no_fatal rq hreg fq
    unfold ReflectFromType at h
    by_cases hexp : rq.ExpandedStruct = true
    · simp only [hexp, if_true] at h
      rcases Res.bind_fatal_inv h with h1 | ⟨a, _, hfa⟩
      · exact pF _ _ _ ht msg h1
      · obtain ⟨st1, d1⟩ := a
        dsimp only at hfa
        rcases Res.bind_fatal_inv hfa with h2 | ⟨b2, _, hfb⟩
        · exact pS _ _ ht msg h2
        · obtain ⟨s2, d2⟩ := b2
          cases hfb
    · simp only [Bool.not_eq_true] at hexp
      simp only [hexp, Bool.false_eq_true, if_false] at h
      rcases Res.bind_fatal_inv h with h1 | ⟨a, _, hfa⟩
      · exact pT _ _ ht msg h1
      · obtain ⟨s1, d1⟩ := a
        cases hfa

theorem unsupported_kind_policy_witness :
    ReflectFromType ({} : Reflector) 3 (.otherT "C" [] "chan") =
      .fatal ("unsupported type " ++ "C" ++ " " ++ "chan") ∧
    ReflectFromType ({} : Reflector) 9 goIntType ≠ .fatal "x" := by
  have h := unsupported_kind_policy ({} : Reflector) 2 "C" "chan" [] rfl rfl rfl rfl
  exact ⟨h.1, h.2 {} 9 goIntType rfl rfl "x"⟩

/-- A supported (interface) type for the C7 counterexample. -/
def c7I : GoType := .interfaceT "I7" []

/-- An unsupported chan type. -/
def c7Chan : GoType := .otherT "chanI" [] "chan"

/-- A registrable concrete type containing a chan field. -/
def c7A : GoType := .structT "A7" [] (.cons (.mk "C" "" false (some "c") "" "" "" c7Chan) .nil)

/-- A reflector whose discriminator registry maps `c7I` to `c7A`. -/
def c7R : Reflector :=
  { DiscriminatedTypes :=
      [{ BaseType := c7I, DiscriminatorField := "t", Ancestors := [("a", c7A)] }] }

/-- C7 counterexample: `c7I` is built only from supported kinds and the
discriminator registration for it succeeds, yet its traversal reaches the
unsupported-kind branch (through the registered ancestor's chan field) and
the whole operation fails fatally. -/
theorem supported_kind_claim_cex :
    supportedDeep c7I = true ∧
    (RegisterDiscriminatorType {} c7I "t" [("a", c7A)]).1 = none ∧
    ReflectFromType c7R 10 c7I = .fatal "unsupported type chanI chan" :=
  ⟨rfl, rfl, rfl⟩

/-!
## C2 — discriminated-union shape
-/

theorem propsGet_insert_self (ps : List (String × STy)) (k : String) (v : STy) :
    propsGet (propsInsert ps k v) k = some v := by
  induction ps with
  | nil => simp [propsInsert, propsGet]
  | cons p rest ih =>
      by_cases h : p.1 = k
      · simp [propsInsert, h, propsGet]
      · simp [propsInsert, h, propsGet, ih]

theorem propsGet_insert_ne (ps : List (String × STy)) (k kq : String) (v : STy)
    (h : k ≠ kq) : propsGet (propsInsert ps k v) kq = propsGet ps kq := by
  induction ps with
  | nil => simp [propsInsert, propsGet, h]
  | cons p rest ih =>
      by_cases hp : p.1 = k
      · simp [propsInsert, hp, propsGet, h]
      · simp [propsInsert, hp, propsGet, ih]

mutual
/-- Whether one field's processing inserts a property named `k` into the
enclosing node (directly or through flattening). -/
def addsPropField (r : Reflector) (k : String) : GoField → Bool
  | .mk fn fp fa fj fy fjs fjd ty =>
      let p := reflectFieldName r (.mk fn fp fa fj fy fjs fjd ty)
      if p.1.Inline then false
      else if p.1.Name = "" then
        if fa && !p.2 then addsPropType r k ty else false
      else k == p.1.Name

def addsPropFields (r : Reflector) (k : String) : GoFields → Bool
  | .nil => false
  | .cons f rest => addsPropField r k f || addsPropFields r k rest

def addsPropType (r : Reflector) (k : String) : GoType → Bool
  | .structT _ _ fields => addsPropFields r k fields
  | .ptrT _ _ (.structT _ _ fields) => addsPropFields r k fields
  | _ => false
end

theorem addsPropField_eq (r : Reflector) (k : String) (f : GoField) :
    addsPropField r k f =
      (let p := reflectFieldName r f
       if p.1.Inline then false
       else if p.1.Name = "" then
         if f.anonymous && !p.2 then addsPropType r k f.typ else false
       else k == p.1.Name) := by
  cases f; rfl

theorem addsPropType_eq (r : Reflector) (k : String) (t : GoType) :
    addsPropType r k t =
      (match unwrapPtrOnce t with
       | .structT _ _ fields => addsPropFields r k fields
       | _ => false) := by
  cases t with
  | ptrT nm ms e => cases e <;> rfl
  | _ => rfl

/-- Properties not named by any field of the list survive the field loop
unchanged (and likewise for a whole struct-fields traversal). -/
theorem props_preserved (r : Reflector) : ∀ fuel : Nat,
    (∀ st defs fs st' defs', fieldsLoop r fuel st defs fs = .ok (st', defs') →
      ∀ k, addsPropFields r k fs = false →
        propsGet st'.node.properties k = propsGet st.node.properties k) ∧
    (∀ st defs t st' defs', reflectStructFields r fuel st defs t = .ok (st', defs') →
      ∀ k, addsPropType r k t = false →
        propsGet st'.node.properties k = propsGet st.node.properties k) := by
  intro fuel
  induction fuel with
  | zero =>
      constructor <;> (intros _ _ _ _ _ h; intro _ _; cases h)
  | succ fuel ih =>
      obtain ⟨ihL, ihS⟩ := ih
      constructor
      · intro st defs fs st' defs' h k hk
        cases fs with
        | nil =>
            rw [fieldsLoop] at h
            simp only [Res.ok.injEq, Prod.mk.injEq] at h
            rw [← h.1]
        | cons f rest =>
            rw [fieldsLoop] at h
            simp only [addsPropFields, Bool.or_eq_false_iff] at hk
            obtain ⟨hkf, hkr⟩ := hk
            rw [addsPropField_eq] at hkf
            rcases hrf : reflectFieldName r f with ⟨⟨nm, req, inl⟩, ex⟩
            rw [hrf] at h
            rw [hrf] at hkf
            dsimp only at h hkf
            by_cases hinl : inl = true
            · rw [if_pos (by simp [hinl])] at h
              rcases hp : reflectTypeToSchema r fuel defs f.typ with a | m | _
              · obtain ⟨prop, d1⟩ := a
                rw [hp] at h
                simp only [Res.bind_ok] at h
                have h2 := ihL _ _ _ _ _ h k hkr
                simpa using h2
              · rw [hp] at h; simp at h
              · rw [hp] at h; simp at h
            · rw [if_neg (by simp [hinl])] at h
              rw [if_neg (by simp [hinl])] at hkf
              by_cases hnm : nm = ""
              · rw [if_pos (by simp [hnm])] at h
                rw [if_pos (by simp [hnm])] at hkf
                by_cases hae : (f.anonymous && !ex) = true
                · rw [if_pos hae] at h
                  rw [if_pos hae] at hkf
                  rcases hp : reflectStructFields r fuel st defs f.typ with a | m | _
                  · obtain ⟨st1, d1⟩ := a
                    rw [hp] at h
                    simp only [Res.bind_ok] at h
                    have h1 := ihS _ _ _ _ _ hp k hkf
                    have h2 := ihL _ _ _ _ _ h k hkr
                    rw [h2, h1]
                  · rw [hp] at h; simp at h
                  · rw [hp] at h; simp at h
                · rw [if_neg hae] at h
                  exact ihL _ _ _ _ _ h k hkr
              · rw [if_neg (by simp [hnm])] at h
                rw [if_neg (by simp [hnm])] at hkf
                rcases hp : reflectTypeToSchema r fuel defs f.typ with a | m | _
                · obtain ⟨prop, d1⟩ := a
                  rw [hp] at h
                  simp only [Res.bind_ok] at h
                  have hne : nm ≠ k := by
                    intro hc
                    rw [hc] at hkf
                    simp at hkf
                  by_cases hreq : req = true
                  · rw [if_pos (by simp [hreq])] at h
                    have h2 := ihL _ _ _ _ _ h k hkr
                    simp only [STy.node_mk] at h2
                    rw [h2]
                    exact propsGet_insert_ne _ _ _ _ hne
                  · rw [if_neg (by simp [hreq])] at h
                    have h2 := ihL _ _ _ _ _ h k hkr
                    simp only [STy.node_mk] at h2
                    rw [h2]
                    exact propsGet_insert_ne _ _ _ _ hne
                · rw [hp] at h; simp at h
                · rw [hp] at h; simp at h
      · intro st defs t st' defs' h k hk
        rw [reflectStructFields] at h
        rw [addsPropType_eq] at hk
        cases hu : unwrapPtrOnce t
        case structT tn tm tf =>
          rw [hu] at h
          rw [hu] at hk
          dsimp only at h hk
          rcases hp : fieldsLoop r fuel st defs tf with a | m | _
          · obtain ⟨mid, d1⟩ := a
            rw [hp] at h
            simp only [Res.bind_ok] at h
            have h1 := ihL _ _ _ _ _ hp k hk
            by_cases hc : mid.node.allOf.length = 1 ∧ mid.node.oneOf.length = 0
            · simp only [if_pos hc, Res.ok.injEq, Prod.mk.injEq] at h
              rw [← h.1]
              simpa using h1
            · simp only [if_neg hc, Res.ok.injEq, Prod.mk.injEq] at h
              rw [← h.1]
              exact h1
          · rw [hp] at h; simp at h
          · rw [hp] at h; simp at h
        all_goals
          rw [hu] at h
          dsimp only at h
          simp only [Res.ok.injEq, Prod.mk.injEq] at h
          rw [← h.1]

theorem Res.bind_ok_inv {α β : Type} {x : Res α} {f : α → Res β} {b : β}
    (h : x.bind f = .ok b) : ∃ a, x = .ok a ∧ f a = .ok b := by
  cases x with
  | ok a => exact ⟨a, rfl, h⟩
  | fatal m => cases h
  | fuelOut => cases h

/-- A successful `reflectDiscriminatedStruct` returns a reference to the
composite `Name@field:literal` key and stores under that key a node whose
injected discriminator property is the fixed single-value enum (provided no
field of the concrete type resolves to the discriminator name) and whose
required list contains the discriminator field. -/
theorem rds_ok (r : Reflector) : ∀ fuel defs t dField dKey s defs2,
    reflectDiscriminatedStruct r fuel defs t dField dKey = .ok (s, defs2) →
    s = getTypeRef (goName t ++ "@" ++ dField ++ ":" ++ dKey) ∧
    (addsPropType r dField t = false →
      ∃ st, defsGet defs2 (goName t ++ "@" ++ dField ++ ":" ++ dKey) = some st ∧
        propsGet st.node.properties dField = some (getConstStringType dKey) ∧
        dField ∈ st.node.required) := by
  intro fuel
  cases fuel with
  | zero => intro defs t dField dKey s defs2 h; cases h
  | succ fuel =>
      intro defs t dField dKey s defs2 h
      rw [reflectDiscriminatedStruct] at h
      by_cases hIg : r.isIgnored t = true
      · simp only [hIg, Bool.not_true, Bool.false_eq_true, if_false, Res.bind_ok,
          addToDefinitions, Res.ok.injEq, Prod.mk.injEq] at h
        obtain ⟨hs, hd⟩ := h
        refine ⟨hs.symm, fun _ => ?_⟩
        rw [← hd]
        exact ⟨_, defsGet_insert_self _ _ _,
          by simp [emptyObjectSchema, propsInsert, propsGet],
          by simp [emptyObjectSchema]⟩
      · simp only [Bool.not_eq_true] at hIg
        simp only [hIg, Bool.not_false, if_true] at h
        obtain ⟨⟨st1, d1⟩, hsf, hrest⟩ := Res.bind_ok_inv h
        simp only [addToDefinitions, Res.ok.injEq, Prod.mk.injEq] at hrest
        refine ⟨hrest.1.symm, fun hnoc => ?_⟩
        refine ⟨st1, ?_, ?_, ?_⟩
        · rw [← hrest.2]
          exact defsGet_insert_self _ _ _
        · have hp := (props_preserved r fuel).2 _ _ _ _ _ hsf dField hnoc
          rw [hp]
          simp [emptyObjectSchema, propsInsert, propsGet]
        · have hq := (required_mem r fuel).2 _ _ _ _ _ hsf dField
          rw [hq]
          simp [emptyObjectSchema]

/-- The branches produced by the ancestor loop: one per registered pair, each
a reference to the pair's composite key carrying the literal as its title. -/
theorem discrimLoop_branches (r : Reflector) : ∀ fuel defs pairs dField nodes defs',
    discrimLoop r fuel defs pairs dField = .ok (nodes, defs') →
    nodes.length = pairs.length ∧
    ∀ b ∈ nodes, ∃ p ∈ pairs,
      b = STy.mk { (getTypeRef (goName p.2 ++ "@" ++ dField ++ ":" ++ p.1)).node with
                   title := p.1 } := by
  intro fuel
  induction fuel with
  | zero => intro defs pairs dField nodes defs' h; cases h
  | succ fuel ih =>
      intro defs pairs dField nodes defs' h
      cases pairs with
      | nil =>
          rw [discrimLoop] at h
          simp only [Res.ok.injEq, Prod.mk.injEq] at h
          rw [← h.1]
          simp
      | cons p rest =>
          obtain ⟨dKey, anc⟩ := p
          rw [discrimLoop] at h
          obtain ⟨⟨ancRef, d1⟩, h1, h2⟩ := Res.bind_ok_inv h
          dsimp only at h2
          obtain ⟨⟨restRefs, d2⟩, h3, h4⟩ := Res.bind_ok_inv h2
          simp only [Res.ok.injEq, Prod.mk.injEq] at h4
          have hshape := (rds_ok r fuel _ _ _ _ _ _ h1).1
          have hrest := ih _ _ _ _ _ h3
          rw [← h4.1]
          constructor
          · simp [hrest.1]
          · intro b hb
            rcases List.mem_cons.mp hb with hb1 | hb2
            · refine ⟨(dKey, anc), List.mem_cons_self _ _, ?_⟩
              rw [hb1, hshape]
            · obtain ⟨q, hq, hbq⟩ := hrest.2 b hb2
              exact ⟨q, List.mem_cons_of_mem _ hq, hbq⟩

/-- Dispatch of an interface type present in the discriminator registry
(none of the earlier tiers firing) reaches the ancestor loop followed by the
sort and the closed union node. -/
theorem rtts_interface_discriminated (r : Reflector) (fuel : Nat) (defs : Defs)
    (n : String) (ms : List String) (d : DiscriminatorType)
    (hDefs : defsGet defs n = none)
    (hProto : goImplements (.interfaceT n ms) protoEnumType = false)
    (hEnum : r.getEnum (.interfaceT n ms) = none)
    (hMap : mapperAt r (.interfaceT n ms) = none)
    (hd : r.getDiscriminator (.interfaceT n ms) = some d) :
    reflectTypeToSchema r (fuel+1) defs (.interfaceT n ms) =
      (discrimLoop r fuel defs d.Ancestors d.DiscriminatorField).bind
        (fun x =>
          match x with
          | (ancestorTypes, definitions) =>
            let ancestorTypes := ancestorTypes.insertionSort refLe
            let schema : STy := STy.mk { oneOf := ancestorTypes,
                                         additionalProperties := .boolv false }
            if n ≠ "" then Res.ok (addToDefinitions definitions n schema)
            else Res.ok (schema, definitions)) := by
  rw [reflectTypeToSchema]
  rw [if_neg (show ¬((defsGet defs (goName (GoType.interfaceT n ms))).isSome = true)
    from by simp [goName, hDefs])]
  rw [if_neg (show ¬(goImplements (.interfaceT n ms) protoEnumType = true)
    from by simp [hProto])]
  rw [hEnum]
  dsimp only
  rw [hMap]
  dsimp only
  rw [if_neg (show GoType.interfaceT n ms ≠ ipType from fun hc => by cases hc)]
  rw [hd]

/-- C2 (amended): traversing an interface type present in the discriminator
registry produces a union node whose `additionalProperties` is `false`
regardless of `AllowAdditionalProperties`, whose `oneOf` holds one branch per
registered `(literal, concreteType)` pair sorted ascending by reference
string; each branch is a reference node to the composite key
`ConcreteTypeName@fieldName:literal` carrying the literal as its *own* title
(the stored definition's title is left empty — see the counterexample), and
each stored definition contains the injected fixed-enum discriminator
property listed in its required set.  For a named interface the union node is
stored under the interface name and a reference is returned; for an unnamed
one the union node itself is returned. -/
theorem discriminated_union_shape (r : Reflector) (fuel : Nat) (defs : Defs)
    (n : String) (ms : List String) (d : DiscriminatorType) (s : STy) (defs' : Defs)
    (hDefs : defsGet defs n = none)
    (hProto : goImplements (.interfaceT n ms) protoEnumType = false)
    (hEnum : r.getEnum (.interfaceT n ms) = none)
    (hMap : mapperAt r (.interfaceT n ms) = none)
    (hd : r.getDiscriminator (.interfaceT n ms) = some d)
    (h : reflectTypeToSchema r (fuel+1) defs (.interfaceT n ms) = .ok (s, defs')) :
    ∃ branches defs2,
      discrimLoop r fuel defs d.Ancestors d.DiscriminatorField = .ok (branches, defs2) ∧
      (let u : STy := STy.mk { oneOf := branches.insertionSort refLe,
                               additionalProperties := .boolv false }
       (n = "" → s = u ∧ defs' = defs2) ∧
       (n ≠ "" → s = getTypeRef n ∧ defs' = defsInsert defs2 n u)) ∧
      List.Sorted refLe (branches.insertionSort refLe) ∧
      (branches.insertionSort refLe).length = d.Ancestors.length ∧
      (∀ b ∈ branches.insertionSort refLe, ∃ p ∈ d.Ancestors,
        b = STy.mk { (getTypeRef (goName p.2 ++ "@" ++ d.DiscriminatorField ++
                       ":" ++ p.1)).node with title := p.1 }) ∧
      (∀ (fq : Nat) (defs0 : Defs) (dKey : String) (anc : GoType) (s2 : STy) (defs3 : Defs),
        reflectDiscriminatedStruct r fq defs0 anc d.DiscriminatorField dKey = .ok (s2, defs3) →
        addsPropType r d.DiscriminatorField anc = false →
        s2 = getTypeRef (goName anc ++ "@" ++ d.DiscriminatorField ++ ":" ++ dKey) ∧
        ∃ st, defsGet defs3 (goName anc ++ "@" ++ d.DiscriminatorField ++
            ":" ++ dKey) = some st ∧
          propsGet st.node.properties d.DiscriminatorField = some (getConstStringType dKey) ∧
          d.DiscriminatorField ∈ st.node.required) := by
  rw [rtts_interface_discriminated r fuel defs n ms d hDefs hProto hEnum hMap hd] at h
  obtain ⟨⟨branches, defs2⟩, h1, h2⟩ := Res.bind_ok_inv h
  dsimp only at h2
  refine ⟨branches, defs2, h1, ?_, ?_, ?_, ?_, ?_⟩
  · constructor
    · intro hn
      rw [hn] at h2
      rw [if_neg (by simp)] at h2
      simp only [Res.ok.injEq, Prod.mk.injEq] at h2
      exact ⟨h2.1.symm, h2.2.symm⟩
    · intro hn
      rw [if_pos hn] at h2
      simp only [addToDefinitions, Res.ok.injEq, Prod.mk.injEq] at h2
      exact ⟨h2.1.symm, h2.2.symm⟩
  · exact List.sorted_insertionSort refLe branches
  · rw [(List.perm_insertionSort refLe branches).length_eq]
    exact (discrimLoop_branches r _ _ _ _ _ _ h1).1
  · intro b hb
    have hb2 := (List.perm_insertionSort refLe branches).mem_iff.mp hb
    exact (discrimLoop_branches r _ _ _ _ _ _ h1).2 b hb2
  · intro fq defs0 dKey anc s2 defs3 hr hnc
    exact ⟨(rds_ok r fq _ _ _ _ _ _ hr).1, (rds_ok r fq _ _ _ _ _ _ hr).2 hnc⟩

/-- The registered interface of the C2 examples (`AorB`). -/
def c2I : GoType := .interfaceT "AorB" []

/-- Concrete variant `A` (embeds the interface, one named field). -/
def c2A : GoType :=
  .structT "A" [] (.cons (.mk "AorB" "" true none "" "" "" c2I)
    (.cons (.mk "NameA" "" false (some "name_a") "" "" "" goStringType) .nil))

/-- Concrete variant `B`. -/
def c2B : GoType :=
  .structT "B" [] (.cons (.mk "AorB" "" true none "" "" "" c2I)
    (.cons (.mk "NameB" "" false (some "name_b") "" "" "" goStringType) .nil))

/-- The registration record mapping `{"a": A, "b": B}` under field `type`. -/
def c2D : DiscriminatorType :=
  { BaseType := c2I, DiscriminatorField := "type", Ancestors := [("b", c2B), ("a", c2A)] }

/-- A reflector with the `AorB` discriminator registered. -/
def c2R : Reflector := { DiscriminatedTypes := [c2D] }

/-- Concrete output of traversing `AorB` under `c2R`. -/
def c2Out : STy × Defs :=
  match reflectTypeToSchema c2R 20 [] c2I with
  | .ok p => p
  | _ => (emptyObjectSchema false, [])

theorem discriminated_union_shape_witness :
    ∃ branches defs2,
      discrimLoop c2R 19 [] c2D.Ancestors c2D.DiscriminatorField = .ok (branches, defs2) ∧
      (let u : STy := STy.mk { oneOf := branches.insertionSort refLe,
                               additionalProperties := .boolv false }
       (("AorB" : String) = "" → c2Out.1 = u ∧ c2Out.2 = defs2) ∧
       (("AorB" : String) ≠ "" → c2Out.1 = getTypeRef "AorB" ∧
          c2Out.2 = defsInsert defs2 "AorB" u)) ∧
      List.Sorted refLe (branches.insertionSort refLe) ∧
      (branches.insertionSort refLe).length = c2D.Ancestors.length ∧
      (∀ b ∈ branches.insertionSort refLe, ∃ p ∈ c2D.Ancestors,
        b = STy.mk { (getTypeRef (goName p.2 ++ "@" ++ c2D.DiscriminatorField ++
                       ":" ++ p.1)).node with title := p.1 }) ∧
      (∀ (fq : Nat) (defs0 : Defs) (dKey : String) (anc : GoType) (s2 : STy) (defs3 : Defs),
        reflectDiscriminatedStruct c2R fq defs0 anc c2D.DiscriminatorField dKey = .ok (s2, defs3) →
        addsPropType c2R c2D.DiscriminatorField anc = false →
        s2 = getTypeRef (goName anc ++ "@" ++ c2D.DiscriminatorField ++ ":" ++ dKey) ∧
        ∃ st, defsGet defs3 (goName anc ++ "@" ++ c2D.DiscriminatorField ++
            ":" ++ dKey) = some st ∧
          propsGet st.node.properties c2D.DiscriminatorField =
            some (getConstStringType dKey) ∧
          c2D.DiscriminatorField ∈ st.node.required) :=
  discriminated_union_shape c2R 19 [] "AorB" [] c2D c2Out.1 c2Out.2
    rfl rfl rfl rfl rfl rfl

/-- C2 counterexample: the literal is the title of the *branch reference
node*, not of the stored definition — `defs["A@type:a"].Title` is empty while
the corresponding `oneOf` branch carries title `"a"`, contradicting the
claim's "definition … whose title is set to the literal". -/
theorem discriminated_title_claim_cex :
    ((defsGet c2Out.2 "A@type:a").map (fun st => st.node.title)) = some "" ∧
    ((defsGet c2Out.2 "AorB").map (fun u => u.node.oneOf.map (fun b => b.node.title))) =
      some ["a", "b"] ∧
    ("" : String) ≠ "a" := ⟨rfl, rfl, by decide⟩

/-!
## C1 — reference-resolution invariant
-/

/-- Key containment between two definitions maps. -/
def keysSub (d dq : Defs) : Prop :=
  ∀ k, (defsGet d k).isSome = true → (defsGet dq k).isSome = true

theorem keysSub_refl (d : Defs) : keysSub d d := fun _ h => h

theorem keysSub_trans {a b c : Defs} (h1 : keysSub a b) (h2 : keysSub b c) :
    keysSub a c := fun k h => h2 k (h1 k h)

theorem keysSub_insert (d : Defs) (k : String) (v : STy) :
    keysSub d (defsInsert d k v) :=
  fun kq h => defsGet_insert_isSome d k kq v h

/-- Every reference in a node (recursively) is of the shape
`#/definitions/<name>` with `<name>` a key of `d`. -/
inductive RefsOk (d : Defs) : STy → Prop where
  | intro (n : TypeNode STy)
      (href : n.ref = "" ∨ ∃ nm, n.ref = "#/definitions/" ++ nm ∧
        (defsGet d nm).isSome = true)
      (hitems : ∀ x, n.items = some x → RefsOk d x)
      (hprops : ∀ p ∈ n.properties, RefsOk d p.2)
      (hadd : ∀ x, n.additionalProperties = .schemav x → RefsOk d x)
      (hall : ∀ x ∈ n.allOf, RefsOk d x)
      (hone : ∀ x ∈ n.oneOf, RefsOk d x)
      (hmedia : ∀ x, n.media = some x → RefsOk d x) :
      RefsOk d (.mk n)

/-- A node containing no references at all (recursively). -/
inductive NoRefs : STy → Prop where
  | intro (n : TypeNode STy)
      (href : n.ref = "")
      (hitems : ∀ x, n.items = some x → NoRefs x)
      (hprops : ∀ p ∈ n.properties, NoRefs p.2)
      (hadd : ∀ x, n.additionalProperties = .schemav x → NoRefs x)
      (hall : ∀ x ∈ n.allOf, NoRefs x)
      (hone : ∀ x ∈ n.oneOf, NoRefs x)
      (hmedia : ∀ x, n.media = some x → NoRefs x) :
      NoRefs (.mk n)

theorem RefsOk.mono {d dq : Defs} (hsub : keysSub d dq) :
    ∀ {x : STy}, RefsOk d x → RefsOk dq x := by
  intro x h
  induction h with
  | intro n href hitems hprops hadd hall hone hmedia
      ih1 ih2 ih3 ih4 ih5 ih6 =>
      refine RefsOk.intro n ?_ ih1 ih2 ih3 ih4 ih5 ih6
      rcases href with h0 | ⟨nm, hnm, hk⟩
      · exact Or.inl h0
      · exact Or.inr ⟨nm, hnm, hsub nm hk⟩

theorem NoRefs.refsOk (d : Defs) : ∀ {x : STy}, NoRefs x → RefsOk d x := by
  intro x h
  induction h with
  | intro n href hitems hprops hadd hall hone hmedia
      ih1 ih2 ih3 ih4 ih5 ih6 =>
      exact RefsOk.intro n (Or.inl href) ih1 ih2 ih3 ih4 ih5 ih6

/-- Every stored definition's references resolve within the map itself. -/
def DefsOk (d : Defs) : Prop := ∀ p ∈ d, RefsOk d p.2

theorem mem_defsInsert {d : Defs} {k : String} {v : STy} {p : String × STy}
    (h : p ∈ defsInsert d k v) : p = (k, v) ∨ p ∈ d := by
  induction d with
  | nil => simpa [defsInsert] using h
  | cons q rest ih =>
      obtain ⟨qk, qv⟩ := q
      by_cases hq : qk = k
      · rw [show defsInsert ((qk, qv) :: rest) k v =
          (k, v) :: rest from by rw [defsInsert, if_pos hq]] at h
        rcases List.mem_cons.mp h with h1 | h1
        · exact Or.inl h1
        · exact Or.inr (List.mem_cons_of_mem _ h1)
      · rw [show defsInsert ((qk, qv) :: rest) k v =
          (qk, qv) :: defsInsert rest k v from by rw [defsInsert, if_neg hq]] at h
        rcases List.mem_cons.mp h with h1 | h1
        · exact Or.inr (h1 ▸ List.mem_cons_self _ _)
        · rcases ih h1 with h2 | h2
          · exact Or.inl h2
          · exact Or.inr (List.mem_cons_of_mem _ h2)

theorem DefsOk.insert {d : Defs} {k : String} {v : STy}
    (hd : DefsOk d) (hv : RefsOk (defsInsert d k v) v) : DefsOk (defsInsert d k v) := by
  intro p hp
  rcases mem_defsInsert hp with h1 | h1
  · rw [h1]; exact hv
  · exact RefsOk.mono (keysSub_insert d k v) (hd p h1)

theorem mem_defsErase {d : Defs} {k : String} {p : String × STy}
    (h : p ∈ defsErase d k) : p ∈ d := by
  induction d with
  | nil => simp [defsErase] at h
  | cons q rest ih =>
      obtain ⟨qk, qv⟩ := q
      by_cases hq : qk = k
      · rw [show defsErase ((qk, qv) :: rest) k = defsErase rest k from
          by rw [defsErase, if_pos hq]] at h
        exact List.mem_cons_of_mem _ (ih h)
      · rw [show defsErase ((qk, qv) :: rest) k = (qk, qv) :: defsErase rest k from
          by rw [defsErase, if_neg hq]] at h
        rcases List.mem_cons.mp h with h1 | h1
        · exact h1 ▸ List.mem_cons_self _ _
        · exact List.mem_cons_of_mem _ (ih h1)

theorem defsGet_erase_ne (d : Defs) (k nm : String) (h : nm ≠ k) :
    defsGet (defsErase d k) nm = defsGet d nm := by
  induction d with
  | nil => simp [defsErase]
  | cons q rest ih =>
      obtain ⟨qk, qv⟩ := q
      by_cases hq : qk = k
      · rw [show defsErase ((qk, qv) :: rest) k = defsErase rest k from
          by rw [defsErase, if_pos hq], ih]
        rw [show defsGet ((qk, qv) :: rest) nm = defsGet rest nm from
          by rw [defsGet, if_neg (by rw [hq]; exact fun hc => h hc.symm)]]
      · rw [show defsErase ((qk, qv) :: rest) k = (qk, qv) :: defsErase rest k from
          by rw [defsErase, if_neg hq]]
        by_cases hq2 : qk = nm
        · rw [defsGet, if_pos hq2, defsGet, if_pos hq2]
        · rw [defsGet, if_neg hq2, defsGet, if_neg hq2, ih]

/-- References resolve in `d`, or point exactly at the excused name `exc`
(the root-name entry discarded by the expanded mode). -/
inductive RefsOkE (d : Defs) (exc : String) : STy → Prop where
  | intro (n : TypeNode STy)
      (href : n.ref = "" ∨ ∃ nm, n.ref = "#/definitions/" ++ nm ∧
        ((defsGet d nm).isSome = true ∨ nm = exc))
      (hitems : ∀ x, n.items = some x → RefsOkE d exc x)
      (hprops : ∀ p ∈ n.properties, RefsOkE d exc p.2)
      (hadd : ∀ x, n.additionalProperties = .schemav x → RefsOkE d exc x)
      (hall : ∀ x ∈ n.allOf, RefsOkE d exc x)
      (hone : ∀ x ∈ n.oneOf, RefsOkE d exc x)
      (hmedia : ∀ x, n.media = some x → RefsOkE d exc x) :
      RefsOkE d exc (.mk n)

theorem RefsOk.toE {d : Defs} {k : String} :
    ∀ {x : STy}, RefsOk d x → RefsOkE (defsErase d k) k x := by
  intro x h
  induction h with
  | intro n href hitems hprops hadd hall hone hmedia
      ih1 ih2 ih3 ih4 ih5 ih6 =>
      refine RefsOkE.intro n ?_ ih1 ih2 ih3 ih4 ih5 ih6
      rcases href with h0 | ⟨nm, hnm, hk⟩
      · exact Or.inl h0
      · by_cases hex : nm = k
        · exact Or.inr ⟨nm, hnm, Or.inr hex⟩
        · refine Or.inr ⟨nm, hnm, Or.inl ?_⟩
          rw [defsGet_erase_ne d k nm hex]
          exact hk

/-- Two nodes agreeing on the reference field and on every recursive
position (the keyword readers only touch scalar fields). -/
def scalarEq (a b : STy) : Prop :=
  a.node.ref = b.node.ref ∧ a.node.items = b.node.items ∧
  a.node.properties = b.node.properties ∧
  a.node.additionalProperties = b.node.additionalProperties ∧
  a.node.allOf = b.node.allOf ∧ a.node.oneOf = b.node.oneOf ∧
  a.node.media = b.node.media

theorem scalarEq_refl (a : STy) : scalarEq a a :=
  ⟨rfl, rfl, rfl, rfl, rfl, rfl, rfl⟩

theorem scalarEq_trans {a b c : STy} (h1 : scalarEq a b) (h2 : scalarEq b c) :
    scalarEq a c := by
  obtain ⟨x1, x2, x3, x4, x5, x6, x7⟩ := h1
  obtain ⟨y1, y2, y3, y4, y5, y6, y7⟩ := h2
  exact ⟨x1.trans y1, x2.trans y2, x3.trans y3, x4.trans y4,
    x5.trans y5, x6.trans y6, x7.trans y7⟩

theorem RefsOk_of_scalarEq {d : Defs} {a b : STy} (hs : scalarEq b a)
    (h : RefsOk d a) : RefsOk d b := by
  obtain ⟨x1, x2, x3, x4, x5, x6, x7⟩ := hs
  cases h with
  | intro n href hitems hprops hadd hall hone hmedia =>
      cases b with
      | mk m =>
          simp only [STy.node_mk] at x1 x2 x3 x4 x5 x6 x7
          refine RefsOk.intro m ?_ ?_ ?_ ?_ ?_ ?_ ?_
          · rw [x1]; exact href
          · rw [x2]; exact hitems
          · rw [x3]; exact hprops
          · rw [x4]; exact hadd
          · rw [x5]; exact hall
          · rw [x6]; exact hone
          · rw [x7]; exact hmedia

theorem genericKeywords_scalarEq : ∀ (tags : List String) (t : STy),
    scalarEq (t.genericKeywords tags) t
  | [], t => scalarEq_refl t
  | tag :: rest, t => by
      rw [STy.genericKeywords]
      refine scalarEq_trans (genericKeywords_scalarEq rest _) ?_
      split <;> exact ⟨rfl, rfl, rfl, rfl, rfl, rfl, rfl⟩

theorem stringKeywords_scalarEq : ∀ (tags : List String) (t : STy),
    scalarEq (t.stringKeywords tags) t
  | [], t => scalarEq_refl t
  | tag :: rest, t => by
      rw [STy.stringKeywords]
      refine scalarEq_trans (stringKeywords_scalarEq rest _) ?_
      split <;> first
        | exact ⟨rfl, rfl, rfl, rfl, rfl, rfl, rfl⟩
        | (split <;> exact ⟨rfl, rfl, rfl, rfl, rfl, rfl, rfl⟩)

theorem numbericKeywords_scalarEq : ∀ (tags : List String) (t : STy),
    scalarEq (t.numbericKeywords tags) t
  | [], t => scalarEq_refl t
  | tag :: rest, t => by
      rw [STy.numbericKeywords]
      refine scalarEq_trans (numbericKeywords_scalarEq rest _) ?_
      split <;> first
        | exact ⟨rfl, rfl, rfl, rfl, rfl, rfl, rfl⟩
        | (split <;> exact ⟨rfl, rfl, rfl, rfl, rfl, rfl, rfl⟩)

theorem arrayKeywordsAux_scalarEq : ∀ (tags : List String) (t : STy)
    (dv : List IfaceVal), scalarEq (t.arrayKeywordsAux dv tags).1 t
  | [], t, dv => scalarEq_refl t
  | tag :: rest, t, dv => by
      rw [STy.arrayKeywordsAux]
      dsimp only
      refine scalarEq_trans (arrayKeywordsAux_scalarEq rest _ _) ?_
      split <;> exact ⟨rfl, rfl, rfl, rfl, rfl, rfl, rfl⟩

theorem arrayKeywords_scalarEq (t : STy) (tags : List String) :
    scalarEq (t.arrayKeywords tags) t := by
  rcases h : t.arrayKeywordsAux [] tags with ⟨t2, dv⟩
  have h2 : scalarEq t2 t := by
    have := arrayKeywordsAux_scalarEq tags t []
    rw [h] at this
    exact this
  rw [STy.arrayKeywords, h]
  dsimp only
  split
  · exact scalarEq_trans ⟨rfl, rfl, rfl, rfl, rfl, rfl, rfl⟩ h2
  · exact h2

theorem structKeywordsFromTags_scalarEq (t : STy) (f : GoField) :
    scalarEq (t.structKeywordsFromTags f) t := by
  rw [STy.structKeywordsFromTags]
  have hbase : scalarEq (STy.mk { t.node with description := f.tagJsonschemaDesc }) t :=
    ⟨rfl, rfl, rfl, rfl, rfl, rfl, rfl⟩
  have hgen := genericKeywords_scalarEq (splitComma f.tagJsonschema)
    (STy.mk { t.node with description := f.tagJsonschemaDesc })
  have hg2 := scalarEq_trans hgen hbase
  split
  · exact scalarEq_trans (stringKeywords_scalarEq _ _) hg2
  · exact scalarEq_trans (numbericKeywords_scalarEq _ _) hg2
  · exact scalarEq_trans (numbericKeywords_scalarEq _ _) hg2
  · exact scalarEq_trans (arrayKeywords_scalarEq _ _) hg2
  · exact hg2

theorem RefsOk_structKeywords {d : Defs} {t : STy} (f : GoField)
    (h : RefsOk d t) : RefsOk d (t.structKeywordsFromTags f) :=
  RefsOk_of_scalarEq (structKeywordsFromTags_scalarEq t f) h

/-!
## C1: the reference-resolution invariant
-/

theorem mem_propsInsert {ps : List (String × STy)} {k : String} {v : STy}
    {p : String × STy} (h : p ∈ propsInsert ps k v) : p = (k, v) ∨ p ∈ ps := by
  induction ps with
  | nil => simpa [propsInsert] using h
  | cons q rest ih =>
      obtain ⟨qk, qv⟩ := q
      by_cases hq : qk = k
      · rw [show propsInsert ((qk, qv) :: rest) k v =
          (k, v) :: rest from by rw [propsInsert, if_pos hq]] at h
        rcases List.mem_cons.mp h with h1 | h1
        · exact Or.inl h1
        · exact Or.inr (List.mem_cons_of_mem _ h1)
      · rw [show propsInsert ((qk, qv) :: rest) k v =
          (qk, qv) :: propsInsert rest k v from by rw [propsInsert, if_neg hq]] at h
        rcases List.mem_cons.mp h with h1 | h1
        · exact Or.inr (h1 ▸ List.mem_cons_self _ _)
        · rcases ih h1 with h2 | h2
          · exact Or.inl h2
          · exact Or.inr (List.mem_cons_of_mem _ h2)

theorem RefsOk_emptyObject (d : Defs) (b : Bool) : RefsOk d (emptyObjectSchema b) := by
  rw [emptyObjectSchema]
  refine RefsOk.intro _ (Or.inl rfl) ?_ ?_ ?_ ?_ ?_ ?_ <;> intros <;> simp_all

theorem RefsOk_constString (d : Defs) (v : String) : RefsOk d (getConstStringType v) := by
  rw [getConstStringType]
  refine RefsOk.intro _ (Or.inl rfl) ?_ ?_ ?_ ?_ ?_ ?_ <;> intros <;> simp_all

theorem RefsOk_getTypeRef (d : Defs) (nm : String)
    (h : (defsGet d nm).isSome = true) : RefsOk d (getTypeRef nm) := by
  rw [getTypeRef]
  refine RefsOk.intro _ (Or.inr ⟨nm, rfl, h⟩) ?_ ?_ ?_ ?_ ?_ ?_ <;>
    intros <;> simp_all

theorem RefsOk_setProp {d : Defs} {st : STy} (h : RefsOk d st) (k : String)
    {v : STy} (hv : RefsOk d v) :
    RefsOk d (STy.mk { st.node with
      properties := propsInsert st.node.properties k v }) := by
  cases h with
  | intro n href hitems hprops hadd hall hone hmedia =>
      refine RefsOk.intro _ href hitems ?_ hadd hall hone hmedia
      intro p hp
      rcases mem_propsInsert hp with h1 | h1
      · rw [h1]; exact hv
      · exact hprops p h1

theorem RefsOk_setRequired {d : Defs} {st : STy} (h : RefsOk d st)
    (names : List String) :
    RefsOk d (STy.mk { st.node with required := names }) := by
  cases h with
  | intro n href hitems hprops hadd hall hone hmedia =>
      exact RefsOk.intro _ href hitems hprops hadd hall hone hmedia

theorem RefsOk_setTitle {d : Defs} {st : STy} (h : RefsOk d st) (s : String) :
    RefsOk d (STy.mk { st.node with title := s }) := by
  cases h with
  | intro n href hitems hprops hadd hall hone hmedia =>
      exact RefsOk.intro _ href hitems hprops hadd hall hone hmedia

theorem RefsOk_addAllOf {d : Defs} {st : STy} (h : RefsOk d st)
    {v : STy} (hv : RefsOk d v) :
    RefsOk d (STy.mk { st.node with allOf := st.node.allOf ++ [v] }) := by
  cases h with
  | intro n href hitems hprops hadd hall hone hmedia =>
      refine RefsOk.intro _ href hitems hprops hadd ?_ hone hmedia
      intro x hx
      rcases List.mem_append.mp hx with h1 | h1
      · exact hall x h1
      · rw [List.mem_singleton.mp h1]; exact hv

theorem RefsOk_promote {d : Defs} {st : STy} (h : RefsOk d st) :
    RefsOk d (STy.mk { st.node with oneOf := st.node.allOf, allOf := [] }) := by
  cases h with
  | intro n href hitems hprops hadd hall hone hmedia =>
      refine RefsOk.intro _ href hitems hprops hadd ?_ ?_ hmedia
      · intro x hx; simp at hx
      · intro x hx; exact hall x hx

/-- The central reference-resolution invariant: every engine entry point,
run on a definitions map whose stored references resolve, only grows the key
set, keeps every stored reference resolving, and returns nodes whose
references resolve in the final map.  The custom type mapper, when present,
is assumed to return reference-free nodes. -/
theorem refs_invariant (r : Reflector)
    (hTM : ∀ tq sq, mapperAt r tq = some sq → NoRefs sq) : ∀ fuel : Nat,
    (∀ defs t s defs', DefsOk defs → reflectTypeToSchema r fuel defs t = .ok (s, defs') →
      keysSub defs defs' ∧ DefsOk defs' ∧ RefsOk defs' s) ∧
    (∀ defs pairs dField nodes defs', DefsOk defs →
      discrimLoop r fuel defs pairs dField = .ok (nodes, defs') →
      keysSub defs defs' ∧ DefsOk defs' ∧ ∀ x ∈ nodes, RefsOk defs' x) ∧
    (∀ defs t dField dKey s defs', DefsOk defs →
      reflectDiscriminatedStruct r fuel defs t dField dKey = .ok (s, defs') →
      keysSub defs defs' ∧ DefsOk defs' ∧ RefsOk defs' s) ∧
    (∀ defs t s defs', DefsOk defs → reflectStruct r fuel defs t = .ok (s, defs') →
      keysSub defs defs' ∧ DefsOk defs' ∧ RefsOk defs' s) ∧
    (∀ st defs t st' defs', DefsOk defs → RefsOk defs st →
      reflectStructFields r fuel st defs t = .ok (st', defs') →
      keysSub defs defs' ∧ DefsOk defs' ∧ RefsOk defs' st') ∧
    (∀ st defs fs st' defs', DefsOk defs → RefsOk defs st →
      fieldsLoop r fuel st defs fs = .ok (st', defs') →
      keysSub defs defs' ∧ DefsOk defs' ∧ RefsOk defs' st') := by
  intro fuel
  induction fuel with
  | zero =>
      refine ⟨?_, ?_, ?_, ?_, ?_, ?_⟩ <;> (intros; rename_i h; cases h)
  | succ fuel ih =>
      obtain ⟨ihT, ihD, ihR, ihS, ihF, ihL⟩ := ih
      refine ⟨?_, ?_, ?_, ?_, ?_, ?_⟩
      · -- reflectTypeToSchema
        intro defs t s defs' hD h
        cases t with
        | structT n ms fs =>
            rw [reflectTypeToSchema] at h
            by_cases h1 : (defsGet defs (goName (GoType.structT n ms fs))).isSome = true
            · rw [if_pos h1] at h
              simp only [Res.ok.injEq, Prod.mk.injEq] at h
              obtain ⟨hs, hdd⟩ := h
              rw [← hs, ← hdd]
              refine ⟨keysSub_refl defs, hD, ?_⟩
              clear hs
              refine RefsOk.intro _ (Or.inr ⟨goName (GoType.structT n ms fs), rfl, h1⟩) ?_ ?_ ?_ ?_ ?_ ?_ <;> (intro x hx; simp at hx)
            · rw [if_neg h1] at h
              by_cases h2 : goImplements (GoType.structT n ms fs) protoEnumType = true
              · rw [if_pos h2] at h
                simp only [Res.ok.injEq, Prod.mk.injEq] at h
                obtain ⟨hs, hdd⟩ := h
                rw [← hs, ← hdd]
                refine ⟨keysSub_refl defs, hD, ?_⟩
                clear hs
                have hstr : RefsOk defs (STy.mk { type := "string" }) := by
                  refine RefsOk.intro _ (Or.inl rfl) ?_ ?_ ?_ ?_ ?_ ?_ <;> (intro x hx; simp at hx)
                have hint : RefsOk defs (STy.mk { type := "integer" }) := by
                  refine RefsOk.intro _ (Or.inl rfl) ?_ ?_ ?_ ?_ ?_ ?_ <;> (intro x hx; simp at hx)
                refine RefsOk.intro _ (Or.inl rfl) ?_ ?_ ?_ ?_ ?_ ?_
                · intro x hx; simp at hx
                · intro p hp; simp at hp
                · intro x hx; simp at hx
                · intro x hx; simp at hx
                · intro x hx
                  simp only [STy.node_mk, List.mem_cons, List.not_mem_nil, or_false] at hx
                  rcases hx with hx | hx
                  · rw [hx]; exact hstr
                  · rw [hx]; exact hint
                · intro x hx; simp at hx
              · rw [if_neg h2] at h
                rcases he : r.getEnum (GoType.structT n ms fs) with _ | en
                · rw [he] at h
                  dsimp only at h
                  rcases hm : mapperAt r (GoType.structT n ms fs) with _ | sm
                  · rw [hm] at h
                    dsimp only at h
                    by_cases hip : (GoType.structT n ms fs) = ipType
                    · rw [if_pos hip] at h
                      simp only [Res.ok.injEq, Prod.mk.injEq] at h
                      obtain ⟨hs, hdd⟩ := h
                      rw [← hs, ← hdd]
                      refine ⟨keysSub_refl defs, hD, ?_⟩
                      clear hs
                      refine RefsOk.intro _ (Or.inl rfl) ?_ ?_ ?_ ?_ ?_ ?_ <;> (intro x hx; simp at hx)
                    · rw [if_neg hip] at h
                      by_cases h3 : (GoType.structT n ms fs) = timeType
                      · rw [if_pos h3] at h
                        simp only [Res.ok.injEq, Prod.mk.injEq] at h
                        obtain ⟨hs, hdd⟩ := h
                        rw [← hs, ← hdd]
                        refine ⟨keysSub_refl defs, hD, ?_⟩
                        clear hs
                        refine RefsOk.intro _ (Or.inl rfl) ?_ ?_ ?_ ?_ ?_ ?_ <;> (intro x hx; simp at hx)
                      · rw [if_neg h3] at h
                        by_cases h4 : (GoType.structT n ms fs) = uriType
                        · rw [if_pos h4] at h
                          simp only [Res.ok.injEq, Prod.mk.injEq] at h
                          obtain ⟨hs, hdd⟩ := h
                          rw [← hs, ← hdd]
                          refine ⟨keysSub_refl defs, hD, ?_⟩
                          clear hs
                          refine RefsOk.intro _ (Or.inl rfl) ?_ ?_ ?_ ?_ ?_ ?_ <;> (intro x hx; simp at hx)
                        · rw [if_neg h4] at h
                          exact ihS _ _ _ _ hD h
                  · rw [hm] at h
                    dsimp only at h
                    simp only [Res.ok.injEq, Prod.mk.injEq] at h
                    obtain ⟨hs, hdd⟩ := h
                    rw [← hs, ← hdd]
                    exact ⟨keysSub_refl defs, hD, NoRefs.refsOk defs (hTM _ _ hm)⟩
                · rw [he] at h
                  dsimp only at h
                  simp only [Res.ok.injEq, Prod.mk.injEq] at h
                  obtain ⟨hs, hdd⟩ := h
                  rw [← hs, ← hdd]
                  refine ⟨keysSub_refl defs, hD, ?_⟩
                  clear hs
                  refine RefsOk.intro _ (Or.inl rfl) ?_ ?_ ?_ ?_ ?_ ?_ <;> (intro x hx; simp at hx)
        | mapT n ms k e =>
            rw [reflectTypeToSchema] at h
            by_cases h1 : (defsGet defs (goName (GoType.mapT n ms k e))).isSome = true
            · rw [if_pos h1] at h
              simp only [Res.ok.injEq, Prod.mk.injEq] at h
              obtain ⟨hs, hdd⟩ := h
              rw [← hs, ← hdd]
              refine ⟨keysSub_refl defs, hD, ?_⟩
              clear hs
              refine RefsOk.intro _ (Or.inr ⟨goName (GoType.mapT n ms k e), rfl, h1⟩) ?_ ?_ ?_ ?_ ?_ ?_ <;> (intro x hx; simp at hx)
            · rw [if_neg h1] at h
              by_cases h2 : goImplements (GoType.mapT n ms k e) protoEnumType = true
              · rw [if_pos h2] at h
                simp only [Res.ok.injEq, Prod.mk.injEq] at h
                obtain ⟨hs, hdd⟩ := h
                rw [← hs, ← hdd]
                refine ⟨keysSub_refl defs, hD, ?_⟩
                clear hs
                have hstr : RefsOk defs (STy.mk { type := "string" }) := by
                  refine RefsOk.intro _ (Or.inl rfl) ?_ ?_ ?_ ?_ ?_ ?_ <;> (intro x hx; simp at hx)
                have hint : RefsOk defs (STy.mk { type := "integer" }) := by
                  refine RefsOk.intro _ (Or.inl rfl) ?_ ?_ ?_ ?_ ?_ ?_ <;> (intro x hx; simp at hx)
                refine RefsOk.intro _ (Or.inl rfl) ?_ ?_ ?_ ?_ ?_ ?_
                · intro x hx; simp at hx
                · intro p hp; simp at hp
                · intro x hx; simp at hx
                · intro x hx; simp at hx
                · intro x hx
                  simp only [STy.node_mk, List.mem_cons, List.not_mem_nil, or_false] at hx
                  rcases hx with hx | hx
                  · rw [hx]; exact hstr
                  · rw [hx]; exact hint
                · intro x hx; simp at hx
              · rw [if_neg h2] at h
                rcases he : r.getEnum (GoType.mapT n ms k e) with _ | en
                · rw [he] at h
                  dsimp only at h
                  rcases hm : mapperAt r (GoType.mapT n ms k e) with _ | sm
                  · rw [hm] at h
                    dsimp only at h
                    by_cases hip : (GoType.mapT n ms k e) = ipType
                    · rw [if_pos hip] at h
                      simp only [Res.ok.injEq, Prod.mk.injEq] at h
                      obtain ⟨hs, hdd⟩ := h
                      rw [← hs, ← hdd]
                      refine ⟨keysSub_refl defs, hD, ?_⟩
                      clear hs
                      refine RefsOk.intro _ (Or.inl rfl) ?_ ?_ ?_ ?_ ?_ ?_ <;> (intro x hx; simp at hx)
                    · rw [if_neg hip] at h
                      obtain ⟨⟨sub, d1⟩, hsub, hrest⟩ := Res.bind_ok_inv h
                      obtain ⟨ks1, hD1, hRsub⟩ := ihT _ _ _ _ hD hsub
                      dsimp only at hrest
                      simp only [Res.ok.injEq, Prod.mk.injEq] at hrest
                      obtain ⟨hs, hdd⟩ := hrest
                      rw [← hs, ← hdd]
                      refine ⟨ks1, hD1, ?_⟩
                      refine RefsOk.intro _ (Or.inl rfl) ?_ ?_ ?_ ?_ ?_ ?_
                      · intro x hx; simp at hx
                      · intro p hp; simp at hp
                      · intro x hx
                        simp only [STy.node_mk, AddlProps.schemav.injEq] at hx
                        rw [← hx]; exact hRsub
                      · intro x hx; simp at hx
                      · intro x hx; simp at hx
                      · intro x hx; simp at hx
                  · rw [hm] at h
                    dsimp only at h
                    simp only [Res.ok.injEq, Prod.mk.injEq] at h
                    obtain ⟨hs, hdd⟩ := h
                    rw [← hs, ← hdd]
                    exact ⟨keysSub_refl defs, hD, NoRefs.refsOk defs (hTM _ _ hm)⟩
                · rw [he] at h
                  dsimp only at h
                  simp only [Res.ok.injEq, Prod.mk.injEq] at h
                  obtain ⟨hs, hdd⟩ := h
                  rw [← hs, ← hdd]
                  refine ⟨keysSub_refl defs, hD, ?_⟩
                  clear hs
                  refine RefsOk.intro _ (Or.inl rfl) ?_ ?_ ?_ ?_ ?_ ?_ <;> (intro x hx; simp at hx)
        | sliceT n ms e =>
            rw [reflectTypeToSchema] at h
            by_cases h1 : (defsGet defs (goName (GoType.sliceT n ms e))).isSome = true
            · rw [if_pos h1] at h
              simp only [Res.ok.injEq, Prod.mk.injEq] at h
              obtain ⟨hs, hdd⟩ := h
              rw [← hs, ← hdd]
              refine ⟨keysSub_refl defs, hD, ?_⟩
              clear hs
              refine RefsOk.intro _ (Or.inr ⟨goName (GoType.sliceT n ms e), rfl, h1⟩) ?_ ?_ ?_ ?_ ?_ ?_ <;> (intro x hx; simp at hx)
            · rw [if_neg h1] at h
              by_cases h2 : goImplements (GoType.sliceT n ms e) protoEnumType = true
              · rw [if_pos h2] at h
                simp only [Res.ok.injEq, Prod.mk.injEq] at h
                obtain ⟨hs, hdd⟩ := h
                rw [← hs, ← hdd]
                refine ⟨keysSub_refl defs, hD, ?_⟩
                clear hs
                have hstr : RefsOk defs (STy.mk { type := "string" }) := by
                  refine RefsOk.intro _ (Or.inl rfl) ?_ ?_ ?_ ?_ ?_ ?_ <;> (intro x hx; simp at hx)
                have hint : RefsOk defs (STy.mk { type := "integer" }) := by
                  refine RefsOk.intro _ (Or.inl rfl) ?_ ?_ ?_ ?_ ?_ ?_ <;> (intro x hx; simp at hx)
                refine RefsOk.intro _ (Or.inl rfl) ?_ ?_ ?_ ?_ ?_ ?_
                · intro x hx; simp at hx
                · intro p hp; simp at hp
                · intro x hx; simp at hx
                · intro x hx; simp at hx
                · intro x hx
                  simp only [STy.node_mk, List.mem_cons, List.not_mem_nil, or_false] at hx
                  rcases hx with hx | hx
                  · rw [hx]; exact hstr
                  · rw [hx]; exact hint
                · intro x hx; simp at hx
              · rw [if_neg h2] at h
                rcases he : r.getEnum (GoType.sliceT n ms e) with _ | en
                · rw [he] at h
                  dsimp only at h
                  rcases hm : mapperAt r (GoType.sliceT n ms e) with _ | sm
                  · rw [hm] at h
                    dsimp only at h
                    by_cases hip : (GoType.sliceT n ms e) = ipType
                    · rw [if_pos hip] at h
                      simp only [Res.ok.injEq, Prod.mk.injEq] at h
                      obtain ⟨hs, hdd⟩ := h
                      rw [← hs, ← hdd]
                      refine ⟨keysSub_refl defs, hD, ?_⟩
                      clear hs
                      refine RefsOk.intro _ (Or.inl rfl) ?_ ?_ ?_ ?_ ?_ ?_ <;> (intro x hx; simp at hx)
                    · rw [if_neg hip] at h
                      by_cases hbs : (GoType.sliceT n ms e) = byteSliceType
                      · rw [if_pos hbs] at h
                        simp only [Res.ok.injEq, Prod.mk.injEq] at h
                        obtain ⟨hs, hdd⟩ := h
                        rw [← hs, ← hdd]
                        refine ⟨keysSub_refl defs, hD, ?_⟩
                        clear hs
                        have hmed : RefsOk defs (STy.mk { binaryEncoding := "base64" }) := by
                          refine RefsOk.intro _ (Or.inl rfl) ?_ ?_ ?_ ?_ ?_ ?_ <;> (intro x hx; simp at hx)
                        refine RefsOk.intro _ (Or.inl rfl) ?_ ?_ ?_ ?_ ?_ ?_
                        · intro x hx; simp at hx
                        · intro p hp; simp at hp
                        · intro x hx; simp at hx
                        · intro x hx; simp at hx
                        · intro x hx; simp at hx
                        · intro x hx
                          simp only [STy.node_mk, Option.some.injEq] at hx
                          rw [← hx]; exact hmed
                      · rw [if_neg hbs] at h
                        obtain ⟨⟨sub, d1⟩, hsub, hrest⟩ := Res.bind_ok_inv h
                        obtain ⟨ks1, hD1, hRsub⟩ := ihT _ _ _ _ hD hsub
                        dsimp only at hrest
                        simp only [Res.ok.injEq, Prod.mk.injEq] at hrest
                        obtain ⟨hs, hdd⟩ := hrest
                        rw [← hs, ← hdd]
                        refine ⟨ks1, hD1, ?_⟩
                        refine RefsOk.intro _ (Or.inl rfl) ?_ ?_ ?_ ?_ ?_ ?_
                        · intro x hx
                          simp only [STy.node_mk, Option.some.injEq] at hx
                          rw [← hx]; exact hRsub
                        · intro p hp; simp at hp
                        · intro x hx; simp at hx
                        · intro x hx; simp at hx
                        · intro x hx; simp at hx
                        · intro x hx; simp at hx
                  · rw [hm] at h
                    dsimp only at h
                    simp only [Res.ok.injEq, Prod.mk.injEq] at h
                    obtain ⟨hs, hdd⟩ := h
                    rw [← hs, ← hdd]
                    exact ⟨keysSub_refl defs, hD, NoRefs.refsOk defs (hTM _ _ hm)⟩
                · rw [he] at h
                  dsimp only at h
                  simp only [Res.ok.injEq, Prod.mk.injEq] at h
                  obtain ⟨hs, hdd⟩ := h
                  rw [← hs, ← hdd]
                  refine ⟨keysSub_refl defs, hD, ?_⟩
                  clear hs
                  refine RefsOk.intro _ (Or.inl rfl) ?_ ?_ ?_ ?_ ?_ ?_ <;> (intro x hx; simp at hx)
        | arrayT n ms len e =>
            rw [reflectTypeToSchema] at h
            by_cases h1 : (defsGet defs (goName (GoType.arrayT n ms len e))).isSome = true
            · rw [if_pos h1] at h
              simp only [Res.ok.injEq, Prod.mk.injEq] at h
              obtain ⟨hs, hdd⟩ := h
              rw [← hs, ← hdd]
              refine ⟨keysSub_refl defs, hD, ?_⟩
              clear hs
              refine RefsOk.intro _ (Or.inr ⟨goName (GoType.arrayT n ms len e), rfl, h1⟩) ?_ ?_ ?_ ?_ ?_ ?_ <;> (intro x hx; simp at hx)
            · rw [if_neg h1] at h
              by_cases h2 : goImplements (GoType.arrayT n ms len e) protoEnumType = true
              · rw [if_pos h2] at h
                simp only [Res.ok.injEq, Prod.mk.injEq] at h
                obtain ⟨hs, hdd⟩ := h
                rw [← hs, ← hdd]
                refine ⟨keysSub_refl defs, hD, ?_⟩
                clear hs
                have hstr : RefsOk defs (STy.mk { type := "string" }) := by
                  refine RefsOk.intro _ (Or.inl rfl) ?_ ?_ ?_ ?_ ?_ ?_ <;> (intro x hx; simp at hx)
                have hint : RefsOk defs (STy.mk { type := "integer" }) := by
                  refine RefsOk.intro _ (Or.inl rfl) ?_ ?_ ?_ ?_ ?_ ?_ <;> (intro x hx; simp at hx)
                refine RefsOk.intro _ (Or.inl rfl) ?_ ?_ ?_ ?_ ?_ ?_
                · intro x hx; simp at hx
                · intro p hp; simp at hp
                · intro x hx; simp at hx
                · intro x hx; simp at hx
                · intro x hx
                  simp only [STy.node_mk, List.mem_cons, List.not_mem_nil, or_false] at hx
                  rcases hx with hx | hx
                  · rw [hx]; exact hstr
                  · rw [hx]; exact hint
                · intro x hx; simp at hx
              · rw [if_neg h2] at h
                rcases he : r.getEnum (GoType.arrayT n ms len e) with _ | en
                · rw [he] at h
                  dsimp only at h
                  rcases hm : mapperAt r (GoType.arrayT n ms len e) with _ | sm
                  · rw [hm] at h
                    dsimp only at h
                    by_cases hip : (GoType.arrayT n ms len e) = ipType
                    · rw [if_pos hip] at h
                      simp only [Res.ok.injEq, Prod.mk.injEq] at h
                      obtain ⟨hs, hdd⟩ := h
                      rw [← hs, ← hdd]
                      refine ⟨keysSub_refl defs, hD, ?_⟩
                      clear hs
                      refine RefsOk.intro _ (Or.inl rfl) ?_ ?_ ?_ ?_ ?_ ?_ <;> (intro x hx; simp at hx)
                    · rw [if_neg hip] at h
                      by_cases hbs : (GoType.arrayT n ms len e) = byteSliceType
                      · rw [if_pos hbs] at h
                        simp only [Res.ok.injEq, Prod.mk.injEq] at h
                        obtain ⟨hs, hdd⟩ := h
                        rw [← hs, ← hdd]
                        refine ⟨keysSub_refl defs, hD, ?_⟩
                        clear hs
                        have hmed : RefsOk defs (STy.mk { binaryEncoding := "base64" }) := by
                          refine RefsOk.intro _ (Or.inl rfl) ?_ ?_ ?_ ?_ ?_ ?_ <;> (intro x hx; simp at hx)
                        refine RefsOk.intro _ (Or.inl rfl) ?_ ?_ ?_ ?_ ?_ ?_
                        · intro x hx; simp at hx
                        · intro p hp; simp at hp
                        · intro x hx; simp at hx
                        · intro x hx; simp at hx
                        · intro x hx; simp at hx
                        · intro x hx
                          simp only [STy.node_mk, Option.some.injEq] at hx
                          rw [← hx]; exact hmed
                      · rw [if_neg hbs] at h
                        obtain ⟨⟨sub, d1⟩, hsub, hrest⟩ := Res.bind_ok_inv h
                        obtain ⟨ks1, hD1, hRsub⟩ := ihT _ _ _ _ hD hsub
                        dsimp only at hrest
                        simp only [Res.ok.injEq, Prod.mk.injEq] at hrest
                        obtain ⟨hs, hdd⟩ := hrest
                        rw [← hs, ← hdd]
                        refine ⟨ks1, hD1, ?_⟩
                        refine RefsOk.intro _ (Or.inl rfl) ?_ ?_ ?_ ?_ ?_ ?_
                        · intro x hx
                          simp only [STy.node_mk, Option.some.injEq] at hx
                          rw [← hx]; exact hRsub
                        · intro p hp; simp at hp
                        · intro x hx; simp at hx
                        · intro x hx; simp at hx
                        · intro x hx; simp at hx
                        · intro x hx; simp at hx
                  · rw [hm] at h
                    dsimp only at h
                    simp only [Res.ok.injEq, Prod.mk.injEq] at h
                    obtain ⟨hs, hdd⟩ := h
                    rw [← hs, ← hdd]
                    exact ⟨keysSub_refl defs, hD, NoRefs.refsOk defs (hTM _ _ hm)⟩
                · rw [he] at h
                  dsimp only at h
                  simp only [Res.ok.injEq, Prod.mk.injEq] at h
                  obtain ⟨hs, hdd⟩ := h
                  rw [← hs, ← hdd]
                  refine ⟨keysSub_refl defs, hD, ?_⟩
                  clear hs
                  refine RefsOk.intro _ (Or.inl rfl) ?_ ?_ ?_ ?_ ?_ ?_ <;> (intro x hx; simp at hx)
        | interfaceT n ms =>
            rw [reflectTypeToSchema] at h
            by_cases h1 : (defsGet defs (goName (GoType.interfaceT n ms))).isSome = true
            · rw [if_pos h1] at h
              simp only [Res.ok.injEq, Prod.mk.injEq] at h
              obtain ⟨hs, hdd⟩ := h
              rw [← hs, ← hdd]
              refine ⟨keysSub_refl defs, hD, ?_⟩
              clear hs
              refine RefsOk.intro _ (Or.inr ⟨goName (GoType.interfaceT n ms), rfl, h1⟩) ?_ ?_ ?_ ?_ ?_ ?_ <;> (intro x hx; simp at hx)
            · rw [if_neg h1] at h
              by_cases h2 : goImplements (GoType.interfaceT n ms) protoEnumType = true
              · rw [if_pos h2] at h
                simp only [Res.ok.injEq, Prod.mk.injEq] at h
                obtain ⟨hs, hdd⟩ := h
                rw [← hs, ← hdd]
                refine ⟨keysSub_refl defs, hD, ?_⟩
                clear hs
                have hstr : RefsOk defs (STy.mk { type := "string" }) := by
                  refine RefsOk.intro _ (Or.inl rfl) ?_ ?_ ?_ ?_ ?_ ?_ <;> (intro x hx; simp at hx)
                have hint : RefsOk defs (STy.mk { type := "integer" }) := by
                  refine RefsOk.intro _ (Or.inl rfl) ?_ ?_ ?_ ?_ ?_ ?_ <;> (intro x hx; simp at hx)
                refine RefsOk.intro _ (Or.inl rfl) ?_ ?_ ?_ ?_ ?_ ?_
                · intro x hx; simp at hx
                · intro p hp; simp at hp
                · intro x hx; simp at hx
                · intro x hx; simp at hx
                · intro x hx
                  simp only [STy.node_mk, List.mem_cons, List.not_mem_nil, or_false] at hx
                  rcases hx with hx | hx
                  · rw [hx]; exact hstr
                  · rw [hx]; exact hint
                · intro x hx; simp at hx
              · rw [if_neg h2] at h
                rcases he : r.getEnum (GoType.interfaceT n ms) with _ | en
                · rw [he] at h
                  dsimp only at h
                  rcases hm : mapperAt r (GoType.interfaceT n ms) with _ | sm
                  · rw [hm] at h
                    dsimp only at h
                    by_cases hip : (GoType.interfaceT n ms) = ipType
                    · rw [if_pos hip] at h
                      simp only [Res.ok.injEq, Prod.mk.injEq] at h
                      obtain ⟨hs, hdd⟩ := h
                      rw [← hs, ← hdd]
                      refine ⟨keysSub_refl defs, hD, ?_⟩
                      clear hs
                      refine RefsOk.intro _ (Or.inl rfl) ?_ ?_ ?_ ?_ ?_ ?_ <;> (intro x hx; simp at hx)
                    · rw [if_neg hip] at h
                      rcases hdis : r.getDiscriminator (GoType.interfaceT n ms) with _ | d
                      · rw [hdis] at h
                        dsimp only at h
                        have hschema : ∀ dq : Defs, RefsOk dq (STy.mk { type := "object", additionalProperties := AddlProps.boolv true }) := by
                          intro dq
                          refine RefsOk.intro _ (Or.inl rfl) ?_ ?_ ?_ ?_ ?_ ?_ <;> (intro x hx; simp at hx)
                        by_cases hn : n ≠ ""
                        · rw [if_pos hn] at h
                          simp only [addToDefinitions, Res.ok.injEq, Prod.mk.injEq] at h
                          obtain ⟨hs, hdd⟩ := h
                          rw [← hs, ← hdd]
                          refine ⟨keysSub_insert defs _ _, DefsOk.insert hD (hschema _), ?_⟩
                          exact RefsOk_getTypeRef _ _ (by rw [defsGet_insert_self]; rfl)
                        · rw [if_neg hn] at h
                          simp only [Res.ok.injEq, Prod.mk.injEq] at h
                          obtain ⟨hs, hdd⟩ := h
                          rw [← hs, ← hdd]
                          exact ⟨keysSub_refl defs, hD, hschema _⟩
                      · rw [hdis] at h
                        dsimp only at h
                        obtain ⟨⟨branches, d2⟩, hloop, hrest⟩ := Res.bind_ok_inv h
                        obtain ⟨ks1, hD1, hbr⟩ := ihD _ _ _ _ _ hD hloop
                        dsimp only at hrest
                        have hu : RefsOk d2 (STy.mk { oneOf := branches.insertionSort refLe, additionalProperties := AddlProps.boolv false }) := by
                          refine RefsOk.intro _ (Or.inl rfl) ?_ ?_ ?_ ?_ ?_ ?_
                          · intro x hx; simp at hx
                          · intro p hp; simp at hp
                          · intro x hx; simp at hx
                          · intro x hx; simp at hx
                          · intro x hx
                            simp only [STy.node_mk] at hx
                            exact hbr x ((List.perm_insertionSort refLe branches).mem_iff.mp hx)
                          · intro x hx; simp at hx
                        by_cases hn : n ≠ ""
                        · rw [if_pos hn] at hrest
                          simp only [addToDefinitions, Res.ok.injEq, Prod.mk.injEq] at hrest
                          obtain ⟨hs, hdd⟩ := hrest
                          rw [← hs, ← hdd]
                          refine ⟨keysSub_trans ks1 (keysSub_insert d2 _ _),
                            DefsOk.insert hD1 (RefsOk.mono (keysSub_insert d2 _ _) hu), ?_⟩
                          exact RefsOk_getTypeRef _ _ (by rw [defsGet_insert_self]; rfl)
                        · rw [if_neg hn] at hrest
                          simp only [Res.ok.injEq, Prod.mk.injEq] at hrest
                          obtain ⟨hs, hdd⟩ := hrest
                          rw [← hs, ← hdd]
                          exact ⟨ks1, hD1, hu⟩
                  · rw [hm] at h
                    dsimp only at h
                    simp only [Res.ok.injEq, Prod.mk.injEq] at h
                    obtain ⟨hs, hdd⟩ := h
                    rw [← hs, ← hdd]
                    exact ⟨keysSub_refl defs, hD, NoRefs.refsOk defs (hTM _ _ hm)⟩
                · rw [he] at h
                  dsimp only at h
                  simp only [Res.ok.injEq, Prod.mk.injEq] at h
                  obtain ⟨hs, hdd⟩ := h
                  rw [← hs, ← hdd]
                  refine ⟨keysSub_refl defs, hD, ?_⟩
                  clear hs
                  refine RefsOk.intro _ (Or.inl rfl) ?_ ?_ ?_ ?_ ?_ ?_ <;> (intro x hx; simp at hx)
        | intT n ms k =>
            rw [reflectTypeToSchema] at h
            by_cases h1 : (defsGet defs (goName (GoType.intT n ms k))).isSome = true
            · rw [if_pos h1] at h
              simp only [Res.ok.injEq, Prod.mk.injEq] at h
              obtain ⟨hs, hdd⟩ := h
              rw [← hs, ← hdd]
              refine ⟨keysSub_refl defs, hD, ?_⟩
              clear hs
              refine RefsOk.intro _ (Or.inr ⟨goName (GoType.intT n ms k), rfl, h1⟩) ?_ ?_ ?_ ?_ ?_ ?_ <;> (intro x hx; simp at hx)
            · rw [if_neg h1] at h
              by_cases h2 : goImplements (GoType.intT n ms k) protoEnumType = true
              · rw [if_pos h2] at h
                simp only [Res.ok.injEq, Prod.mk.injEq] at h
                obtain ⟨hs, hdd⟩ := h
                rw [← hs, ← hdd]
                refine ⟨keysSub_refl defs, hD, ?_⟩
                clear hs
                have hstr : RefsOk defs (STy.mk { type := "string" }) := by
                  refine RefsOk.intro _ (Or.inl rfl) ?_ ?_ ?_ ?_ ?_ ?_ <;> (intro x hx; simp at hx)
                have hint : RefsOk defs (STy.mk { type := "integer" }) := by
                  refine RefsOk.intro _ (Or.inl rfl) ?_ ?_ ?_ ?_ ?_ ?_ <;> (intro x hx; simp at hx)
                refine RefsOk.intro _ (Or.inl rfl) ?_ ?_ ?_ ?_ ?_ ?_
                · intro x hx; simp at hx
                · intro p hp; simp at hp
                · intro x hx; simp at hx
                · intro x hx; simp at hx
                · intro x hx
                  simp only [STy.node_mk, List.mem_cons, List.not_mem_nil, or_false] at hx
                  rcases hx with hx | hx
                  · rw [hx]; exact hstr
                  · rw [hx]; exact hint
                · intro x hx; simp at hx
              · rw [if_neg h2] at h
                rcases he : r.getEnum (GoType.intT n ms k) with _ | en
                · rw [he] at h
                  dsimp only at h
                  rcases hm : mapperAt r (GoType.intT n ms k) with _ | sm
                  · rw [hm] at h
                    dsimp only at h
                    by_cases hip : (GoType.intT n ms k) = ipType
                    · rw [if_pos hip] at h
                      simp only [Res.ok.injEq, Prod.mk.injEq] at h
                      obtain ⟨hs, hdd⟩ := h
                      rw [← hs, ← hdd]
                      refine ⟨keysSub_refl defs, hD, ?_⟩
                      clear hs
                      refine RefsOk.intro _ (Or.inl rfl) ?_ ?_ ?_ ?_ ?_ ?_ <;> (intro x hx; simp at hx)
                    · rw [if_neg hip] at h
                      simp only [Res.ok.injEq, Prod.mk.injEq] at h
                      obtain ⟨hs, hdd⟩ := h
                      rw [← hs, ← hdd]
                      refine ⟨keysSub_refl defs, hD, ?_⟩
                      clear hs
                      refine RefsOk.intro _ (Or.inl rfl) ?_ ?_ ?_ ?_ ?_ ?_ <;> (intro x hx; simp at hx)
                  · rw [hm] at h
                    dsimp only at h
                    simp only [Res.ok.injEq, Prod.mk.injEq] at h
                    obtain ⟨hs, hdd⟩ := h
                    rw [← hs, ← hdd]
                    exact ⟨keysSub_refl defs, hD, NoRefs.refsOk defs (hTM _ _ hm)⟩
                · rw [he] at h
                  dsimp only at h
                  simp only [Res.ok.injEq, Prod.mk.injEq] at h
                  obtain ⟨hs, hdd⟩ := h
                  rw [← hs, ← hdd]
                  refine ⟨keysSub_refl defs, hD, ?_⟩
                  clear hs
                  refine RefsOk.intro _ (Or.inl rfl) ?_ ?_ ?_ ?_ ?_ ?_ <;> (intro x hx; simp at hx)
        | floatT n ms k =>
            rw [reflectTypeToSchema] at h
            by_cases h1 : (defsGet defs (goName (GoType.floatT n ms k))).isSome = true
            · rw [if_pos h1] at h
              simp only [Res.ok.injEq, Prod.mk.injEq] at h
              obtain ⟨hs, hdd⟩ := h
              rw [← hs, ← hdd]
              refine ⟨keysSub_refl defs, hD, ?_⟩
              clear hs
              refine RefsOk.intro _ (Or.inr ⟨goName (GoType.floatT n ms k), rfl, h1⟩) ?_ ?_ ?_ ?_ ?_ ?_ <;> (intro x hx; simp at hx)
            · rw [if_neg h1] at h
              by_cases h2 : goImplements (GoType.floatT n ms k) protoEnumType = true
              · rw [if_pos h2] at h
                simp only [Res.ok.injEq, Prod.mk.injEq] at h
                obtain ⟨hs, hdd⟩ := h
                rw [← hs, ← hdd]
                refine ⟨keysSub_refl defs, hD, ?_⟩
                clear hs
                have hstr : RefsOk defs (STy.mk { type := "string" }) := by
                  refine RefsOk.intro _ (Or.inl rfl) ?_ ?_ ?_ ?_ ?_ ?_ <;> (intro x hx; simp at hx)
                have hint : RefsOk defs (STy.mk { type := "integer" }) := by
                  refine RefsOk.intro _ (Or.inl rfl) ?_ ?_ ?_ ?_ ?_ ?_ <;> (intro x hx; simp at hx)
                refine RefsOk.intro _ (Or.inl rfl) ?_ ?_ ?_ ?_ ?_ ?_
                · intro x hx; simp at hx
                · intro p hp; simp at hp
                · intro x hx; simp at hx
                · intro x hx; simp at hx
                · intro x hx
                  simp only [STy.node_mk, List.mem_cons, List.not_mem_nil, or_false] at hx
                  rcases hx with hx | hx
                  · rw [hx]; exact hstr
                  · rw [hx]; exact hint
                · intro x hx; simp at hx
              · rw [if_neg h2] at h
                rcases he : r.getEnum (GoType.floatT n ms k) with _ | en
                · rw [he] at h
                  dsimp only at h
                  rcases hm : mapperAt r (GoType.floatT n ms k) with _ | sm
                  · rw [hm] at h
                    dsimp only at h
                    by_cases hip : (GoType.floatT n ms k) = ipType
                    · rw [if_pos hip] at h
                      simp only [Res.ok.injEq, Prod.mk.injEq] at h
                      obtain ⟨hs, hdd⟩ := h
                      rw [← hs, ← hdd]
                      refine ⟨keysSub_refl defs, hD, ?_⟩
                      clear hs
                      refine RefsOk.intro _ (Or.inl rfl) ?_ ?_ ?_ ?_ ?_ ?_ <;> (intro x hx; simp at hx)
                    · rw [if_neg hip] at h
                      simp only [Res.ok.injEq, Prod.mk.injEq] at h
                      obtain ⟨hs, hdd⟩ := h
                      rw [← hs, ← hdd]
                      refine ⟨keysSub_refl defs, hD, ?_⟩
                      clear hs
                      refine RefsOk.intro _ (Or.inl rfl) ?_ ?_ ?_ ?_ ?_ ?_ <;> (intro x hx; simp at hx)
                  · rw [hm] at h
                    dsimp only at h
                    simp only [Res.ok.injEq, Prod.mk.injEq] at h
                    obtain ⟨hs, hdd⟩ := h
                    rw [← hs, ← hdd]
                    exact ⟨keysSub_refl defs, hD, NoRefs.refsOk defs (hTM _ _ hm)⟩
                · rw [he] at h
                  dsimp only at h
                  simp only [Res.ok.injEq, Prod.mk.injEq] at h
                  obtain ⟨hs, hdd⟩ := h
                  rw [← hs, ← hdd]
                  refine ⟨keysSub_refl defs, hD, ?_⟩
                  clear hs
                  refine RefsOk.intro _ (Or.inl rfl) ?_ ?_ ?_ ?_ ?_ ?_ <;> (intro x hx; simp at hx)
        | boolT n ms =>
            rw [reflectTypeToSchema] at h
            by_cases h1 : (defsGet defs (goName (GoType.boolT n ms))).isSome = true
            · rw [if_pos h1] at h
              simp only [Res.ok.injEq, Prod.mk.injEq] at h
              obtain ⟨hs, hdd⟩ := h
              rw [← hs, ← hdd]
              refine ⟨keysSub_refl defs, hD, ?_⟩
              clear hs
              refine RefsOk.intro _ (Or.inr ⟨goName (GoType.boolT n ms), rfl, h1⟩) ?_ ?_ ?_ ?_ ?_ ?_ <;> (intro x hx; simp at hx)
            · rw [if_neg h1] at h
              by_cases h2 : goImplements (GoType.boolT n ms) protoEnumType = true
              · rw [if_pos h2] at h
                simp only [Res.ok.injEq, Prod.mk.injEq] at h
                obtain ⟨hs, hdd⟩ := h
                rw [← hs, ← hdd]
                refine ⟨keysSub_refl defs, hD, ?_⟩
                clear hs
                have hstr : RefsOk defs (STy.mk { type := "string" }) := by
                  refine RefsOk.intro _ (Or.inl rfl) ?_ ?_ ?_ ?_ ?_ ?_ <;> (intro x hx; simp at hx)
                have hint : RefsOk defs (STy.mk { type := "integer" }) := by
                  refine RefsOk.intro _ (Or.inl rfl) ?_ ?_ ?_ ?_ ?_ ?_ <;> (intro x hx; simp at hx)
                refine RefsOk.intro _ (Or.inl rfl) ?_ ?_ ?_ ?_ ?_ ?_
                · intro x hx; simp at hx
                · intro p hp; simp at hp
                · intro x hx; simp at hx
                · intro x hx; simp at hx
                · intro x hx
                  simp only [STy.node_mk, List.mem_cons, List.not_mem_nil, or_false] at hx
                  rcases hx with hx | hx
                  · rw [hx]; exact hstr
                  · rw [hx]; exact hint
                · intro x hx; simp at hx
              · rw [if_neg h2] at h
                rcases he : r.getEnum (GoType.boolT n ms) with _ | en
                · rw [he] at h
                  dsimp only at h
                  rcases hm : mapperAt r (GoType.boolT n ms) with _ | sm
                  · rw [hm] at h
                    dsimp only at h
                    by_cases hip : (GoType.boolT n ms) = ipType
                    · rw [if_pos hip] at h
                      simp only [Res.ok.injEq, Prod.mk.injEq] at h
                      obtain ⟨hs, hdd⟩ := h
                      rw [← hs, ← hdd]
                      refine ⟨keysSub_refl defs, hD, ?_⟩
                      clear hs
                      refine RefsOk.intro _ (Or.inl rfl) ?_ ?_ ?_ ?_ ?_ ?_ <;> (intro x hx; simp at hx)
                    · rw [if_neg hip] at h
                      simp only [Res.ok.injEq, Prod.mk.injEq] at h
                      obtain ⟨hs, hdd⟩ := h
                      rw [← hs, ← hdd]
                      refine ⟨keysSub_refl defs, hD, ?_⟩
                      clear hs
                      refine RefsOk.intro _ (Or.inl rfl) ?_ ?_ ?_ ?_ ?_ ?_ <;> (intro x hx; simp at hx)
                  · rw [hm] at h
                    dsimp only at h
                    simp only [Res.ok.injEq, Prod.mk.injEq] at h
                    obtain ⟨hs, hdd⟩ := h
                    rw [← hs, ← hdd]
                    exact ⟨keysSub_refl defs, hD, NoRefs.refsOk defs (hTM _ _ hm)⟩
                · rw [he] at h
                  dsimp only at h
                  simp only [Res.ok.injEq, Prod.mk.injEq] at h
                  obtain ⟨hs, hdd⟩ := h
                  rw [← hs, ← hdd]
                  refine ⟨keysSub_refl defs, hD, ?_⟩
                  clear hs
                  refine RefsOk.intro _ (Or.inl rfl) ?_ ?_ ?_ ?_ ?_ ?_ <;> (intro x hx; simp at hx)
        | stringT n ms =>
            rw [reflectTypeToSchema] at h
            by_cases h1 : (defsGet defs (goName (GoType.stringT n ms))).isSome = true
            · rw [if_pos h1] at h
              simp only [Res.ok.injEq, Prod.mk.injEq] at h
              obtain ⟨hs, hdd⟩ := h
              rw [← hs, ← hdd]
              refine ⟨keysSub_refl defs, hD, ?_⟩
              clear hs
              refine RefsOk.intro _ (Or.inr ⟨goName (GoType.stringT n ms), rfl, h1⟩) ?_ ?_ ?_ ?_ ?_ ?_ <;> (intro x hx; simp at hx)
            · rw [if_neg h1] at h
              by_cases h2 : goImplements (GoType.stringT n ms) protoEnumType = true
              · rw [if_pos h2] at h
                simp only [Res.ok.injEq, Prod.mk.injEq] at h
                obtain ⟨hs, hdd⟩ := h
                rw [← hs, ← hdd]
                refine ⟨keysSub_refl defs, hD, ?_⟩
                clear hs
                have hstr : RefsOk defs (STy.mk { type := "string" }) := by
                  refine RefsOk.intro _ (Or.inl rfl) ?_ ?_ ?_ ?_ ?_ ?_ <;> (intro x hx; simp at hx)
                have hint : RefsOk defs (STy.mk { type := "integer" }) := by
                  refine RefsOk.intro _ (Or.inl rfl) ?_ ?_ ?_ ?_ ?_ ?_ <;> (intro x hx; simp at hx)
                refine RefsOk.intro _ (Or.inl rfl) ?_ ?_ ?_ ?_ ?_ ?_
                · intro x hx; simp at hx
                · intro p hp; simp at hp
                · intro x hx; simp at hx
                · intro x hx; simp at hx
                · intro x hx
                  simp only [STy.node_mk, List.mem_cons, List.not_mem_nil, or_false] at hx
                  rcases hx with hx | hx
                  · rw [hx]; exact hstr
                  · rw [hx]; exact hint
                · intro x hx; simp at hx
              · rw [if_neg h2] at h
                rcases he : r.getEnum (GoType.stringT n ms) with _ | en
                · rw [he] at h
                  dsimp only at h
                  rcases hm : mapperAt r (GoType.stringT n ms) with _ | sm
                  · rw [hm] at h
                    dsimp only at h
                    by_cases hip : (GoType.stringT n ms) = ipType
                    · rw [if_pos hip] at h
                      simp only [Res.ok.injEq, Prod.mk.injEq] at h
                      obtain ⟨hs, hdd⟩ := h
                      rw [← hs, ← hdd]
                      refine ⟨keysSub_refl defs, hD, ?_⟩
                      clear hs
                      refine RefsOk.intro _ (Or.inl rfl) ?_ ?_ ?_ ?_ ?_ ?_ <;> (intro x hx; simp at hx)
                    · rw [if_neg hip] at h
                      simp only [Res.ok.injEq, Prod.mk.injEq] at h
                      obtain ⟨hs, hdd⟩ := h
                      rw [← hs, ← hdd]
                      refine ⟨keysSub_refl defs, hD, ?_⟩
                      clear hs
                      refine RefsOk.intro _ (Or.inl rfl) ?_ ?_ ?_ ?_ ?_ ?_ <;> (intro x hx; simp at hx)
                  · rw [hm] at h
                    dsimp only at h
                    simp only [Res.ok.injEq, Prod.mk.injEq] at h
                    obtain ⟨hs, hdd⟩ := h
                    rw [← hs, ← hdd]
                    exact ⟨keysSub_refl defs, hD, NoRefs.refsOk defs (hTM _ _ hm)⟩
                · rw [he] at h
                  dsimp only at h
                  simp only [Res.ok.injEq, Prod.mk.injEq] at h
                  obtain ⟨hs, hdd⟩ := h
                  rw [← hs, ← hdd]
                  refine ⟨keysSub_refl defs, hD, ?_⟩
                  clear hs
                  refine RefsOk.intro _ (Or.inl rfl) ?_ ?_ ?_ ?_ ?_ ?_ <;> (intro x hx; simp at hx)
        | ptrT n ms e =>
            rw [reflectTypeToSchema] at h
            by_cases h1 : (defsGet defs (goName (GoType.ptrT n ms e))).isSome = true
            · rw [if_pos h1] at h
              simp only [Res.ok.injEq, Prod.mk.injEq] at h
              obtain ⟨hs, hdd⟩ := h
              rw [← hs, ← hdd]
              refine ⟨keysSub_refl defs, hD, ?_⟩
              clear hs
              refine RefsOk.intro _ (Or.inr ⟨goName (GoType.ptrT n ms e), rfl, h1⟩) ?_ ?_ ?_ ?_ ?_ ?_ <;> (intro x hx; simp at hx)
            · rw [if_neg h1] at h
              by_cases h2 : goImplements (GoType.ptrT n ms e) protoEnumType = true
              · rw [if_pos h2] at h
                simp only [Res.ok.injEq, Prod.mk.injEq] at h
                obtain ⟨hs, hdd⟩ := h
                rw [← hs, ← hdd]
                refine ⟨keysSub_refl defs, hD, ?_⟩
                clear hs
                have hstr : RefsOk defs (STy.mk { type := "string" }) := by
                  refine RefsOk.intro _ (Or.inl rfl) ?_ ?_ ?_ ?_ ?_ ?_ <;> (intro x hx; simp at hx)
                have hint : RefsOk defs (STy.mk { type := "integer" }) := by
                  refine RefsOk.intro _ (Or.inl rfl) ?_ ?_ ?_ ?_ ?_ ?_ <;> (intro x hx; simp at hx)
                refine RefsOk.intro _ (Or.inl rfl) ?_ ?_ ?_ ?_ ?_ ?_
                · intro x hx; simp at hx
                · intro p hp; simp at hp
                · intro x hx; simp at hx
                · intro x hx; simp at hx
                · intro x hx
                  simp only [STy.node_mk, List.mem_cons, List.not_mem_nil, or_false] at hx
                  rcases hx with hx | hx
                  · rw [hx]; exact hstr
                  · rw [hx]; exact hint
                · intro x hx; simp at hx
              · rw [if_neg h2] at h
                rcases he : r.getEnum (GoType.ptrT n ms e) with _ | en
                · rw [he] at h
                  dsimp only at h
                  rcases hm : mapperAt r (GoType.ptrT n ms e) with _ | sm
                  · rw [hm] at h
                    dsimp only at h
                    by_cases hip : (GoType.ptrT n ms e) = ipType
                    · rw [if_pos hip] at h
                      simp only [Res.ok.injEq, Prod.mk.injEq] at h
                      obtain ⟨hs, hdd⟩ := h
                      rw [← hs, ← hdd]
                      refine ⟨keysSub_refl defs, hD, ?_⟩
                      clear hs
                      refine RefsOk.intro _ (Or.inl rfl) ?_ ?_ ?_ ?_ ?_ ?_ <;> (intro x hx; simp at hx)
                    · rw [if_neg hip] at h
                      exact ihT _ _ _ _ hD h
                  · rw [hm] at h
                    dsimp only at h
                    simp only [Res.ok.injEq, Prod.mk.injEq] at h
                    obtain ⟨hs, hdd⟩ := h
                    rw [← hs, ← hdd]
                    exact ⟨keysSub_refl defs, hD, NoRefs.refsOk defs (hTM _ _ hm)⟩
                · rw [he] at h
                  dsimp only at h
                  simp only [Res.ok.injEq, Prod.mk.injEq] at h
                  obtain ⟨hs, hdd⟩ := h
                  rw [← hs, ← hdd]
                  refine ⟨keysSub_refl defs, hD, ?_⟩
                  clear hs
                  refine RefsOk.intro _ (Or.inl rfl) ?_ ?_ ?_ ?_ ?_ ?_ <;> (intro x hx; simp at hx)
        | otherT n ms k =>
            rw [reflectTypeToSchema] at h
            by_cases h1 : (defsGet defs (goName (GoType.otherT n ms k))).isSome = true
            · rw [if_pos h1] at h
              simp only [Res.ok.injEq, Prod.mk.injEq] at h
              obtain ⟨hs, hdd⟩ := h
              rw [← hs, ← hdd]
              refine ⟨keysSub_refl defs, hD, ?_⟩
              clear hs
              refine RefsOk.intro _ (Or.inr ⟨goName (GoType.otherT n ms k), rfl, h1⟩) ?_ ?_ ?_ ?_ ?_ ?_ <;> (intro x hx; simp at hx)
            · rw [if_neg h1] at h
              by_cases h2 : goImplements (GoType.otherT n ms k) protoEnumType = true
              · rw [if_pos h2] at h
                simp only [Res.ok.injEq, Prod.mk.injEq] at h
                obtain ⟨hs, hdd⟩ := h
                rw [← hs, ← hdd]
                refine ⟨keysSub_refl defs, hD, ?_⟩
                clear hs
                have hstr : RefsOk defs (STy.mk { type := "string" }) := by
                  refine RefsOk.intro _ (Or.inl rfl) ?_ ?_ ?_ ?_ ?_ ?_ <;> (intro x hx; simp at hx)
                have hint : RefsOk defs (STy.mk { type := "integer" }) := by
                  refine RefsOk.intro _ (Or.inl rfl) ?_ ?_ ?_ ?_ ?_ ?_ <;> (intro x hx; simp at hx)
                refine RefsOk.intro _ (Or.inl rfl) ?_ ?_ ?_ ?_ ?_ ?_
                · intro x hx; simp at hx
                · intro p hp; simp at hp
                · intro x hx; simp at hx
                · intro x hx; simp at hx
                · intro x hx
                  simp only [STy.node_mk, List.mem_cons, List.not_mem_nil, or_false] at hx
                  rcases hx with hx | hx
                  · rw [hx]; exact hstr
                  · rw [hx]; exact hint
                · intro x hx; simp at hx
              · rw [if_neg h2] at h
                rcases he : r.getEnum (GoType.otherT n ms k) with _ | en
                · rw [he] at h
                  dsimp only at h
                  rcases hm : mapperAt r (GoType.otherT n ms k) with _ | sm
                  · rw [hm] at h
                    dsimp only at h
                    by_cases hip : (GoType.otherT n ms k) = ipType
                    · rw [if_pos hip] at h
                      simp only [Res.ok.injEq, Prod.mk.injEq] at h
                      obtain ⟨hs, hdd⟩ := h
                      rw [← hs, ← hdd]
                      refine ⟨keysSub_refl defs, hD, ?_⟩
                      clear hs
                      refine RefsOk.intro _ (Or.inl rfl) ?_ ?_ ?_ ?_ ?_ ?_ <;> (intro x hx; simp at hx)
                    · rw [if_neg hip] at h
                      cases h
                  · rw [hm] at h
                    dsimp only at h
                    simp only [Res.ok.injEq, Prod.mk.injEq] at h
                    obtain ⟨hs, hdd⟩ := h
                    rw [← hs, ← hdd]
                    exact ⟨keysSub_refl defs, hD, NoRefs.refsOk defs (hTM _ _ hm)⟩
                · rw [he] at h
                  dsimp only at h
                  simp only [Res.ok.injEq, Prod.mk.injEq] at h
                  obtain ⟨hs, hdd⟩ := h
                  rw [← hs, ← hdd]
                  refine ⟨keysSub_refl defs, hD, ?_⟩
                  clear hs
                  refine RefsOk.intro _ (Or.inl rfl) ?_ ?_ ?_ ?_ ?_ ?_ <;> (intro x hx; simp at hx)
      · -- discrimLoop
        intro defs pairs dField nodes defs' hD h
        cases pairs with
        | nil =>
            rw [discrimLoop] at h
            simp only [Res.ok.injEq, Prod.mk.injEq] at h
            obtain ⟨hs, hdd⟩ := h
            rw [← hs, ← hdd]
            exact ⟨keysSub_refl defs, hD, by intro x hx; simp at hx⟩
        | cons p rest =>
            obtain ⟨dKey, anc⟩ := p
            rw [discrimLoop] at h
            obtain ⟨⟨ancRef, d1⟩, hanc, hrest⟩ := Res.bind_ok_inv h
            obtain ⟨ks1, hD1, hRanc⟩ := ihR _ _ _ _ _ _ hD hanc
            dsimp only at hrest
            obtain ⟨⟨restRefs, d2⟩, hloop, hfin⟩ := Res.bind_ok_inv hrest
            obtain ⟨ks2, hD2, hRrest⟩ := ihD _ _ _ _ _ hD1 hloop
            dsimp only at hfin
            simp only [Res.ok.injEq, Prod.mk.injEq] at hfin
            obtain ⟨hs, hdd⟩ := hfin
            rw [← hs, ← hdd]
            refine ⟨keysSub_trans ks1 ks2, hD2, ?_⟩
            intro x hx
            rcases List.mem_cons.mp hx with hx | hx
            · rw [hx]
              have h2 : RefsOk d2 ancRef := RefsOk.mono ks2 hRanc
              exact RefsOk_setTitle h2 dKey
            · exact hRrest x hx
      · -- reflectDiscriminatedStruct
        intro defs t dField dKey s defs' hD h
        rw [reflectDiscriminatedStruct] at h
        have hst0 := RefsOk_setRequired (RefsOk_setProp
          (RefsOk_emptyObject defs (r.AllowAdditionalProperties || r.isIgnored t))
          dField (RefsOk_constString defs dKey)) ((emptyObjectSchema
            (r.AllowAdditionalProperties || r.isIgnored t)).node.required ++ [dField])
        by_cases hIg : r.isIgnored t = true
        · simp only [hIg, Bool.not_true, Bool.false_eq_true, if_false] at h
          simp only [hIg] at hst0
          obtain ⟨⟨stf, d1⟩, hmid, hfin⟩ := Res.bind_ok_inv h
          simp only [Res.ok.injEq, Prod.mk.injEq] at hmid
          obtain ⟨hst, hd1⟩ := hmid
          dsimp only at hfin
          simp only [addToDefinitions, Res.ok.injEq, Prod.mk.injEq] at hfin
          obtain ⟨hs, hdd⟩ := hfin
          rw [← hs, ← hdd, ← hst, ← hd1]
          refine ⟨keysSub_insert defs _ _, DefsOk.insert hD ?_, ?_⟩
          · exact RefsOk.mono (keysSub_insert defs _ _) hst0
          · exact RefsOk_getTypeRef _ _ (by rw [defsGet_insert_self]; rfl)
        · simp only [Bool.not_eq_true] at hIg
          simp only [hIg, Bool.not_false, if_true] at h
          simp only [hIg] at hst0
          obtain ⟨⟨stf, d1⟩, hmid, hfin⟩ := Res.bind_ok_inv h
          obtain ⟨ks1, hD1, hRstf⟩ := ihF _ _ _ _ _ hD hst0 hmid
          dsimp only at hfin
          simp only [addToDefinitions, Res.ok.injEq, Prod.mk.injEq] at hfin
          obtain ⟨hs, hdd⟩ := hfin
          rw [← hs, ← hdd]
          refine ⟨keysSub_trans ks1 (keysSub_insert d1 _ _),
            DefsOk.insert hD1 ?_, ?_⟩
          · exact RefsOk.mono (keysSub_insert d1 _ _) hRstf
          · exact RefsOk_getTypeRef _ _ (by rw [defsGet_insert_self]; rfl)
      · -- reflectStruct
        intro defs t s defs' hD h
        rw [reflectStruct] at h
        have hst0 := RefsOk_emptyObject defs
          (r.AllowAdditionalProperties || r.isIgnored t)
        by_cases hIg : r.isIgnored t = true
        · simp only [hIg, Bool.not_true, Bool.false_eq_true, if_false] at h
          simp only [hIg] at hst0
          obtain ⟨⟨stf, d1⟩, hmid, hfin⟩ := Res.bind_ok_inv h
          simp only [Res.ok.injEq, Prod.mk.injEq] at hmid
          obtain ⟨hst, hd1⟩ := hmid
          dsimp only at hfin
          simp only [addToDefinitions, Res.ok.injEq, Prod.mk.injEq] at hfin
          obtain ⟨hs, hdd⟩ := hfin
          rw [← hs, ← hdd, ← hst, ← hd1]
          refine ⟨keysSub_insert defs _ _, DefsOk.insert hD ?_, ?_⟩
          · exact RefsOk.mono (keysSub_insert defs _ _) hst0
          · exact RefsOk_getTypeRef _ _ (by rw [defsGet_insert_self]; rfl)
        · simp only [Bool.not_eq_true] at hIg
          simp only [hIg, Bool.not_false, if_true] at h
          simp only [hIg] at hst0
          obtain ⟨⟨stf, d1⟩, hmid, hfin⟩ := Res.bind_ok_inv h
          obtain ⟨ks1, hD1, hRstf⟩ := ihF _ _ _ _ _ hD hst0 hmid
          dsimp only at hfin
          simp only [addToDefinitions, Res.ok.injEq, Prod.mk.injEq] at hfin
          obtain ⟨hs, hdd⟩ := hfin
          rw [← hs, ← hdd]
          refine ⟨keysSub_trans ks1 (keysSub_insert d1 _ _),
            DefsOk.insert hD1 ?_, ?_⟩
          · exact RefsOk.mono (keysSub_insert d1 _ _) hRstf
          · exact RefsOk_getTypeRef _ _ (by rw [defsGet_insert_self]; rfl)
      · -- reflectStructFields
        intro st defs t st' defs' hD hR h
        rw [reflectStructFields] at h
        cases hu : unwrapPtrOnce t
        case structT tn tm tf =>
          rw [hu] at h
          dsimp only at h
          obtain ⟨⟨mid, d1⟩, hmid, hfin⟩ := Res.bind_ok_inv h
          obtain ⟨ks1, hD1, hRmid⟩ := ihL _ _ _ _ _ hD hR hmid
          dsimp only at hfin
          by_cases hc : mid.node.allOf.length = 1 ∧ mid.node.oneOf.length = 0
          · rw [if_pos hc] at hfin
            simp only [Res.ok.injEq, Prod.mk.injEq] at hfin
            obtain ⟨hs, hdd⟩ := hfin
            rw [← hs, ← hdd]
            exact ⟨ks1, hD1, RefsOk_promote hRmid⟩
          · rw [if_neg hc] at hfin
            simp only [Res.ok.injEq, Prod.mk.injEq] at hfin
            obtain ⟨hs, hdd⟩ := hfin
            rw [← hs, ← hdd]
            exact ⟨ks1, hD1, hRmid⟩
        all_goals
          rw [hu] at h
          dsimp only at h
          simp only [Res.ok.injEq, Prod.mk.injEq] at h
          obtain ⟨hs, hdd⟩ := h
          rw [← hs, ← hdd]
          exact ⟨keysSub_refl defs, hD, hR⟩
      · -- fieldsLoop
        intro st defs fs st' defs' hD hR h
        cases fs with
        | nil =>
            rw [fieldsLoop] at h
            simp only [Res.ok.injEq, Prod.mk.injEq] at h
            obtain ⟨hs, hdd⟩ := h
            rw [← hs, ← hdd]
            exact ⟨keysSub_refl defs, hD, hR⟩
        | cons f rest =>
            rw [fieldsLoop] at h
            rcases hrf : reflectFieldName r f with ⟨⟨nm, req, inl⟩, ex⟩
            rw [hrf] at h
            dsimp only at h
            by_cases hinl : inl = true
            · rw [if_pos (by simp [hinl])] at h
              obtain ⟨⟨prop, d1⟩, hprop, hrest⟩ := Res.bind_ok_inv h
              obtain ⟨ks1, hD1, hRprop⟩ := ihT _ _ _ _ hD hprop
              dsimp only at hrest
              obtain ⟨ks2, hD2, hRfin⟩ := ihL _ _ _ _ _ hD1
                (RefsOk_addAllOf (RefsOk.mono ks1 hR) hRprop) hrest
              exact ⟨keysSub_trans ks1 ks2, hD2, hRfin⟩
            · rw [if_neg (by simp [hinl])] at h
              by_cases hnm : nm = ""
              · rw [if_pos (by simp [hnm])] at h
                by_cases hae : (f.anonymous && !ex) = true
                · rw [if_pos hae] at h
                  obtain ⟨⟨st1, d1⟩, hmid, hrest⟩ := Res.bind_ok_inv h
                  obtain ⟨ks1, hD1, hRst1⟩ := ihF _ _ _ _ _ hD hR hmid
                  obtain ⟨ks2, hD2, hRfin⟩ := ihL _ _ _ _ _ hD1 hRst1 hrest
                  exact ⟨keysSub_trans ks1 ks2, hD2, hRfin⟩
                · rw [if_neg hae] at h
                  exact ihL _ _ _ _ _ hD hR h
              · rw [if_neg (by simp [hnm])] at h
                obtain ⟨⟨prop, d1⟩, hprop, hrest⟩ := Res.bind_ok_inv h
                obtain ⟨ks1, hD1, hRprop⟩ := ihT _ _ _ _ hD hprop
                dsimp only at hrest
                have hRst2 : RefsOk d1 (STy.mk { st.node with
                    properties := propsInsert st.node.properties nm
                      (prop.structKeywordsFromTags f) }) :=
                  RefsOk_setProp (RefsOk.mono ks1 hR) nm
                    (RefsOk_structKeywords f hRprop)
                by_cases hreq : req = true
                · rw [if_pos (by simp [hreq])] at hrest
                  obtain ⟨ks2, hD2, hRfin⟩ := ihL _ _ _ _ _ hD1
                    (RefsOk_setRequired hRst2 _) hrest
                  exact ⟨keysSub_trans ks1 ks2, hD2, hRfin⟩
                · rw [if_neg (by simp [hreq])] at hrest
                  obtain ⟨ks2, hD2, hRfin⟩ := ihL _ _ _ _ _ hD1 hRst2 hrest
                  exact ⟨keysSub_trans ks1 ks2, hD2, hRfin⟩

/-- C1 (amended): once `ReflectFromType` succeeds and the custom type mapper
(when present) returns only reference-free nodes, in standard mode every
reference in the returned root and in every stored definition resolves to a
key of the returned definitions map; in `ExpandedStruct` mode every such
reference either resolves or is exactly the reference to the discarded
root-name entry `#/definitions/<rootName>` (which need not resolve; see the
counterexample). -/
theorem ref_resolution (r : Reflector) (fuel : Nat) (t : GoType) (sch : Schema)
    (hTM : ∀ tq sq, mapperAt r tq = some sq → NoRefs sq)
    (h : ReflectFromType r fuel t = .ok sch) :
    (r.ExpandedStruct = false →
      RefsOk sch.Definitions sch.typ ∧
        ∀ p ∈ sch.Definitions, RefsOk sch.Definitions p.2) ∧
    (r.ExpandedStruct = true →
      RefsOkE sch.Definitions (goName t) sch.typ ∧
        ∀ p ∈ sch.Definitions, RefsOkE sch.Definitions (goName t) p.2) := by
  have hD0 : DefsOk ([] : Defs) := by intro p hp; simp at hp
  rw [ReflectFromType] at h
  by_cases hex : r.ExpandedStruct = true
  · rw [if_pos hex] at h
    dsimp only at h
    obtain ⟨⟨stRoot, d1⟩, hsf, hrest⟩ := Res.bind_ok_inv h
    have hR0 : RefsOk ([] : Defs)
        (STy.mk { version := Version, type := "object", properties := [],
                  additionalProperties := AddlProps.boolv r.AllowAdditionalProperties }) := by
      refine RefsOk.intro _ (Or.inl rfl) ?_ ?_ ?_ ?_ ?_ ?_ <;> (intro x hx; simp at hx)
    obtain ⟨ks1, hD1, hRroot⟩ :=
      (refs_invariant r hTM fuel).2.2.2.2.1 _ _ _ _ _ hD0 hR0 hsf
    dsimp only at hrest
    obtain ⟨⟨sdef, d2⟩, hrs, hfin⟩ := Res.bind_ok_inv hrest
    obtain ⟨ks2, hD2, hRd⟩ :=
      (refs_invariant r hTM fuel).2.2.2.1 _ _ _ _ hD1 hrs
    dsimp only at hfin
    simp only [Res.ok.injEq] at hfin
    rw [← hfin]
    refine ⟨?_, ?_⟩
    · intro hc; rw [hc] at hex; exact absurd hex (by simp)
    · intro _
      refine ⟨RefsOk.toE (RefsOk.mono ks2 hRroot), ?_⟩
      intro p hp
      exact RefsOk.toE (hD2 p (mem_defsErase hp))
  · rw [if_neg hex] at h
    dsimp only at h
    obtain ⟨⟨s1, d1⟩, hrt, hfin⟩ := Res.bind_ok_inv h
    obtain ⟨ks1, hD1, hRs⟩ := (refs_invariant r hTM fuel).1 _ _ _ _ hD0 hrt
    dsimp only at hfin
    simp only [Res.ok.injEq] at hfin
    rw [← hfin]
    exact ⟨fun _ => ⟨hRs, fun p hp => hD1 p hp⟩, fun hc => absurd hc hex⟩

/-- A plain reflector (standard mode, no registrations, no mapper). -/
def c1R : Reflector := {}

/-- A small named struct with one required integer field. -/
def c1T : GoType :=
  .structT "P1" [] (.cons (.mk "A" "" false (some "a") "" "" "" goIntType) .nil)

/-- The schema document produced for `c1T`. -/
def c1Sch : Schema :=
  match ReflectFromType c1R 10 c1T with
  | .ok s => s
  | _ => { typ := .mk {}, Definitions := [] }

theorem ref_resolution_witness :
    RefsOk c1Sch.Definitions c1Sch.typ ∧
      ∀ p ∈ c1Sch.Definitions, RefsOk c1Sch.Definitions p.2 :=
  (ref_resolution c1R 10 c1T c1Sch
    (by intro tq sq hsq; simp [mapperAt, c1R] at hsq) rfl).1 rfl

/-- Expanded-struct reflector. -/
def c1XR : Reflector := { ExpandedStruct := true }

/-- A field type which happens to carry the same declared name `N` as the
root type (two same-named types from different packages). -/
def c1XInner : GoType := .structT "N" [] .nil

/-- The root type of the collision counterexample: `struct N { F N2 }` where
the field type is also named `N`. -/
def c1XT : GoType :=
  .structT "N" [] (.cons (.mk "F" "" false (some "f") "" "" "" c1XInner) .nil)

/-- The expanded-mode document for `c1XT`. -/
def c1XOut : Schema :=
  match ReflectFromType c1XR 10 c1XT with
  | .ok s => s
  | _ => { typ := .mk {}, Definitions := [] }

/-- A reflector whose custom type mapper emits a dangling reference. -/
def c1MR : Reflector := { TypeMapper := some (fun _ => some (getTypeRef "Zed")) }

/-- The document produced under the mapper of `c1MR`. -/
def c1MOut : Schema :=
  match ReflectFromType c1MR 10 goIntType with
  | .ok s => s
  | _ => { typ := .mk {}, Definitions := [] }

/-- C1 counterexamples to the unconditional claim.  First: in
`ExpandedStruct` mode, when a nested type shares the root type's declared
name, the root node keeps a property referring to `#/definitions/N` while the
final `delete(definitions, rootName)` leaves the definitions map empty — the
reference does not resolve.  Second: a custom type mapper can emit a node
referring to a name that is never registered, in plain standard mode. -/
theorem ref_resolution_claim_cex :
    (ReflectFromType c1XR 10 c1XT = Res.ok c1XOut ∧
      propsGet c1XOut.typ.node.properties "f" = some (getTypeRef "N") ∧
      (getTypeRef "N").node.ref = "#/definitions/" ++ "N" ∧
      defsGet c1XOut.Definitions "N" = none ∧
      ¬ RefsOk c1XOut.Definitions c1XOut.typ) ∧
    (ReflectFromType c1MR 10 goIntType = Res.ok c1MOut ∧
      c1MOut.typ = getTypeRef "Zed" ∧
      c1MOut.Definitions = []) := by
  refine ⟨⟨rfl, rfl, rfl, rfl, ?_⟩, rfl, rfl, rfl⟩
  intro hR
  have htyp : c1XOut.typ =
      STy.mk { version := Version, type := "object", required := ["f"],
               properties := [("f", getTypeRef "N")],
               additionalProperties := AddlProps.boolv false } := rfl
  have hE : c1XOut.Definitions = [] := rfl
  rw [htyp, hE] at hR
  cases hR with
  | intro n href hitems hprops hadd hall hone hmedia =>
      have hp := hprops ("f", getTypeRef "N") (List.mem_cons_self _ _)
      rw [getTypeRef] at hp
      cases hp with
      | intro m href2 hitems2 hprops2 hadd2 hall2 hone2 hmedia2 =>
          rcases href2 with h0 | ⟨nm, hnm, hk⟩
          · exact absurd h0 (by decide)
          · simp [defsGet] at hk
